import Mathlib

/-!
Declination backlash compensation (PHD2 `backlash_comp.cpp`).

A shallow embedding of the classes `BLCEvent`, `BLCHistory`, `BacklashComp`,
`RunningStats` and `BacklashTool` of `backlash_comp.cpp`, followed by theorems
about them.

Modelling conventions.

* A C++ `double` is a rational number (`ℚ`): arithmetic is exact, there is no
  rounding error, no infinity and no NaN.  Where the source would convert an
  infinity or a NaN to `int` (division by a zero guide rate) the model fails.
* A C++ `int` is an `Int`; values are assumed to stay inside the 32-bit range.
  Where the source compares an `int` with an `unsigned int` the conversion of
  the `int` operand to `unsigned int` is explicit (`toUInt`).
* A function that reads a vector out of bounds returns `none`.
* State is passed explicitly; `wxGetCurrentTime()` is the argument `now`.
* Debug logging and profile writes are sinks and are left out.
* A step of the measurement tool returns the tool afterwards together with the
  calls it makes (`ScheduleAxisMove`, `ComputeBacklashPx`, `CleanUp`); what it
  reads from the scope, the guider, the camera and the clock is an argument.
* The local `nRate` of `ComputeBacklashPx` is declared without an initialiser and
  is read unassigned when there are at most 3 north steps; the value it then
  holds is an argument (`nRate0`, passed on from the frame of the step).
-/

namespace BLC

/-! ## Constants -/

/-- Source: `static const unsigned int HISTORY_SIZE = 10;` -/
def HISTORY_SIZE : Int := 10

/-- Source: `static const unsigned int MIN_COMP_AMOUNT = 20;` (min pulse in ms). -/
def MIN_COMP_AMOUNT : Int := 20

/-- Source: `static const unsigned int MAX_COMP_AMOUNT = 8000;` (max pulse in ms). -/
def MAX_COMP_AMOUNT : Int := 8000

/-- Source: `const int ENTRY_CAPACITY = 3;` (member of `BLCHistory`). -/
def ENTRY_CAPACITY : Int := 3

/-- Source: `const unsigned int HISTORY_DEPTH = 10;` (member of `BLCHistory`). -/
def HISTORY_DEPTH : Int := 10

/-- Modelled from the spec: the direction enum lives in a header that is not part of
the sources at hand.  `NONE` is the "no direction yet" value. -/
def NONE : Int := -1

/-- Modelled from the spec: `NORTH` (declination +); the same enumerator value as `UP`. -/
def NORTH : Int := 0

/-- Modelled from the spec: `SOUTH` (declination -); the same enumerator value as `DOWN`. -/
def SOUTH : Int := 1

/-- Modelled from the spec: `UP`, used for the sign of a miss. -/
def UP : Int := 0

/-- Modelled from the spec: `DOWN`, used for the sign of a miss. -/
def DOWN : Int := 1

/-- Modelled from the spec: move option bit `ALGO_RESULT` (the move came from a guide
algorithm); the enumerator is declared in a header outside the sources at hand. -/
def MOVEOPT_ALGO_RESULT : Nat := 1

/-- Modelled from the spec: move option bit `USE_BLC` (the move is a candidate for
compensation tracking). -/
def MOVEOPT_USE_BLC : Nat := 4

/-! ## Numeric helpers -/

/-- Conversion of an `int` to a 32-bit `unsigned int`. -/
def toUInt (x : Int) : Int := x % 2 ^ 32

/-- The C++ cast `(int) x` of a `double`: truncation toward zero. -/
def cTrunc (x : ℚ) : Int := if 0 ≤ x then ⌊x⌋ else ⌈x⌉

/-- Modelled from the spec: `ROUND(x)`, rounding to the nearest integer (halves go up);
the helper is defined in a header outside the sources at hand. -/
def ROUND (x : ℚ) : Int := ⌊x + 1 / 2⌋

/-- The call `wxMin(a, b)` with `a` of type `int` and `b` of type `unsigned int`:
both operands are compared as `unsigned int` (usual arithmetic conversions) and the
result has type `unsigned int`. -/
def wxMin_iu (a b : Int) : Int := if toUInt a < b then toUInt a else b

/-- The call `wxMax(a, b)` with `a` of type `int` and `b` of type `unsigned int`. -/
def wxMax_iu (a b : Int) : Int := if toUInt a > b then toUInt a else b

/-! ## CorrectionTuple and BLCEvent -/

/-- Source: `class CorrectionTuple`. -/
structure CorrectionTuple where
  timeSeconds : Int
  miss : ℚ
  deriving DecidableEq, Repr

/-- Source: `class BLCEvent`. -/
structure BLCEvent where
  corrections : List CorrectionTuple
  initialOvershoot : Bool
  initialUndershoot : Bool
  stictionSeen : Bool
  deriving DecidableEq, Repr

namespace BLCEvent

/-- Source: constructor `BLCEvent(long TimeSecs, double Amount)`. -/
def mk1 (TimeSecs : Int) (Amount : ℚ) : BLCEvent :=
  ⟨[⟨TimeSecs, Amount⟩], false, false, false⟩

/-- Source: `InfoCount()`. -/
def InfoCount (e : BLCEvent) : Int := e.corrections.length

/-- Source: `AddEventInfo(long TimeSecs, double Amount, double minMove)`. -/
def AddEventInfo (e : BLCEvent) (TimeSecs : Int) (Amount minMove : ℚ) : BLCEvent :=
  if e.InfoCount < 3 then
    let e1 : BLCEvent := { e with corrections := e.corrections ++ [⟨TimeSecs, Amount⟩] }
    if |Amount| > minMove then
      if e1.InfoCount = 2 then
        if Amount > 0 then { e1 with initialUndershoot := true }
        else { e1 with initialOvershoot := true }
      else if e1.InfoCount = 3 then
        { e1 with stictionSeen := e1.initialUndershoot && decide (Amount < 0) }
      else e1
    else e1
  else e

end BLCEvent

/-! ## BLCHistory -/

/-- Source: `struct RecentStats`; the default values are those of its constructor. -/
structure RecentStats where
  shortCount : Int := 0
  longCount : Int := 0
  stictionCount : Int := 0
  avgInitialMiss : ℚ := 0
  avgStictionAmount : ℚ := 0
  deriving DecidableEq, Repr

/-- Source: `class BLCHistory` (data members). -/
structure BLCHistory where
  blcEvents : List BLCEvent
  blcIndex : Int
  windowOpen : Bool
  timeBase : Int
  lastIncrease : Int
  deriving DecidableEq, Repr

/-- Result of `AdjustmentNeeded`: the returned flag, the value written through
`correction`, and the history afterwards. -/
structure AdjustmentResult where
  adjust : Bool
  correction : ℚ
  hist : BLCHistory
  deriving DecidableEq, Repr

/-- Accumulators of the loop of `GetStats`: `*Results`, `sum`, `stictionSum`, `ct`. -/
structure StatsAcc where
  res : RecentStats
  sum : ℚ
  stictionSum : ℚ
  ct : Int
  deriving DecidableEq, Repr

namespace BLCHistory

/-- Source: constructor `BLCHistory()`; `blcIndex` has the member initialiser `0`. -/
def new (now : Int) : BLCHistory := ⟨[], 0, false, now, 0⟩

/-- Source: `CloseWindow()`. -/
def CloseWindow (h : BLCHistory) : BLCHistory := { h with windowOpen := false }

/-- Source: `RecordNewBLC(long When, double TriggerDeflection)`. -/
def RecordNewBLC (h : BLCHistory) (When : Int) (TriggerDeflection : ℚ) : BLCHistory :=
  let evs := if (h.blcEvents.length : Int) ≥ HISTORY_DEPTH then h.blcEvents.tail else h.blcEvents
  let evs1 := evs ++ [BLCEvent.mk1 (When - h.timeBase) TriggerDeflection]
  { h with blcEvents := evs1, blcIndex := (evs1.length : Int) - 1, windowOpen := true }

/-- Source: `AddDeflection(long When, double Amt, double MinMove)`; the pair is the
returned flag and the history afterwards.  `none`: `blcEvents[blcIndex]` is out of bounds. -/
def AddDeflection (h : BLCHistory) (When : Int) (Amt MinMove : ℚ) : Option (Bool × BLCHistory) :=
  if h.blcIndex ≥ 0 then
    match h.blcEvents[h.blcIndex.toNat]? with
    | none => none
    | some evt =>
      if evt.InfoCount < ENTRY_CAPACITY then
        let evt1 := evt.AddEventInfo (When - h.timeBase) Amt MinMove
        some (true, { h with blcEvents := h.blcEvents.set h.blcIndex.toNat evt1 })
      else some (false, { h with windowOpen := false })
  else some (false, { h with windowOpen := false })

/-- One round of the outer loop of `RemoveOldestOvershoots`: the inner loop looks for the
first `inx < blcEvents.size() - 1` with `initialOvershoot`, erases that event and sets
`blcIndex` to the new last index.  On an empty vector the unsigned bound wraps around and
`blcEvents[0]` is read out of bounds (`none`). -/
def RemoveOldestOvershoots.pass (h : BLCHistory) : Option BLCHistory :=
  match h.blcEvents with
  | [] => none
  | _ :: _ =>
    match h.blcEvents.dropLast.findIdx? (fun e => e.initialOvershoot) with
    | some inx =>
      some { h with blcEvents := h.blcEvents.eraseIdx inx,
                    blcIndex := ((h.blcEvents.eraseIdx inx).length : Int) - 1 }
    | none => some h

/-- The outer loop `for (ct = 1; ct <= howMany; ct++)` run `n` times. -/
def RemoveOldestOvershoots.loop : Nat → BLCHistory → Option BLCHistory
  | 0, h => some h
  | n + 1, h =>
    match RemoveOldestOvershoots.pass h with
    | none => none
    | some h1 => RemoveOldestOvershoots.loop n h1

/-- Source: `RemoveOldestOvershoots(int howMany)`. -/
def RemoveOldestOvershoots (h : BLCHistory) (howMany : Int) : Option BLCHistory :=
  RemoveOldestOvershoots.loop howMany.toNat h

/-- Source: `ClearHistory()`. -/
def ClearHistory (h : BLCHistory) : BLCHistory := { h with blcEvents := [] }

/-- Body of the loop of `GetStats` for one event.  `none`: `corrections[2]` or
`corrections[1]` is read out of bounds. -/
def GetStats.body (a : StatsAcc) (evt : BLCEvent) : Option StatsAcc :=
  let r1 : RecentStats :=
    if evt.initialOvershoot then { a.res with longCount := a.res.longCount + 1 }
    else { a.res with shortCount := a.res.shortCount + 1 }
  let a1 : Option StatsAcc :=
    if evt.stictionSeen then
      match evt.corrections[2]? with
      | none => none
      | some c => some { a with res := { r1 with stictionCount := r1.stictionCount + 1 },
                                stictionSum := a.stictionSum + c.miss }
    else some { a with res := r1 }
  match a1 with
  | none => none
  | some a2 =>
    if evt.InfoCount > 1 then
      match evt.corrections[1]? with
      | none => none
      | some c => some { a2 with sum := a2.sum + c.miss, ct := a2.ct + 1 }
    else some a2

/-- The loop of `GetStats` over the events it visits, in visiting order. -/
def GetStats.loop (a : StatsAcc) : List BLCEvent → Option StatsAcc
  | [] => some a
  | evt :: rest =>
    match GetStats.body a evt with
    | none => none
    | some a1 => GetStats.loop a1 rest

/-- The events visited by `for (inx = blcIndex; inx >= bottom; inx--)`, in visiting order
(newest first).  `none`: `blcEvents[blcIndex]` is out of bounds. -/
def GetStats.window (h : BLCHistory) (numEvents : Int) : Option (List BLCEvent) :=
  let bottom : Int := max 0 (h.blcIndex - (numEvents - 1))
  if h.blcIndex < bottom then some []
  else if h.blcIndex < h.blcEvents.length then
    some (((h.blcEvents.take (h.blcIndex.toNat + 1)).drop bottom.toNat).reverse)
  else none

/-- Source: `GetStats(int numEvents, RecentStats* Results)`; the result is `*Results`
afterwards (the returned value is its field `avgInitialMiss`). -/
def GetStats (h : BLCHistory) (numEvents : Int) (Results : RecentStats) : Option RecentStats :=
  match GetStats.window h numEvents with
  | none => none
  | some w =>
    match GetStats.loop ⟨Results, 0, 0, 0⟩ w with
    | none => none
    | some a =>
      let r1 : RecentStats :=
        if a.ct > 0 then { a.res with avgInitialMiss := a.sum / a.ct }
        else { a.res with avgInitialMiss := 0 }
      some (if r1.stictionCount > 0 then
              { r1 with avgStictionAmount := a.stictionSum / r1.stictionCount }
            else { r1 with avgStictionAmount := 0 })

/-- The expression `(int)(floor(abs(x) / yRate) + 0.5)` of `AdjustmentNeeded`. -/
def corrOf (x yRate : ℚ) : Int := cTrunc ((⌊|x| / yRate⌋ : ℚ) + 1 / 2)

/-- Source: `AdjustmentNeeded(double miss, double minMove, double yRate, double* correction)`.
`none`: an out-of-bounds read (`blcEvents[blcIndex]`, `corrections[1]` for the log line,
or inside `GetStats` / `RemoveOldestOvershoots`), or `yRate == 0` where the quotient is
not a finite number and its conversion to `int` is undefined. -/
def AdjustmentNeeded (h : BLCHistory) (miss minMove yRate : ℚ) : Option AdjustmentResult :=
  if h.blcIndex ≥ 0 then
    match GetStats h HISTORY_DEPTH {} with
    | none => none
    | some stats =>
      match h.blcEvents[h.blcIndex.toNat]? with
      | none => none
      | some currEvent =>
        if currEvent.InfoCount < 2 then none
        else if |miss| ≥ minMove then
          if yRate = 0 then none
          else
            let avgInitMiss := stats.avgInitialMiss
            let corr : Int := corrOf avgInitMiss yRate
            if miss > 0 then
              if avgInitMiss > 0 then
                if currEvent.InfoCount = ENTRY_CAPACITY then
                  if stats.stictionCount > 2 then
                    some ⟨false, 0, { h with windowOpen := false }⟩
                  else if stats.longCount ≥ 2 then
                    some ⟨false, 0, { h with windowOpen := false }⟩
                  else
                    some ⟨true, corr, { h with lastIncrease := corr, windowOpen := false }⟩
                else some ⟨false, 0, h⟩
              else some ⟨false, 0, { h with windowOpen := false }⟩
            else
              if avgInitMiss < 0 ∨ stats.longCount > stats.shortCount
                  ∨ currEvent.stictionSeen = true then
                let h1 : BLCHistory := { h with windowOpen := false }
                if currEvent.InfoCount = ENTRY_CAPACITY then
                  if currEvent.stictionSeen then
                    if stats.stictionCount > 1 then
                      some ⟨true, -((corrOf stats.avgStictionAmount yRate : Int) : ℚ), h1⟩
                    else some ⟨false, 0, h1⟩
                  else some ⟨false, 0, h1⟩
                else if stats.longCount > stats.shortCount ∧ h.blcIndex ≥ 4 then
                  match RemoveOldestOvershoots h1 2 with
                  | none => none
                  | some h2 => some ⟨true, -((corr : Int) : ℚ), h2⟩
                else if |avgInitMiss| > minMove then
                  some ⟨true, -((corr : Int) : ℚ), h1⟩
                else some ⟨false, 0, h1⟩
              else
                if currEvent.InfoCount = ENTRY_CAPACITY then
                  some ⟨false, 0, { h with windowOpen := false }⟩
                else some ⟨false, 0, h⟩
        else some ⟨false, 0, { h with windowOpen := false }⟩
  else some ⟨false, 0, h⟩

end BLCHistory

/-! ## BacklashComp -/

/-- A call `pFrame->NotifyGuidingParam(name, value)`. -/
inductive GuidingParam where
  | backlashCompAmount (value : Int)
  | backlashCompEnabled (value : Bool)
  deriving DecidableEq, Repr

/-- Source: `class BacklashComp` (data members used by the compensation code).
`maxDecDuration` is the value behind `m_pScope->GetMaxDecDuration()` and
`notified` lists the `NotifyGuidingParam` calls made so far, oldest first. -/
structure BacklashComp where
  m_pulseWidth : Int
  m_adjustmentFloor : Int
  m_adjustmentCeiling : Int
  m_fixedSize : Bool
  m_compActive : Bool
  m_lastDirection : Int
  m_pHistory : BLCHistory
  maxDecDuration : Int
  notified : List GuidingParam
  deriving DecidableEq, Repr

namespace BacklashComp

/-- Source: `SetCompValues(int requestedSize, int floor, int ceiling)`.
`MIN_COMP_AMOUNT` and `MAX_COMP_AMOUNT` are `unsigned int`, so `wxMin(requestedSize, ...)`
and `floor < MIN_COMP_AMOUNT` compare after converting the `int` to `unsigned int`;
`abs(...)` is never negative, so its conversion changes nothing. -/
def SetCompValues (s : BacklashComp) (requestedSize floor ceiling : Int) : BacklashComp :=
  let pulseWidth : Int := wxMax_iu 0 (wxMin_iu requestedSize MAX_COMP_AMOUNT)
  let adjustmentFloor : Int :=
    if floor > pulseWidth ∨ toUInt floor < MIN_COMP_AMOUNT then MIN_COMP_AMOUNT else floor
  let adjustmentCeiling : Int :=
    if ceiling < pulseWidth then cTrunc (min ((3 / 2 : ℚ) * pulseWidth) MAX_COMP_AMOUNT)
    else wxMin_iu ceiling MAX_COMP_AMOUNT
  let fixedSize : Bool := decide (|adjustmentCeiling - adjustmentFloor| < MIN_COMP_AMOUNT)
  { s with
    m_pulseWidth := pulseWidth
    m_adjustmentFloor := adjustmentFloor
    m_adjustmentCeiling := adjustmentCeiling
    m_fixedSize := fixedSize
    maxDecDuration :=
      if pulseWidth > s.maxDecDuration ∧ s.m_compActive = true then pulseWidth
      else s.maxDecDuration }

/-- Source: constructor `BacklashComp(Scope *scope)`; the arguments are the three profile
values, the stored enable flag, the scope's maximum Dec duration and the current time. -/
def new (lastAmt lastFloor lastCeiling : Int) (enabled : Bool) (maxDec now : Int) :
    BacklashComp :=
  let s0 : BacklashComp :=
    ⟨0, 0, 0, false, (if lastAmt > 0 then enabled else false), NONE,
      BLCHistory.new now, maxDec, []⟩
  { SetCompValues s0 lastAmt lastFloor lastCeiling with m_lastDirection := NONE }

/-- Source: `SetBacklashPulse(int ms, int floor, int ceiling)`. -/
def SetBacklashPulse (s : BacklashComp) (ms floor ceiling : Int) : BacklashComp :=
  if s.m_pulseWidth ≠ ms ∨ s.m_adjustmentFloor ≠ floor ∨ s.m_adjustmentCeiling ≠ ceiling then
    let oldBLC := s.m_pulseWidth
    let s1 := SetCompValues s ms floor ceiling
    let s2 : BacklashComp :=
      { s1 with notified := s1.notified ++ [GuidingParam.backlashCompAmount s1.m_pulseWidth] }
    if |s2.m_pulseWidth - oldBLC| > 100 then
      { s2 with m_pHistory := s2.m_pHistory.ClearHistory.CloseWindow }
    else s2
  else s

/-- Source: `ResetBaseline()`. -/
def ResetBaseline (s : BacklashComp) : BacklashComp :=
  if s.m_compActive then
    { s with m_lastDirection := NONE, m_pHistory := s.m_pHistory.CloseWindow }
  else s

/-- Source: `EnableBacklashComp(bool enable)`. -/
def EnableBacklashComp (s : BacklashComp) (enable : Bool) : BacklashComp :=
  let s1 : BacklashComp :=
    if s.m_compActive ≠ enable then
      let s0 : BacklashComp :=
        { s with notified := s.notified ++ [GuidingParam.backlashCompEnabled enable] }
      if enable then ResetBaseline s0 else s0
    else s
  { s1 with m_compActive := enable }

/-- Source: `_TrackBLCResults(unsigned int moveTypeOptions, double yDistance, double minMove,
double yRate)`.  `none`: a step of the history failed (see `AddDeflection` and
`AdjustmentNeeded`). -/
def _TrackBLCResults (s : BacklashComp) (_moveTypeOptions : Nat) (yDistance minMove yRate : ℚ)
    (now : Int) : Option BacklashComp :=
  let dir : Int := if yDistance > 0 then DOWN else UP
  let yDist : ℚ := |yDistance|
  let miss : ℚ := if dir = s.m_lastDirection then yDist else -yDist
  let minMv : ℚ := max minMove 0
  match s.m_pHistory.AddDeflection now miss minMv with
  | none => none
  | some (_, h1) =>
    match h1.AdjustmentNeeded miss minMv yRate with
    | none => none
    | some r =>
      if r.adjust then
        let nominalBLC : ℚ := (s.m_pulseWidth : ℚ) + r.correction
        let newBLC : Int :=
          if nominalBLC > (s.m_pulseWidth : ℚ) then
            let n := ROUND (min ((s.m_pulseWidth : ℚ) * (11 / 10)) nominalBLC)
            if n > s.m_adjustmentCeiling then s.m_adjustmentCeiling else n
          else
            let n := ROUND (max ((4 / 5) * (s.m_pulseWidth : ℚ)) nominalBLC)
            if n < s.m_adjustmentFloor then s.m_adjustmentFloor else n
        some (SetCompValues { s with m_pHistory := r.hist } newBLC
          s.m_adjustmentFloor s.m_adjustmentCeiling)
      else some { s with m_pHistory := r.hist }

/-- Source: `TrackBLCResults(unsigned int moveTypeOptions, double yDistance, double minMove,
double yRate)`. -/
def TrackBLCResults (s : BacklashComp) (moveTypeOptions : Nat) (yDistance minMove yRate : ℚ)
    (now : Int) : Option BacklashComp :=
  if s.m_compActive then
    if moveTypeOptions &&& MOVEOPT_USE_BLC ≠ 0 then
      if moveTypeOptions &&& MOVEOPT_ALGO_RESULT ≠ 0 then
        if s.m_pHistory.windowOpen = true ∧ s.m_fixedSize = false then
          _TrackBLCResults s moveTypeOptions yDistance minMove yRate now
        else some s
      else some { s with m_pHistory := s.m_pHistory.CloseWindow }
    else some (ResetBaseline s)
  else some s

/-- Source: `ApplyBacklashComp(unsigned int moveTypeOptions, int dir, double yDist,
int *yAmount)`; the pair is the state and `*yAmount` afterwards. -/
def ApplyBacklashComp (s : BacklashComp) (moveTypeOptions : Nat) (dir : Int) (yDist : ℚ)
    (yAmount : Int) (now : Int) : BacklashComp × Int :=
  if s.m_compActive = false ∨ s.m_pulseWidth ≤ 0 ∨ yDist = 0 then (s, yAmount)
  else
    if s.m_lastDirection ≠ NONE ∧ dir ≠ s.m_lastDirection then
      let h1 : BLCHistory :=
        if moveTypeOptions &&& MOVEOPT_ALGO_RESULT ≠ 0 then s.m_pHistory.RecordNewBLC now yDist
        else s.m_pHistory.CloseWindow
      ({ s with m_pHistory := h1, m_lastDirection := dir }, yAmount + s.m_pulseWidth)
    else ({ s with m_lastDirection := dir }, yAmount)

end BacklashComp

end BLC

namespace BLC

/-! ## BacklashTool: ComputeBacklashPx -/

/-- Source: the enumerators of `BacklashTool::MeasurementResults` used in
`backlash_comp.cpp` (the enum itself is declared in a header outside the sources at hand). -/
inductive MeasurementResults where
  | MEASUREMENT_VALID
  | MEASUREMENT_SANITY
  | MEASUREMENT_TOO_FEW_NORTH
  | MEASUREMENT_TOO_FEW_SOUTH
  | MEASUREMENT_BL_NOT_CLEARED
  deriving DecidableEq, Repr

/-- What `ComputeBacklashPx` returns and writes through its three pointers.  `bltMs` is
`none` when the quotient `blPx / nRate` is not finite (zero rate), so that its conversion to
`int` is undefined. -/
structure ComputeResults where
  rslt : MeasurementResults
  bltPx : ℚ
  bltMs : Option Int
  northRate : ℚ
  deriving DecidableEq, Repr

/-- The locals of `ComputeBacklashPx` that the loop over the south steps updates;
`rslt = none` stands for the not yet assigned local. -/
structure SouthLoopState where
  earlySouthMoves : ℚ
  goodSouthMoves : Int
  blPx : ℚ
  rslt : Option MeasurementResults
  deriving DecidableEq, Repr

namespace BacklashTool

/-- The differences `steps[inx] - steps[inx - 1]` for `inx = 1 .. size - 1`, in order. -/
def stepDeltas : List ℚ → List ℚ
  | a :: b :: rest => (b - a) :: stepDeltas (b :: rest)
  | _ => []

/-- The loop `for (step = 1; step < m_southBLSteps.size(); step++)` of `ComputeBacklashPx`,
run over the remaining south moves `m_southBLSteps[step] - m_southBLSteps[step - 1]`; the
`break` ends the loop with the state reached. -/
def southLoop (expectedMagnitude driftPxPerFrame nRate northDelta : ℚ) :
    Int → SouthLoopState → List ℚ → SouthLoopState
  | _, st, [] => st
  | step, st, southMove :: rest =>
    let early := st.earlySouthMoves + southMove
    if |southMove| ≥ expectedMagnitude ∧ southMove < 0 then
      let good := st.goodSouthMoves + 1
      if good = 2 then
        let blPx : ℚ := (step : ℚ) * expectedMagnitude - |early - (step : ℚ) * driftPxPerFrame|
        let rslt : MeasurementResults :=
          if blPx * nRate < -200 then MeasurementResults.MEASUREMENT_SANITY
          else if blPx ≥ (7 / 10) * northDelta then MeasurementResults.MEASUREMENT_TOO_FEW_NORTH
          else MeasurementResults.MEASUREMENT_VALID
        ⟨early, good, if blPx < 0 then 0 else blPx, some rslt⟩
      else
        southLoop expectedMagnitude driftPxPerFrame nRate northDelta (step + 1)
          { st with earlySouthMoves := early, goodSouthMoves := good } rest
    else
      southLoop expectedMagnitude driftPxPerFrame nRate northDelta (step + 1)
        { st with earlySouthMoves := early
                  goodSouthMoves := if st.goodSouthMoves > 0 then st.goodSouthMoves - 1
                                    else st.goodSouthMoves } rest

/-- Source: `ComputeBacklashPx(double* bltPx, int* bltMs, double* northRate)`; the arguments
are the members it reads and `nRate0`, the value that the local `nRate` holds when the
function is entered: the source declares `double nRate;` without an initialiser, and with at
most 3 north steps nothing is assigned to it before `*bltMs = (int)(blPx / nRate)` and
`*northRate = nRate` read it, so that the function returns `MEASUREMENT_TOO_FEW_NORTH`
with `*bltPx = 0` and with that value as the rate.  `std::sort` is an insertion sort here
(the sorted sequence is the same).  `none`: with `stepCount * m_pulseWidth == 0` the rate
is not a finite number. -/
def ComputeBacklashPx (m_northBLSteps m_southBLSteps : List ℚ) (m_driftPerSec : ℚ)
    (m_msmtStartTime m_msmtEndTime m_pulseWidth : Int) (nRate0 : ℚ) : Option ComputeResults :=
  if m_northBLSteps.length > 3 then
    let moves := stepDeltas m_northBLSteps
    let northDelta : ℚ := moves.sum
    let sortedNorthMoves := moves.insertionSort (fun a b => a ≤ b)
    let driftAmtPx : ℚ := m_driftPerSec * ((m_msmtEndTime - m_msmtStartTime : Int) : ℚ) / 1000
    let stepCount : Int := sortedNorthMoves.length
    if stepCount * m_pulseWidth = 0 then none
    else
      let nRate : ℚ := |(northDelta - driftAmtPx) / ((stepCount * m_pulseWidth : Int) : ℚ)|
      let driftPxPerFrame : ℚ := driftAmtPx / (stepCount : ℚ)
      match sortedNorthMoves[sortedNorthMoves.length / 2]? with
      | none => none
      | some median =>
        let expectedAmount : ℚ := (9 / 10) * median
        let expectedMagnitude : ℚ := |expectedAmount|
        let st := southLoop expectedMagnitude driftPxPerFrame nRate northDelta 1 ⟨0, 0, 0, none⟩
          (stepDeltas m_southBLSteps)
        let rslt : Option MeasurementResults :=
          if st.goodSouthMoves < 2 then some MeasurementResults.MEASUREMENT_TOO_FEW_SOUTH
          else st.rslt
        match rslt with
        | none => none
        | some r =>
          some ⟨r, st.blPx, if nRate = 0 then none else some (cTrunc (st.blPx / nRate)), nRate⟩
  else
    let blPx : ℚ := 0
    some ⟨MeasurementResults.MEASUREMENT_TOO_FEW_NORTH, blPx,
      if nRate0 = 0 then none else some (cTrunc (blPx / nRate0)), nRate0⟩

/-! ### Reference definitions for the south walk -/

/-- Reference definition: a south delta is good when it is negative and its magnitude is at
least the expected magnitude. -/
def goodMove (expectedMagnitude d : ℚ) : Bool := decide (|d| ≥ expectedMagnitude ∧ d < 0)

/-- Reference definition: some two consecutive deltas are both good. -/
def hasGoodPair (expectedMagnitude : ℚ) : List ℚ → Bool
  | a :: b :: rest =>
    (goodMove expectedMagnitude a && goodMove expectedMagnitude b)
      || hasGoodPair expectedMagnitude (b :: rest)
  | _ => false

/-- Reference definition: the 1-based index of the second delta of the first pair of
consecutive good deltas. -/
def firstGoodPair (expectedMagnitude : ℚ) : List ℚ → Option Nat
  | a :: b :: rest =>
    if goodMove expectedMagnitude a && goodMove expectedMagnitude b then some 2
    else (firstGoodPair expectedMagnitude (b :: rest)).map (fun s => s + 1)
  | _ => none

/-- Reference definition: the expected magnitude, `|0.9 * median|`, where the median is the
element at index `floor(len / 2)` of the ascending-sorted north deltas. -/
def expectedMagnitudeOf (northSteps : List ℚ) : ℚ :=
  |(9 / 10) * ((stepDeltas northSteps).insertionSort (fun a b => a ≤ b)).getD
      ((stepDeltas northSteps).length / 2) 0|

/-- Reference definition: the total north travel, the sum of the north deltas. -/
def northDeltaOf (northSteps : List ℚ) : ℚ := (stepDeltas northSteps).sum

/-- Reference definition: the drift over the measurement, `drift_per_sec * (end_ms - start_ms) / 1000`. -/
def driftTotalOf (driftPerSec : ℚ) (startMs endMs : Int) : ℚ :=
  driftPerSec * ((endMs - startMs : Int) : ℚ) / 1000

/-- Reference definition: the drift per frame, the total drift over the number of north deltas. -/
def driftPerFrameOf (northSteps : List ℚ) (driftPerSec : ℚ) (startMs endMs : Int) : ℚ :=
  driftTotalOf driftPerSec startMs endMs / ((stepDeltas northSteps).length : ℚ)

/-- Reference definition: the empirical north rate,
`|north_delta - drift_total_px| / (len(north deltas) * pulse_width)`. -/
def northRateOf (northSteps : List ℚ) (driftPerSec : ℚ) (startMs endMs pulseWidth : Int) : ℚ :=
  |northDeltaOf northSteps - driftTotalOf driftPerSec startMs endMs|
    / (((stepDeltas northSteps).length : ℚ) * (pulseWidth : ℚ))

/-- Reference definition: the raw backlash at the 1-based south index `s`,
`s * |expected| - |(sum of south deltas 1..s) - s * drift_per_frame|`. -/
def rawBacklash (expectedMagnitude driftPerFrame : ℚ) (s : Nat) (southDeltas : List ℚ) : ℚ :=
  (s : ℚ) * expectedMagnitude - |(southDeltas.take s).sum - (s : ℚ) * driftPerFrame|

/-- Reference definition: the verdict for a raw backlash: SANITY if `raw * north_rate < -200`,
else TOO_FEW_NORTH if `raw >= 0.7 * north_delta`, else VALID. -/
def verdictOf (raw northRate northDelta : ℚ) : MeasurementResults :=
  if raw * northRate < -200 then MeasurementResults.MEASUREMENT_SANITY
  else if raw ≥ (7 / 10) * northDelta then MeasurementResults.MEASUREMENT_TOO_FEW_NORTH
  else MeasurementResults.MEASUREMENT_VALID

end BacklashTool

end BLC

namespace BLC

/-! ## RunningStats -/

/-- Source: `struct RunningStats` (on-the-fly mean and sum of squared deviations). -/
structure RunningStats where
  count : Int
  currentSS : ℚ
  currentMean : ℚ
  deriving DecidableEq, Repr

namespace RunningStats

/-- Source: constructor `RunningStats()`. -/
def new : RunningStats := ⟨0, 0, 0⟩

/-- Source: `Reset()`. -/
def Reset (_r : RunningStats) : RunningStats := ⟨0, 0, 0⟩

/-- Source: `AddDelta(double val)`. -/
def AddDelta (r : RunningStats) (val : ℚ) : RunningStats :=
  let count : Int := r.count + 1
  if count = 1 then { r with count := count, currentMean := val }
  else
    let newMean : ℚ := r.currentMean + (val - r.currentMean) / (count : ℚ)
    { count := count
      currentSS := r.currentSS + (val - r.currentMean) * (val - newMean)
      currentMean := newMean }

/-- The statistics after `Reset()` followed by `AddDelta(x)` for each `x` of `xs`, in order. -/
def feed (r : RunningStats) (xs : List ℚ) : RunningStats := xs.foldl AddDelta r.Reset

/-- Reference definition: the two-pass mean, `(x1 + ... + xn) / n`. -/
def naiveMean (xs : List ℚ) : ℚ := xs.sum / (xs.length : ℚ)

/-- Reference definition: the two-pass sum of squared deviations from the mean. -/
def naiveSS (xs : List ℚ) : ℚ := (xs.map (fun x => (x - naiveMean xs) ^ 2)).sum

end RunningStats

end BLC

namespace BLC

/-! ## Sequences of history operations, predicates and reference definitions -/

/-- A call of `RecordNewBLC` or of `AddDeflection`, with its arguments. -/
inductive HistoryOp where
  | recordNew (When : Int) (TriggerDeflection : ℚ)
  | addDeflection (When : Int) (Amt MinMove : ℚ)
  deriving DecidableEq, Repr

/-- Well-formedness of an event, as maintained by the constructor and `AddEventInfo`:
1 to 3 corrections; no flag before the second correction; no stiction before the third;
never both an initial over-shoot and an initial under-shoot; stiction only with an
initial under-shoot. -/
def BLCEvent.WellFormed (e : BLCEvent) : Prop :=
  1 ≤ e.corrections.length ∧ e.corrections.length ≤ 3 ∧
  (e.corrections.length = 1 → e.initialOvershoot = false ∧ e.initialUndershoot = false) ∧
  (e.corrections.length ≤ 2 → e.stictionSeen = false) ∧
  ¬ (e.initialOvershoot = true ∧ e.initialUndershoot = true) ∧
  (e.stictionSeen = true → e.initialUndershoot = true)

/-- Well-formedness of an event can be decided. -/
instance BLCEvent.decidableWellFormed (e : BLCEvent) : Decidable e.WellFormed := by
  unfold BLCEvent.WellFormed
  infer_instance

namespace BLCHistory

/-- Well-formedness of a history, as maintained by `RecordNewBLC` and `AddDeflection`:
every event is well formed, at most 10 events are held, and once an event has been
recorded `blcIndex` is a valid index. -/
def WellFormed (h : BLCHistory) : Prop :=
  (∀ e ∈ h.blcEvents, e.WellFormed) ∧ h.blcEvents.length ≤ 10 ∧
  (h.blcEvents ≠ [] → 0 ≤ h.blcIndex ∧ h.blcIndex < (h.blcEvents.length : Int))

/-- Well-formedness of a history can be decided. -/
instance decidableWellFormed (h : BLCHistory) : Decidable h.WellFormed := by
  unfold WellFormed
  infer_instance

/-- The history after one operation (`none` when the operation reads out of bounds). -/
def applyOp (h : BLCHistory) : HistoryOp → Option BLCHistory
  | HistoryOp.recordNew w t => some (h.RecordNewBLC w t)
  | HistoryOp.addDeflection w a m =>
    match h.AddDeflection w a m with
    | none => none
    | some (_, h1) => some h1

/-- The history after a sequence of operations, applied from left to right. -/
def runOps (h : BLCHistory) : List HistoryOp → Option BLCHistory
  | [] => some h
  | op :: ops =>
    match h.applyOp op with
    | none => none
    | some h1 => runOps h1 ops

/-- The window predicate of the data model: an open window implies that `blcIndex` is not
negative and that the event at `blcIndex` exists and has fewer than 3 corrections. -/
def WindowInv (h : BLCHistory) : Prop :=
  h.windowOpen = true →
    0 ≤ h.blcIndex ∧ ∃ e, h.blcEvents[h.blcIndex.toNat]? = some e ∧ e.InfoCount < 3

/-- The events summarised by the statistics of depth `depth`: those at the indices
`max(0, blcIndex - depth + 1) .. blcIndex`, oldest first. -/
def statsRange (h : BLCHistory) (depth : Int) : List BLCEvent :=
  (h.blcEvents.take (h.blcIndex.toNat + 1)).drop (max 0 (h.blcIndex - depth + 1)).toNat

/-- The slot-`k` miss of an event (0 when the slot is empty). -/
def slotMiss (k : Nat) (e : BLCEvent) : ℚ :=
  match e.corrections[k]? with
  | some c => c.miss
  | none => 0

/-- Arithmetic mean of a list of rationals, 0 for the empty list. -/
def meanOrZero (l : List ℚ) : ℚ := if l.length = 0 then 0 else l.sum / (l.length : ℚ)

/-- Reference definition of the statistics, following the words of the specification:
counts of the events in range with and without an initial over-shoot and with stiction,
the mean slot-1 miss over the events with at least 2 corrections and the mean slot-2 miss
over the events with stiction. -/
def statsSpec (h : BLCHistory) (depth : Int) : RecentStats :=
  let w := h.statsRange depth
  { shortCount := ((w.countP (fun e => !e.initialOvershoot) : Nat) : Int)
    longCount := ((w.countP (fun e => e.initialOvershoot) : Nat) : Int)
    stictionCount := ((w.countP (fun e => e.stictionSeen) : Nat) : Int)
    avgInitialMiss :=
      meanOrZero ((w.filter (fun e => decide (2 ≤ e.corrections.length))).map (slotMiss 1))
    avgStictionAmount := meanOrZero ((w.filter (fun e => e.stictionSeen)).map (slotMiss 2)) }

end BLCHistory

/-- Reference definition: a list without the first `k` elements that satisfy `p`. -/
def eraseFirstN {α : Type} (p : α → Bool) : Nat → List α → List α
  | 0, l => l
  | _ + 1, [] => []
  | k + 1, x :: xs => if p x then eraseFirstN p k xs else x :: eraseFirstN p (k + 1) xs

end BLC

namespace BLC

/-! ## Sequences of calls on a BacklashComp -/

/-- A call of `SetBacklashPulse`, `EnableBacklashComp`, `ResetBaseline`,
`ApplyBacklashComp` or `TrackBLCResults`, with its arguments. -/
inductive CompOp where
  | setPulse (ms floor ceiling : Int)
  | enableComp (enable : Bool)
  | resetBaseline
  | applyComp (moveTypeOptions : Nat) (dir : Int) (yDist : ℚ) (yAmount now : Int)
  | trackResult (moveTypeOptions : Nat) (yDistance minMove yRate : ℚ) (now : Int)
  deriving DecidableEq, Repr

namespace BLCHistory

/-- The history predicate kept by the calls on a `BacklashComp`: the history is well
formed, `blcIndex` is the last index once an event is held, and an open window comes with
a current event that holds at most 2 corrections. -/
def LearnInv (h : BLCHistory) : Prop :=
  h.WellFormed ∧
  (h.blcEvents ≠ [] → h.blcIndex = (h.blcEvents.length : Int) - 1) ∧
  (h.windowOpen = true →
    h.blcEvents ≠ [] ∧ ∃ e, h.blcEvents[h.blcIndex.toNat]? = some e ∧ e.InfoCount ≤ 2)

end BLCHistory

namespace BacklashComp

/-- The state after one call (`none` when `TrackBLCResults` fails). -/
def applyCompOp (s : BacklashComp) : CompOp → Option BacklashComp
  | CompOp.setPulse ms floor ceiling => some (s.SetBacklashPulse ms floor ceiling)
  | CompOp.enableComp enable => some (s.EnableBacklashComp enable)
  | CompOp.resetBaseline => some s.ResetBaseline
  | CompOp.applyComp o d y a n => some (s.ApplyBacklashComp o d y a n).1
  | CompOp.trackResult o y m r n => s.TrackBLCResults o y m r n

/-- The state after a sequence of calls, made from left to right. -/
def runCompOps (s : BacklashComp) : List CompOp → Option BacklashComp
  | [] => some s
  | op :: ops =>
    match s.applyCompOp op with
    | none => none
    | some s1 => runCompOps s1 ops

end BacklashComp

end BLC

namespace BLC

/-! ## BacklashTool: the measurement state machine -/

/-- Source: the enumerators of `BLT_STATE` used in `backlash_comp.cpp` (the enum is declared
in a header outside the sources at hand). -/
inductive BLTState where
  | BLT_STATE_INITIALIZE
  | BLT_STATE_CLEAR_NORTH
  | BLT_STATE_STEP_NORTH
  | BLT_STATE_STEP_SOUTH
  | BLT_STATE_ABORTED
  | BLT_STATE_TEST_CORRECTION
  | BLT_STATE_RESTORE
  | BLT_STATE_WRAPUP
  | BLT_STATE_COMPLETED
  deriving DecidableEq, Repr

/-- Modelled from the spec: the measurement constants named in `DecMeasurementStep`.  They
are declared in a header outside the sources at hand, so their values are parameters. -/
structure MeasurementConstants where
  BACKLASH_MIN_COUNT : Int
  BACKLASH_EXPECTED_DISTANCE : Int
  BACKLASH_EXEMPTION_DISTANCE : Int
  MAX_CLEARING_STEPS : Int
  NORTH_PULSE_SIZE : Int
  MAX_NORTH_PULSES : Int
  deriving DecidableEq, Repr

/-- Source: `PHD_Point` (the two coordinates). -/
structure PHD_Point where
  X : ℚ
  Y : ℚ
  deriving DecidableEq, Repr

/-- What one call of `DecMeasurementStep` reads from outside the tool: its argument
`currentCamLoc`; the mount location produced by
`TransformCameraCoordinatesToMountCoordinates` (`none` when the transform reports a
failure); the value of `GetLastDecGuideRate()` (-1 without a calibration);
`GetCalibrationDuration()`; `GetMaxMovePixels()`; `pCamera->FullSize`;
`wxGetUTCTimeMillis()`; and `uninitNRate`, the value that the uninitialised local `nRate`
of `ComputeBacklashPx` holds should the step call that function. -/
structure MeasurementFrame where
  currentCamLoc : PHD_Point
  currMountLocation : Option PHD_Point
  lastCalibrationRate : ℚ
  calibrationDuration : Int
  maxMovePixels : Int
  fullSizeWidth : Int
  fullSizeHeight : Int
  utcTimeMillis : Int
  uninitNRate : ℚ
  deriving DecidableEq, Repr

/-- The calls a step makes: `pFrame->ScheduleAxisMove(m_scope, direction, duration, ...)`
with the `case` label under which the call stands, `ComputeBacklashPx(...)` and
`CleanUp()`. -/
inductive BLTEvent where
  | axisMove (caseLabel : BLTState) (direction : Int) (duration : Int)
  | computeBacklash
  | cleanUp
  deriving DecidableEq, Repr

/-- Source: `class BacklashTool` (the data members used by the measurement). -/
structure BacklashTool where
  m_bltState : BLTState
  m_lastDecGuideRate : ℚ
  m_backlashResultPx : ℚ
  m_backlashResultMs : Int
  m_cumClearingDistance : ℚ
  m_backlashExemption : Bool
  m_driftPerSec : ℚ
  m_northBLSteps : List ℚ
  m_southBLSteps : List ℚ
  m_stats : RunningStats
  m_stepCount : Int
  m_markerPoint : PHD_Point
  m_startingPoint : PHD_Point
  m_endSouth : PHD_Point
  m_pulseWidth : Int
  m_acceptedMoves : Int
  m_lastClearRslt : ℚ
  m_Rslt : MeasurementResults
  m_northPulseCount : Int
  m_msmtStartTime : Int
  m_msmtEndTime : Int
  m_northRate : ℚ
  m_restoreCount : Int
  deriving DecidableEq, Repr

namespace BacklashTool

open BLTState MeasurementResults

/-- Source: `static bool OutOfRoom(const wxSize& frameSize, double camX, double camY,
int margin)`, called with `pCamera->FullSize`, `currentCamLoc` and `GetMaxMovePixels()`. -/
def OutOfRoom (f : MeasurementFrame) : Bool :=
  decide (f.currentCamLoc.X < (f.maxMovePixels : ℚ) ∨
    f.currentCamLoc.Y < (f.maxMovePixels : ℚ) ∨
    f.currentCamLoc.X ≥ ((f.fullSizeWidth - f.maxMovePixels : Int) : ℚ) ∨
    f.currentCamLoc.Y ≥ ((f.fullSizeHeight - f.maxMovePixels : Int) : ℚ))

/-- The `catch` block of `DecMeasurementStep`: the state becomes `BLT_STATE_ABORTED` and
`CleanUp()` is called; `evs` are the calls made in the step before the `throw`. -/
def abort (t : BacklashTool) (evs : List BLTEvent) : Option (BacklashTool × List BLTEvent) :=
  some ({ t with m_bltState := BLT_STATE_ABORTED }, evs ++ [BLTEvent.cleanUp])

/-- Source: `case BLT_STATE_WRAPUP:` of `DecMeasurementStep`. -/
def caseWrapup (t : BacklashTool) : Option (BacklashTool × List BLTEvent) :=
  some ({ t with m_bltState := BLT_STATE_COMPLETED }, [BLTEvent.cleanUp])

/-- Source: `case BLT_STATE_RESTORE:` of `DecMeasurementStep`, falling through to
`BLT_STATE_WRAPUP`.  `none`: the restore count is the conversion to `int` of a quotient by
a zero rate or a zero pulse width. -/
def caseRestore (t : BacklashTool) (f : MeasurementFrame) (cur : PHD_Point) :
    Option (BacklashTool × List BLTEvent) :=
  let r : Option BacklashTool :=
    if t.m_stepCount = 0 then
      let amt : ℚ := |cur.Y - t.m_startingPoint.Y|
      if amt > (f.maxMovePixels : ℚ) then
        if t.m_northRate = 0 ∨ t.m_pulseWidth = 0 then none
        else
          some { t with
            m_restoreCount := ⌊(amt / t.m_northRate) / (t.m_pulseWidth : ℚ)⌋
            m_stepCount := 0 }
      else some { t with m_bltState := BLT_STATE_WRAPUP }
    else some t
  match r with
  | none => none
  | some t1 =>
    if t1.m_stepCount < t1.m_restoreCount then
      some ({ t1 with m_stepCount := t1.m_stepCount + 1 },
        [BLTEvent.axisMove BLT_STATE_RESTORE SOUTH t1.m_pulseWidth])
    else caseWrapup { t1 with m_bltState := BLT_STATE_WRAPUP }

/-- Source: `case BLT_STATE_TEST_CORRECTION:` of `DecMeasurementStep`, falling through to
`BLT_STATE_RESTORE` on its second entry.  The evaluation of the residual against the
tolerance and `GetBacklashSigma` only write to the debug log and are left out.  `none`:
`ComputeBacklashPx` fails, or a quotient by a zero rate is converted to `int`. -/
def caseTestCorrection (t : BacklashTool) (f : MeasurementFrame) (cur : PHD_Point) :
    Option (BacklashTool × List BLTEvent) :=
  if t.m_stepCount = 0 then
    match ComputeBacklashPx t.m_northBLSteps t.m_southBLSteps t.m_driftPerSec
        t.m_msmtStartTime t.m_msmtEndTime t.m_pulseWidth f.uninitNRate with
    | none => none
    | some c =>
      match c.bltMs with
      | none => none
      | some ms =>
        let t1 : BacklashTool :=
          { t with
            m_Rslt := c.rslt
            m_backlashResultPx := c.bltPx
            m_backlashResultMs := ms
            m_northRate := c.northRate }
        if c.rslt = MEASUREMENT_SANITY ∨ c.rslt = MEASUREMENT_TOO_FEW_SOUTH then
          abort t1 [BLTEvent.computeBacklash]
        else if ms > 0 then
          if c.bltPx < (f.maxMovePixels : ℚ) then
            some ({ t1 with m_stepCount := t1.m_stepCount + 1 },
              [BLTEvent.computeBacklash,
                BLTEvent.axisMove BLT_STATE_TEST_CORRECTION SOUTH ms])
          else if c.northRate = 0 then none
          else
            some ({ t1 with m_bltState := BLT_STATE_RESTORE },
              [BLTEvent.computeBacklash,
                BLTEvent.axisMove BLT_STATE_TEST_CORRECTION SOUTH
                  ⌊(f.maxMovePixels : ℚ) / c.northRate⌋])
        else
          some ({ t1 with m_bltState := BLT_STATE_RESTORE, m_stepCount := 0 },
            [BLTEvent.computeBacklash])
  else caseRestore { t with m_bltState := BLT_STATE_RESTORE, m_stepCount := 0 } f cur

/-- Source: `case BLT_STATE_STEP_SOUTH:` of `DecMeasurementStep`, falling through to
`BLT_STATE_TEST_CORRECTION` after the last south pulse. -/
def caseStepSouth (t : BacklashTool) (f : MeasurementFrame) (cur : PHD_Point) :
    Option (BacklashTool × List BLTEvent) :=
  if t.m_stepCount < t.m_northPulseCount then
    some ({ t with
        m_southBLSteps := t.m_southBLSteps ++ [cur.Y]
        m_stepCount := t.m_stepCount + 1 },
      [BLTEvent.axisMove BLT_STATE_STEP_SOUTH SOUTH t.m_pulseWidth])
  else
    caseTestCorrection
      { t with
        m_southBLSteps := t.m_southBLSteps ++ [cur.Y]
        m_endSouth := cur
        m_bltState := BLT_STATE_TEST_CORRECTION
        m_stepCount := 0 } f cur

/-- The statements `deltaN = currMountLocation.Y - m_northBLSteps.back();
m_stats.AddDelta(deltaN);` guarded by `m_stepCount >= 1`.  `none`: `back()` on an empty
vector. -/
def addNorthDelta (t : BacklashTool) (cur : PHD_Point) : Option BacklashTool :=
  if t.m_stepCount ≥ 1 then
    match t.m_northBLSteps.getLast? with
    | none => none
    | some b => some { t with m_stats := t.m_stats.AddDelta (cur.Y - b) }
  else some t

/-- Source: `case BLT_STATE_STEP_NORTH:` of `DecMeasurementStep`, falling through to
`BLT_STATE_STEP_SOUTH` after the last north pulse. -/
def caseStepNorth (t : BacklashTool) (f : MeasurementFrame) (cur : PHD_Point) :
    Option (BacklashTool × List BLTEvent) :=
  if t.m_stepCount < t.m_northPulseCount ∧ OutOfRoom f = false then
    match addNorthDelta t cur with
    | none => none
    | some t1 =>
      let t2 : BacklashTool :=
        if t.m_stepCount ≥ 1 then t1 else { t1 with m_markerPoint := cur }
      some ({ t2 with
          m_northBLSteps := t2.m_northBLSteps ++ [cur.Y]
          m_stepCount := t2.m_stepCount + 1 },
        [BLTEvent.axisMove BLT_STATE_STEP_NORTH NORTH t2.m_pulseWidth])
  else
    match addNorthDelta { t with m_msmtEndTime := f.utcTimeMillis } cur with
    | none => none
    | some t1 =>
      let t2 : BacklashTool := { t1 with m_northBLSteps := t1.m_northBLSteps ++ [cur.Y] }
      if t2.m_stepCount < t2.m_northPulseCount
          ∧ (t2.m_stepCount : ℚ) < (1 / 2) * (t2.m_northPulseCount : ℚ) then
        abort { t2 with m_Rslt := MEASUREMENT_TOO_FEW_NORTH } []
      else
        caseStepSouth
          { t2 with
            m_northPulseCount := t2.m_stepCount
            m_stepCount := 0
            m_bltState := BLT_STATE_STEP_SOUTH } f cur

/-- The block of `case BLT_STATE_CLEAR_NORTH:` that prepares the north steps: the new pulse
width and the number of north pulses.  `none`: a division by a zero guide rate or by a zero
pulse width. -/
def prepareNorth (k : MeasurementConstants) (t : BacklashTool) (f : MeasurementFrame) :
    Option BacklashTool :=
  let totalBacklashCleared : ℚ := ((t.m_stepCount * t.m_pulseWidth : Int) : ℚ)
  if t.m_lastDecGuideRate = 0 then none
  else
    let pw : Int := min (max k.NORTH_PULSE_SIZE f.calibrationDuration)
      ⌊(7 / 10) * (f.maxMovePixels : ℚ) / t.m_lastDecGuideRate⌋
    if pw = 0 then none
    else
      some { t with
        m_bltState := BLT_STATE_STEP_NORTH
        m_pulseWidth := pw
        m_stepCount := 0
        m_northPulseCount :=
          cTrunc (max (((k.MAX_NORTH_PULSES + pw - 1).tdiv pw : Int) : ℚ)
            (totalBacklashCleared * (3 / 2) / (pw : ℚ)))
        m_msmtStartTime := f.utcTimeMillis }

/-- The end of `case BLT_STATE_CLEAR_NORTH:`: the test
`m_acceptedMoves >= BACKLASH_MIN_COUNT || m_backlashExemption || OutOfRoom(...)`, its block,
and the fall through to `BLT_STATE_STEP_NORTH`. -/
def leaveClearNorth (k : MeasurementConstants) (t : BacklashTool) (f : MeasurementFrame)
    (cur : PHD_Point) : Option (BacklashTool × List BLTEvent) :=
  if t.m_acceptedMoves ≥ k.BACKLASH_MIN_COUNT ∨ t.m_backlashExemption = true
      ∨ OutOfRoom f = true then
    match prepareNorth k t f with
    | none => none
    | some t1 => caseStepNorth t1 f cur
  else caseStepNorth t f cur

/-- The update of `m_acceptedMoves` in `case BLT_STATE_CLEAR_NORTH:` for a frame after the
first clearing pulse. -/
def acceptedAfter (k : MeasurementConstants) (t : BacklashTool) (decDelta : ℚ) : Int :=
  if |decDelta| ≥ (k.BACKLASH_EXPECTED_DISTANCE : ℚ) then
    if t.m_acceptedMoves = 0 ∨ t.m_lastClearRslt * decDelta > 0 then t.m_acceptedMoves + 1
    else 0
  else t.m_acceptedMoves

/-- Source: `case BLT_STATE_CLEAR_NORTH:` of `DecMeasurementStep`. -/
def caseClearNorth (k : MeasurementConstants) (t : BacklashTool) (f : MeasurementFrame)
    (cur : PHD_Point) (decDelta : ℚ) : Option (BacklashTool × List BLTEvent) :=
  if t.m_stepCount = 0 then
    some ({ t with m_stepCount := 1 },
      [BLTEvent.axisMove BLT_STATE_CLEAR_NORTH NORTH t.m_pulseWidth])
  else
    let t1 : BacklashTool := { t with m_acceptedMoves := acceptedAfter k t decDelta }
    if t1.m_acceptedMoves < k.BACKLASH_MIN_COUNT then
      if t1.m_stepCount < k.MAX_CLEARING_STEPS then
        if |t1.m_cumClearingDistance| > (k.BACKLASH_EXEMPTION_DISTANCE : ℚ) then
          leaveClearNorth k { t1 with m_backlashExemption := true } f cur
        else if OutOfRoom f = false then
          some ({ t1 with
              m_stepCount := t1.m_stepCount + 1
              m_markerPoint := cur
              m_lastClearRslt := decDelta },
            [BLTEvent.axisMove BLT_STATE_CLEAR_NORTH NORTH t1.m_pulseWidth])
        else leaveClearNorth k t1 f cur
      else abort { t1 with m_Rslt := MEASUREMENT_BL_NOT_CLEARED } []
    else leaveClearNorth k t1 f cur

/-- Source: `case BLT_STATE_INITIALIZE:` of `DecMeasurementStep`. -/
def caseInitialize (k : MeasurementConstants) (t : BacklashTool) (f : MeasurementFrame)
    (cur : PHD_Point) : Option (BacklashTool × List BLTEvent) :=
  let rate : ℚ :=
    if t.m_lastDecGuideRate ≤ 0 then f.lastCalibrationRate else t.m_lastDecGuideRate
  let t1 : BacklashTool :=
    { t with m_stepCount := 0, m_markerPoint := cur, m_startingPoint := cur,
             m_lastDecGuideRate := rate }
  if rate > 0 then
    some ({ t1 with
        m_pulseWidth := cTrunc ((k.BACKLASH_EXPECTED_DISTANCE : ℚ) * (5 / 4) / rate)
        m_acceptedMoves := 0
        m_lastClearRslt := 0
        m_cumClearingDistance := 0
        m_backlashExemption := false
        m_Rslt := MEASUREMENT_VALID
        m_bltState := BLT_STATE_CLEAR_NORTH }, [])
  else some ({ t1 with m_bltState := BLT_STATE_ABORTED }, [])

/-- Source: `DecMeasurementStep(const PHD_Point& currentCamLoc)`; the result is the tool
afterwards and the calls made, in order.  A `throw` is the `catch` block (`abort`).
`none`: undefined behaviour (see the cases). -/
def DecMeasurementStep (k : MeasurementConstants) (t : BacklashTool) (f : MeasurementFrame) :
    Option (BacklashTool × List BLTEvent) :=
  match f.currMountLocation with
  | none => abort t []
  | some cur =>
    let decDelta : ℚ :=
      if t.m_bltState ≠ BLT_STATE_INITIALIZE then cur.Y - t.m_markerPoint.Y else 0
    let t0 : BacklashTool :=
      if t.m_bltState ≠ BLT_STATE_INITIALIZE then
        { t with m_cumClearingDistance := t.m_cumClearingDistance + decDelta }
      else t
    match t0.m_bltState with
    | BLT_STATE_INITIALIZE => caseInitialize k t0 f cur
    | BLT_STATE_CLEAR_NORTH => caseClearNorth k t0 f cur decDelta
    | BLT_STATE_STEP_NORTH => caseStepNorth t0 f cur
    | BLT_STATE_STEP_SOUTH => caseStepSouth t0 f cur
    | BLT_STATE_TEST_CORRECTION => caseTestCorrection t0 f cur
    | BLT_STATE_RESTORE => caseRestore t0 f cur
    | BLT_STATE_WRAPUP => caseWrapup t0
    | BLT_STATE_COMPLETED => some (t0, [])
    | BLT_STATE_ABORTED => some (t0, [BLTEvent.cleanUp])

/-- Source: `StartMeasurement(double DriftPerMin)`; the frame is what the first
`DecMeasurementStep` reads. -/
def StartMeasurement (k : MeasurementConstants) (t : BacklashTool) (DriftPerMin : ℚ)
    (f : MeasurementFrame) : Option (BacklashTool × List BLTEvent) :=
  DecMeasurementStep k
    { t with
      m_bltState := BLT_STATE_INITIALIZE
      m_driftPerSec := DriftPerMin / 60
      m_northBLSteps := []
      m_southBLSteps := []
      m_stats := t.m_stats.Reset } f

/-- The tool after `DecMeasurementStep` for each frame of a list, in order, and the calls
made since `evs`. -/
def runSteps (k : MeasurementConstants) :
    BacklashTool → List BLTEvent → List MeasurementFrame → Option (BacklashTool × List BLTEvent)
  | t, evs, [] => some (t, evs)
  | t, evs, f :: fs =>
    match DecMeasurementStep k t f with
    | none => none
    | some (t1, e1) => runSteps k t1 (evs ++ e1) fs

/-- A measurement run: `StartMeasurement` on the first frame, then one
`DecMeasurementStep` per further frame. -/
def runMeasurement (k : MeasurementConstants) (t : BacklashTool) (DriftPerMin : ℚ)
    (f0 : MeasurementFrame) (fs : List MeasurementFrame) :
    Option (BacklashTool × List BLTEvent) :=
  match StartMeasurement k t DriftPerMin f0 with
  | none => none
  | some (t1, e1) => runSteps k t1 e1 fs

/-- The number of NORTH pulses scheduled under `case BLT_STATE_STEP_NORTH:`. -/
def northPulses (evs : List BLTEvent) : Nat :=
  evs.countP (fun e =>
    match e with
    | BLTEvent.axisMove BLT_STATE_STEP_NORTH d _ => decide (d = NORTH)
    | _ => false)

/-- The number of SOUTH pulses scheduled under `case BLT_STATE_STEP_SOUTH:`. -/
def southPulses (evs : List BLTEvent) : Nat :=
  evs.countP (fun e =>
    match e with
    | BLTEvent.axisMove BLT_STATE_STEP_SOUTH d _ => decide (d = SOUTH)
    | _ => false)

/-- The number of axis moves scheduled, of any kind. -/
def axisMoves (evs : List BLTEvent) : Nat :=
  evs.countP (fun e =>
    match e with
    | BLTEvent.axisMove _ _ _ => true
    | _ => false)

/-- The states after the first entry of `BLT_STATE_TEST_CORRECTION`: that state with a
non-zero step count, `BLT_STATE_RESTORE`, `BLT_STATE_WRAPUP`, `BLT_STATE_COMPLETED` and
`BLT_STATE_ABORTED`. -/
def Late (t : BacklashTool) : Prop :=
  (t.m_bltState = BLT_STATE_TEST_CORRECTION ∧ t.m_stepCount ≠ 0) ∨
  t.m_bltState = BLT_STATE_RESTORE ∨ t.m_bltState = BLT_STATE_WRAPUP ∨
  t.m_bltState = BLT_STATE_COMPLETED ∨ t.m_bltState = BLT_STATE_ABORTED

/-- The predicate `Late` can be decided. -/
instance decidableLate (t : BacklashTool) : Decidable t.Late := by
  unfold Late
  infer_instance

/-- The relation between the step lists, the statistics and the pulses scheduled, once the
south steps are complete: as many SOUTH pulses under `BLT_STATE_STEP_SOUTH` as NORTH pulses
under `BLT_STATE_STEP_NORTH`, one more north step and one more south step than that, the
last north step equal to the first south step, and as many samples in the statistics. -/
def Measured (t : BacklashTool) (evs : List BLTEvent) : Prop :=
  southPulses evs = northPulses evs ∧
  t.m_northBLSteps.length = northPulses evs + 1 ∧
  t.m_southBLSteps.length = northPulses evs + 1 ∧
  t.m_northBLSteps.getLast? = t.m_southBLSteps.head? ∧
  t.m_stats.count = (northPulses evs : Int)

/-- The predicate `Measured` can be decided. -/
instance decidableMeasured (t : BacklashTool) (evs : List BLTEvent) :
    Decidable (t.Measured evs) := by
  unfold Measured
  infer_instance

/-- The run invariant of a measurement, by state: nothing recorded before the north steps;
during the north steps as many north steps as pulses and one sample less; during the south
steps the north steps complete and as many south steps as south pulses; afterwards
`Measured`, with `ComputeBacklashPx` called. -/
def RunInv (t : BacklashTool) (evs : List BLTEvent) : Prop :=
  match t.m_bltState with
  | BLT_STATE_INITIALIZE | BLT_STATE_CLEAR_NORTH =>
    BLTEvent.computeBacklash ∉ evs ∧ northPulses evs = 0 ∧ southPulses evs = 0 ∧
    t.m_northBLSteps = [] ∧ t.m_southBLSteps = [] ∧ t.m_stats.count = 0
  | BLT_STATE_STEP_NORTH =>
    BLTEvent.computeBacklash ∉ evs ∧ southPulses evs = 0 ∧ t.m_southBLSteps = [] ∧
    t.m_stepCount = (northPulses evs : Int) ∧ t.m_northBLSteps.length = northPulses evs ∧
    1 ≤ northPulses evs ∧ t.m_stats.count = (northPulses evs : Int) - 1
  | BLT_STATE_STEP_SOUTH =>
    BLTEvent.computeBacklash ∉ evs ∧ t.m_northBLSteps.length = northPulses evs + 1 ∧
    t.m_stats.count = (northPulses evs : Int) ∧
    t.m_northPulseCount = (northPulses evs : Int) ∧
    t.m_stepCount = (southPulses evs : Int) ∧ t.m_southBLSteps.length = southPulses evs ∧
    1 ≤ southPulses evs ∧ southPulses evs ≤ northPulses evs ∧
    t.m_northBLSteps.getLast? = t.m_southBLSteps.head?
  | BLT_STATE_ABORTED => BLTEvent.computeBacklash ∈ evs → t.Measured evs
  | _ => BLTEvent.computeBacklash ∈ evs ∧ t.Measured evs

/-- The stored results are those of `ComputeBacklashPx` on the recorded steps, called with
`nRate0` in its uninitialised local. -/
def Stored (t : BacklashTool) (nRate0 : ℚ) : Prop :=
  ∃ c ms, ComputeBacklashPx t.m_northBLSteps t.m_southBLSteps t.m_driftPerSec
      t.m_msmtStartTime t.m_msmtEndTime t.m_pulseWidth nRate0 = some c ∧
    c.bltMs = some ms ∧ t.m_Rslt = c.rslt ∧ t.m_backlashResultPx = c.bltPx ∧
    t.m_backlashResultMs = ms ∧ t.m_northRate = c.northRate

/-- Reference definition: the update of the accepted clearing moves in the words of the
specification: one more if the move is at least the expected distance and no move has been
accepted yet or the move has the sign of the previous accepted move, and 0 otherwise. -/
def acceptedSpec (k : MeasurementConstants) (accepted : Int) (previousAccepted decDelta : ℚ) :
    Int :=
  if |decDelta| ≥ (k.BACKLASH_EXPECTED_DISTANCE : ℚ)
      ∧ (accepted = 0 ∨ previousAccepted * decDelta > 0) then accepted + 1
  else 0

end BacklashTool

end BLC

namespace BLC

/-! ## Concrete states used in examples -/

/-- A fresh, disabled compensator with all profile values zero. -/
def freshComp : BacklashComp := BacklashComp.new 0 0 0 false 2500 0

/-- An event with three corrections: trigger `+10`, then misses `+3` and `+2`
(an initial under-shoot, no stiction). -/
def evUnder : BLCEvent := ⟨[⟨2, 10⟩, ⟨3, 3⟩, ⟨4, 2⟩], false, true, false⟩

/-- A history holding only `evUnder`, window open. -/
def histUnder : BLCHistory := ⟨[evUnder], 0, true, 0, 0⟩

/-- Statistics of `histUnder`. -/
def statsUnder : RecentStats := ⟨1, 0, 0, 3, 0⟩

/-- An event with two corrections: trigger `+10`, then a miss of `-7` (initial over-shoot). -/
def evOver7 : BLCEvent := ⟨[⟨0, 10⟩, ⟨1, -7⟩], true, false, false⟩

/-- A history holding only `evOver7`, window open. -/
def histOver7 : BLCHistory := ⟨[evOver7], 0, true, 0, 0⟩

/-- An event with two corrections: trigger `+10`, then a miss of `-1` (initial over-shoot
for a minimum move below 1). -/
def evOver1 : BLCEvent := ⟨[⟨3, 10⟩, ⟨4, -1⟩], true, false, false⟩

/-- A history of two events, an under-shoot with first miss `+5` followed by the current
event `evOver1`; window open. -/
def histMixed : BLCHistory :=
  ⟨[⟨[⟨0, 10⟩, ⟨1, 5⟩, ⟨2, 1⟩], false, true, false⟩, evOver1], 1, true, 0, 0⟩

/-- Statistics of `histMixed`. -/
def statsMixed : RecentStats := ⟨1, 1, 0, 2, 0⟩

/-- An event showing stiction: trigger `-10`, then misses `+4` and `-3`. -/
def evStiction : BLCEvent := ⟨[⟨0, -10⟩, ⟨1, 4⟩, ⟨2, -3⟩], false, true, true⟩

/-- A history holding only `evStiction`, window open. -/
def histStiction1 : BLCHistory := ⟨[evStiction], 0, true, 0, 0⟩

/-- A history of two stiction events, the second with misses `+4` and `-4`; window open. -/
def histStiction2 : BLCHistory :=
  ⟨[evStiction, ⟨[⟨3, -10⟩, ⟨4, 4⟩, ⟨5, -4⟩], false, true, true⟩], 1, true, 0, 0⟩

/-- An initial over-shoot event (first miss `-6`). -/
def evLong (t : Int) : BLCEvent := ⟨[⟨t, 10⟩, ⟨t + 1, -6⟩], true, false, false⟩

/-- An initial under-shoot event (first miss `+2`, then `+1`). -/
def evShort (t : Int) : BLCEvent := ⟨[⟨t, 10⟩, ⟨t + 1, 2⟩, ⟨t + 2, 1⟩], false, true, false⟩

/-- A history of five events with four initial over-shoots and one under-shoot; the
current event (index 4) has the first miss `-6`. -/
def histPurge : BLCHistory :=
  ⟨[evLong 0, evShort 10, evLong 20, evLong 30, evLong 40], 4, true, 0, 0⟩

/-- Statistics of `histPurge`. -/
def statsPurge : RecentStats := ⟨1, 4, 0, -22 / 5, 0⟩

/-- Move options of an algorithm-result move that may use compensation. -/
def algoMove : Nat := MOVEOPT_ALGO_RESULT ||| MOVEOPT_USE_BLC

/-- The state reached from a fresh compensator by `SetBacklashPulse(pulse, floor, ceiling)`,
`EnableBacklashComp(true)`, a first move NORTH and then a reversal to SOUTH (an
algorithm-result move), which records a compensation event and opens the window. -/
def afterReversal (pulse floor ceiling : Int) : BacklashComp :=
  let s1 := (freshComp.SetBacklashPulse pulse floor ceiling).EnableBacklashComp true
  let s2 := (s1.ApplyBacklashComp algoMove NORTH 5 100 1).1
  (s2.ApplyBacklashComp algoMove SOUTH 10 100 2).1

/-- The state reached from `afterReversal 28 20 100` by one `TrackBLCResults` call that
reports an over-shoot of 10 with `minMove = 0` and `yRate = 1`. -/
def afterTrack28 : BacklashComp :=
  { afterReversal 28 20 100 with
    m_pulseWidth := 22
    m_pHistory := ⟨[⟨[⟨2, 10⟩, ⟨3, -10⟩], true, false, false⟩], 0, false, 0, 0⟩ }

/-- The state reached from `afterReversal 500 100 1000` (active, last direction SOUTH,
window open) by `EnableBacklashComp(false)`: compensation is off, the last direction and the
open window are still recorded. -/
def disabledAfterReversal : BacklashComp :=
  (afterReversal 500 100 1000).EnableBacklashComp false

/-- A fixed-size state: pulse 500 with floor 495 and ceiling 505, after a reversal. -/
def fixedSizeComp : BacklashComp := afterReversal 500 495 505

/-- A history with one event of one correction and the window closed. -/
def histClosed1 : BLCHistory := ⟨[BLCEvent.mk1 0 10], 0, false, 0, 0⟩

/-- A history with one event of one correction and the window open. -/
def histOpen1 : BLCHistory := ⟨[BLCEvent.mk1 0 10], 0, true, 0, 0⟩

/-- A history whose only event has two corrections (trigger `+10`, miss `+3`), window open. -/
def histOpen2 : BLCHistory := ⟨[⟨[⟨2, 10⟩, ⟨3, 3⟩], false, true, false⟩], 0, true, 0, 0⟩

/-- A short sequence of history operations: a new event, two follow-up deflections, a
third one that is refused, and another new event. -/
def sampleOps : List HistoryOp :=
  [HistoryOp.recordNew 1 10, HistoryOp.addDeflection 2 3 0, HistoryOp.addDeflection 3 (-2) 0,
    HistoryOp.addDeflection 4 1 0, HistoryOp.recordNew 5 (-8)]

/-- The history after `sampleOps` on a fresh history created at time 0. -/
def sampleOpsResult : BLCHistory :=
  ⟨[⟨[⟨1, 10⟩, ⟨2, 3⟩, ⟨3, -2⟩], false, true, true⟩, BLCEvent.mk1 5 (-8)], 1, true, 0, 0⟩

/-- The state reached from a fresh compensator by `SetBacklashPulse(500, 100, 1000)`,
`EnableBacklashComp(true)` and a first move NORTH: active, last direction NORTH, empty
history. -/
def northFirst : BacklashComp :=
  (((freshComp.SetBacklashPulse 500 100 1000).EnableBacklashComp true).ApplyBacklashComp
    algoMove NORTH 5 100 1).1

/-- The mirror image of `afterReversal 500 100 1000`: a first move SOUTH and then a
reversal to NORTH (an algorithm-result move with trigger deflection `+10`). -/
def afterReversalNorth : BacklashComp :=
  let s1 := (freshComp.SetBacklashPulse 500 100 1000).EnableBacklashComp true
  let s2 := (s1.ApplyBacklashComp algoMove SOUTH 5 100 1).1
  (s2.ApplyBacklashComp algoMove NORTH 10 100 2).1

/-- The state reached from `afterReversal 500 100 1000` by a `TrackBLCResults` call that
reports an over-shoot of 5 (`minMove = 0`, `yRate = 1`; the pulse becomes 495 and the window
is closed) and a second reversal, to NORTH, which records a second event and opens the
window again. -/
def secondReversal : BacklashComp :=
  let a := afterReversal 500 100 1000
  let b := (a.TrackBLCResults algoMove (-5) 0 1 3).getD a
  (b.ApplyBacklashComp algoMove NORTH 10 100 4).1

/-- North steps 0, 5, 10, ..., 100: twenty deltas of exactly 5 px. -/
def northHappy : List ℚ := (List.range 21).map (fun i => 5 * (i : ℚ))

/-- South steps with three deltas of 0, then -5 and -5. -/
def southHappy : List ℚ := [100, 100, 100, 100, 95, 90]

/-- North steps with five deltas of 5 px. -/
def northWrongWay : List ℚ := [0, 5, 10, 15, 20, 25]

/-- South steps that keep moving north (no negative delta). -/
def southWrongWay : List ℚ := [25, 40, 60, 80, 100, 120]

/-- North steps with four deltas of 5 px. -/
def northShort : List ℚ := [0, 5, 10, 15, 20]

/-- South steps with deltas 0, -5, -5. -/
def southShort : List ℚ := [20, 20, 15, 10]

/-- The state reached from `afterReversal 500 100 1000` by a first `TrackBLCResults` call
that reports an under-shoot of 3 (`minMove = 0`, `yRate = 1/20`): pulse 500, window open,
the current event holds 2 corrections. -/
def afterFirstMiss : BacklashComp :=
  ((afterReversal 500 100 1000).TrackBLCResults algoMove 3 0 (1 / 20) 3).getD freshComp

/-- What `AdjustmentNeeded` returns on `histUnder` for the miss `+2` at `yRate = 1/20`. -/
def adjUnder : AdjustmentResult :=
  ⟨true, 60, { histUnder with lastIncrease := 60, windowOpen := false }⟩

/-- The state reached from `afterReversal 2000 20 8000` by a first `TrackBLCResults` call
that reports an under-shoot of 30 (`minMove = 0`, `yRate = 1/20`): pulse 2000, window open,
one event with 2 corrections. -/
def afterBigMiss : BacklashComp :=
  ((afterReversal 2000 20 8000).TrackBLCResults algoMove 30 0 (1 / 20) 3).getD freshComp

end BLC

namespace BLC

/-- The calls that lead from a fresh compensator to `afterFirstMiss`. -/
def sampleCompOps : List CompOp :=
  [CompOp.setPulse 500 100 1000, CompOp.enableComp true,
    CompOp.applyComp algoMove NORTH 5 100 1, CompOp.applyComp algoMove SOUTH 10 100 2,
    CompOp.trackResult algoMove 3 0 (1 / 20) 3]

end BLC

namespace BLC

open BacklashTool BLTState

/-- Sample values for the measurement constants, in the order `BACKLASH_MIN_COUNT`,
`BACKLASH_EXPECTED_DISTANCE`, `BACKLASH_EXEMPTION_DISTANCE`, `MAX_CLEARING_STEPS`,
`NORTH_PULSE_SIZE`, `MAX_NORTH_PULSES`. -/
def sampleConstants : MeasurementConstants := ⟨3, 4, 40, 100, 500, 8000⟩

/-- A tool that has not run yet: calibrated at 0.01 px/ms, every other member zero. -/
def toolIdle : BacklashTool :=
  ⟨BLT_STATE_INITIALIZE, 1 / 100, 0, 0, 0, false, 0, [], [], ⟨0, 0, 0⟩, 0, ⟨0, 0⟩, ⟨0, 0⟩,
    ⟨0, 0⟩, 0, 0, 0, MeasurementResults.MEASUREMENT_VALID, 0, 0, 0, 0, 0⟩

/-- A frame with the star in the middle of a 1000 x 1000 sensor, the mount at declination
`y`, a calibration at 0.01 px/ms lasting 2500 ms, a search region of 100 px, at time `ms`;
the uninitialised local of `ComputeBacklashPx` would hold 1. -/
def frameAt (y : ℚ) (ms : Int) : MeasurementFrame :=
  ⟨⟨500, 500⟩, some ⟨0, y⟩, 1 / 100, 2500, 100, 1000, 1000, ms, 1⟩

/-- The mount positions seen after the start of a run: the first clearing pulse, the
clearing moves `+5`, `+1`, `+5`, `+5`, four north steps of 25 px, two idle south steps and
two south steps of 25 px, and the position after the test pulse. -/
def samplePositions : List ℚ := [0, 5, 6, 11, 16, 41, 66, 91, 116, 116, 116, 91, 66, 41]

/-- The frames of `samplePositions`, one second apart. -/
def sampleFrames : List MeasurementFrame :=
  samplePositions.enum.map (fun p => frameAt p.2 (1000 * (p.1 : Int)))

/-- The end of the run started at declination 0 on `toolIdle` and fed `sampleFrames`. -/
def sampleRunEnd : BacklashTool × List BLTEvent :=
  (runMeasurement sampleConstants toolIdle 0 (frameAt 0 0) sampleFrames).getD (toolIdle, [])

/-- The frames of a run in which the star does not come back after the south steps: as
`sampleFrames`, but the mount is at 116 after the test pulse, 116 px from the starting
point, so that 4 restore pulses are scheduled; five more frames let the run complete. -/
def farFrames : List MeasurementFrame :=
  sampleFrames.take 13 ++ List.replicate 5 (frameAt 116 20000)

/-- The end of a first run, started at declination 0 on `toolIdle` and fed `farFrames`:
completed, with `m_restoreCount = 4`. -/
def firstRunEnd : BacklashTool × List BLTEvent :=
  (runMeasurement sampleConstants toolIdle 0 (frameAt 0 0) farFrames).getD (toolIdle, [])

/-- The second run, started on the tool left by the first run and fed the first 13 frames
of `sampleFrames`: the test pulse has been scheduled. -/
def secondRunTest : BacklashTool × List BLTEvent :=
  (runMeasurement sampleConstants firstRunEnd.1 0 (frameAt 0 0) (sampleFrames.take 13)).getD
    (toolIdle, [])

/-- As `frameAt`, with the star 50 px from the far edge of the sensor, inside the margin of
100 px, so that `OutOfRoom` holds. -/
def frameAtEdge (y : ℚ) (ms : Int) : MeasurementFrame :=
  { frameAt y ms with currentCamLoc := ⟨500, 950⟩ }

/-- The frame at declination 41 and time 8000 on which the uninitialised local of
`ComputeBacklashPx` would hold 1/3. -/
def frameCompute : MeasurementFrame := { frameAt 41 8000 with uninitNRate := 1 / 3 }

/-- The frames of a run whose north phase is cut short: as `sampleFrames` up to the second
north pulse; the next frame, at declination 66, finds the star out of room after 2 of the 4
north pulses; the two south pulses follow, `frameCompute` ends the south steps, and a last
frame lets the run complete. -/
def truncatedFrames : List MeasurementFrame :=
  sampleFrames.take 6 ++ [frameAtEdge 66 6000, frameAt 66 7000, frameCompute, frameAt 41 9000]

/-- The tool and the calls after the start at declination 0 on `toolIdle` and the first
`n` frames of `truncatedFrames`. -/
def truncatedRunAt (n : Nat) : BacklashTool × List BLTEvent :=
  (runMeasurement sampleConstants toolIdle 0 (frameAt 0 0) (truncatedFrames.take n)).getD
    (toolIdle, [])

/-- The tool and the calls after the start at declination 0 on `toolIdle` and the first
`n` frames of `sampleFrames`. -/
def sampleRunAt (n : Nat) : BacklashTool × List BLTEvent :=
  (runMeasurement sampleConstants toolIdle 0 (frameAt 0 0) (sampleFrames.take n)).getD
    (toolIdle, [])

/-- The result of one step with the sample constants (`toolIdle` when the step fails). -/
def stepEnd (t : BacklashTool) (f : MeasurementFrame) : BacklashTool × List BLTEvent :=
  (DecMeasurementStep sampleConstants t f).getD (toolIdle, [])

/-- The result of a sequence of steps with the sample constants (`toolIdle` when a step
fails). -/
def runEnd (t : BacklashTool) (evs : List BLTEvent) (fs : List MeasurementFrame) :
    BacklashTool × List BLTEvent :=
  (runSteps sampleConstants t evs fs).getD (toolIdle, [])

/-- The step of the truncated run that calls `ComputeBacklashPx`: the tool after 8 frames of
`truncatedFrames`, stepped on `frameCompute`. -/
def truncatedStored : BacklashTool × List BLTEvent :=
  stepEnd (truncatedRunAt 8).1 frameCompute

/-- The truncated run after the step `truncatedStored` and the last frame. -/
def truncatedDone : BacklashTool × List BLTEvent :=
  runEnd truncatedStored.1 [] [frameAt 41 9000]

end BLC

namespace BLC

/-! ## Numeric lemmas -/

theorem toUInt_of_range {x : Int} (h0 : 0 ≤ x) (h1 : x < 2 ^ 32) : toUInt x = x := by
  unfold toUInt
  exact Int.emod_eq_of_lt h0 h1

theorem toUInt_nonneg (x : Int) : 0 ≤ toUInt x := by
  unfold toUInt
  exact Int.emod_nonneg _ (by norm_num)

/-- The clamped pulse always lies in `[0, 8000]`. -/
theorem clampedPulse_range (r : Int) :
    0 ≤ wxMax_iu 0 (wxMin_iu r MAX_COMP_AMOUNT) ∧
      wxMax_iu 0 (wxMin_iu r MAX_COMP_AMOUNT) ≤ 8000 := by
  have h := toUInt_nonneg r
  have h0 : toUInt 0 = 0 := by decide
  unfold wxMax_iu wxMin_iu MAX_COMP_AMOUNT
  rw [h0]
  split_ifs <;> omega

/-- For a request inside `[0, 2^32)` the clamped pulse is `min r 8000`. -/
theorem clampedPulse_of_nonneg {r : Int} (h0 : 0 ≤ r) (h1 : r < 2 ^ 32) :
    wxMax_iu 0 (wxMin_iu r MAX_COMP_AMOUNT) = min r 8000 := by
  have h := toUInt_of_range h0 h1
  have hz : toUInt 0 = 0 := by decide
  unfold wxMax_iu wxMin_iu MAX_COMP_AMOUNT
  rw [hz, h]
  split_ifs <;> omega

/-- The default ceiling `(int) wxMin(1.50 * p, MAX_COMP_AMOUNT)` lies in `[p, 8000]`. -/
theorem defaultCeiling_range {p : Int} (h0 : 0 ≤ p) (h1 : p ≤ 8000) :
    p ≤ cTrunc (min ((3 / 2 : ℚ) * p) MAX_COMP_AMOUNT) ∧
      cTrunc (min ((3 / 2 : ℚ) * p) MAX_COMP_AMOUNT) ≤ 8000 := by
  have hp : (0 : ℚ) ≤ p := by exact_mod_cast h0
  have hp1 : (p : ℚ) ≤ 8000 := by exact_mod_cast h1
  have hM : ((MAX_COMP_AMOUNT : Int) : ℚ) = 8000 := by norm_num [MAX_COMP_AMOUNT]
  have hx0 : (0 : ℚ) ≤ min ((3 / 2 : ℚ) * p) MAX_COMP_AMOUNT := by
    rw [hM]; exact le_min (by linarith) (by norm_num)
  have hxp : (p : ℚ) ≤ min ((3 / 2 : ℚ) * p) MAX_COMP_AMOUNT := by
    rw [hM]; exact le_min (by linarith) hp1
  unfold cTrunc
  rw [if_pos hx0]
  constructor
  · exact Int.le_floor.mpr hxp
  · have h2 : min ((3 / 2 : ℚ) * p) MAX_COMP_AMOUNT ≤ ((8000 : Int) : ℚ) := by
      rw [hM]; exact le_trans (min_le_right _ _) (by norm_num)
    have h3 := Int.floor_le_floor h2
    rwa [Int.floor_intCast] at h3

/-- After `SetCompValues` the pulse never exceeds the stored ceiling, and the ceiling
never exceeds 8000 (`c` inside the `int` range). -/
theorem SetCompValues_pulse_le_ceiling (s : BacklashComp) (r f c : Int) (hc : c < 2 ^ 31) :
    (s.SetCompValues r f c).m_pulseWidth ≤ (s.SetCompValues r f c).m_adjustmentCeiling ∧
      (s.SetCompValues r f c).m_adjustmentCeiling ≤ 8000 := by
  obtain ⟨h0, h1⟩ := clampedPulse_range r
  obtain ⟨h2, h3⟩ := defaultCeiling_range h0 h1
  simp only [BacklashComp.SetCompValues]
  generalize wxMax_iu 0 (wxMin_iu r MAX_COMP_AMOUNT) = P at *
  split_ifs with hcP
  · exact ⟨h2, h3⟩
  · have hc0 : 0 ≤ c := by omega
    unfold wxMin_iu MAX_COMP_AMOUNT
    rw [toUInt_of_range hc0 (by omega)]
    split_ifs <;> omega

/-- For a positive guide rate the expression `(int)(floor(abs(x) / yRate) + 0.5)` is the
quotient rounded down. -/
theorem corrOf_eq_floor (x yRate : ℚ) (hy : 0 < yRate) :
    BLCHistory.corrOf x yRate = ⌊|x| / yRate⌋ := by
  have hq : 0 ≤ |x| / yRate := div_nonneg (abs_nonneg x) hy.le
  have hf : (0 : Int) ≤ ⌊|x| / yRate⌋ := Int.floor_nonneg.mpr hq
  have h0 : (0 : ℚ) ≤ (⌊|x| / yRate⌋ : ℚ) + 1 / 2 := by
    have : (0 : ℚ) ≤ (⌊|x| / yRate⌋ : ℚ) := by exact_mod_cast hf
    linarith
  have hhalf : ⌊(1 / 2 : ℚ)⌋ = 0 := by
    rw [Int.floor_eq_iff]
    norm_num
  unfold BLCHistory.corrOf cTrunc
  rw [if_pos h0, Int.floor_int_add, hhalf, add_zero]

/-- A quotient whose fractional part is at least 1/2: rounded down it is one less than the
nearest integer. -/
theorem floor_eq_round_sub_one (q : ℚ) (h : 1 / 2 ≤ Int.fract q) : ⌊q⌋ = round q - 1 := by
  have h1 : ⌊q + 1 / 2⌋ = ⌊q⌋ + 1 := by
    rw [Int.floor_eq_iff]
    have h2 := Int.fract_lt_one q
    have h3 := Int.floor_add_fract q
    push_cast
    constructor <;> linarith
  rw [round_eq, h1]
  omega

end BLC

namespace BLC

/-! ## SetCompValues / SetBacklashPulse -/

/-- Whenever `SetBacklashPulse` does not skip its body, it stores the same pulse, floor,
ceiling and fixed-size flag as `SetCompValues`. -/
theorem SetBacklashPulse_values (s : BacklashComp) (ms f c : Int)
    (hne : s.m_pulseWidth ≠ ms ∨ s.m_adjustmentFloor ≠ f ∨ s.m_adjustmentCeiling ≠ c) :
    (s.SetBacklashPulse ms f c).m_pulseWidth = (s.SetCompValues ms f c).m_pulseWidth ∧
    (s.SetBacklashPulse ms f c).m_adjustmentFloor = (s.SetCompValues ms f c).m_adjustmentFloor ∧
    (s.SetBacklashPulse ms f c).m_adjustmentCeiling
      = (s.SetCompValues ms f c).m_adjustmentCeiling ∧
    (s.SetBacklashPulse ms f c).m_fixedSize = (s.SetCompValues ms f c).m_fixedSize := by
  unfold BacklashComp.SetBacklashPulse
  rw [if_pos hne]
  dsimp only
  split_ifs <;> exact ⟨rfl, rfl, rfl, rfl⟩

/-- After `SetCompValues` with a request of at least 20 ms (inside the `int` range) the
stored floor does not exceed the pulse. -/
theorem SetCompValues_floor_le_pulse (s : BacklashComp) (r f c : Int)
    (h20 : 20 ≤ r) (hr : r < 2 ^ 31) :
    (s.SetCompValues r f c).m_adjustmentFloor ≤ (s.SetCompValues r f c).m_pulseWidth := by
  have hP := clampedPulse_of_nonneg (r := r) (by omega) (by omega)
  simp only [BacklashComp.SetCompValues]
  rw [hP]
  unfold MIN_COMP_AMOUNT
  split_ifs with h1
  · omega
  · omega

/-- C8 (code defect, evaluation at the failing input): a negative request is not clamped
to 0.  `wxMin(requestedSize, MAX_COMP_AMOUNT)` compares the `int` request with an
`unsigned int` limit, so `-1` is compared as `4294967295`, the minimum is 8000 and the
stored pulse is 8000, whereas `max(0, min(-1, 8000)) = 0`. -/
theorem C8_negative_request_stores_max (s : BacklashComp) (f c : Int) :
    (s.SetCompValues (-1) f c).m_pulseWidth = 8000 ∧ max 0 (min (-1 : Int) 8000) = 0 := by
  constructor
  · simp only [BacklashComp.SetCompValues]
    decide
  · decide

/-- C9 (code defect, evaluation at the failing input): a negative floor is stored as it
is.  `floor < MIN_COMP_AMOUNT` compares the `int` floor with an `unsigned int` limit, so
`-5` is compared as `4294967291` and the default of 20 is not taken: after
`SetCompValues(100, -5, 200)` the stored floor is `-5`, which is below 20. -/
theorem C9_negative_floor_is_stored (s : BacklashComp) :
    (s.SetCompValues 100 (-5) 200).m_adjustmentFloor = -5 ∧
      ¬ (20 ≤ (s.SetCompValues 100 (-5) 200).m_adjustmentFloor) := by
  have h : (s.SetCompValues 100 (-5) 200).m_adjustmentFloor = -5 := by
    simp only [BacklashComp.SetCompValues]
    decide
  rw [h]
  exact ⟨rfl, by decide⟩

/-- C10 (counterexample): a request of 5 ms with floor 0 and ceiling 10 satisfies
`ceiling >= max(0, min(requested, 8000))`, yet the stored floor is 20 and the stored
pulse is 5, for `SetCompValues` and for `SetBacklashPulse` alike. -/
theorem C10_counterexample :
    (10 : Int) ≥ max 0 (min 5 8000) ∧
    (freshComp.SetCompValues 5 0 10).m_pulseWidth = 5 ∧
    (freshComp.SetCompValues 5 0 10).m_adjustmentFloor = 20 ∧
    ¬ ((freshComp.SetCompValues 5 0 10).m_adjustmentFloor
        ≤ (freshComp.SetCompValues 5 0 10).m_pulseWidth ∧
       (freshComp.SetCompValues 5 0 10).m_pulseWidth
        ≤ (freshComp.SetCompValues 5 0 10).m_adjustmentCeiling) ∧
    ¬ ((freshComp.SetBacklashPulse 5 0 10).m_adjustmentFloor
        ≤ (freshComp.SetBacklashPulse 5 0 10).m_pulseWidth ∧
       (freshComp.SetBacklashPulse 5 0 10).m_pulseWidth
        ≤ (freshComp.SetBacklashPulse 5 0 10).m_adjustmentCeiling) := by
  decide!

/-- C10 (amended): for all `int` values `requested`, `floor`, `ceiling` with
`requested >= 20`, after `SetCompValues(requested, floor, ceiling)` the state satisfies
`floor_ms <= pulse_width <= ceiling_ms`; the same holds after
`SetBacklashPulse(requested, floor, ceiling)` whenever the arguments differ from the
stored values (otherwise that call changes nothing). -/
theorem C10_floor_le_pulse_le_ceiling (s : BacklashComp) (requested floor ceiling : Int)
    (h20 : 20 ≤ requested) (hr : requested < 2 ^ 31) (hc : ceiling < 2 ^ 31) :
    ((s.SetCompValues requested floor ceiling).m_adjustmentFloor
        ≤ (s.SetCompValues requested floor ceiling).m_pulseWidth ∧
      (s.SetCompValues requested floor ceiling).m_pulseWidth
        ≤ (s.SetCompValues requested floor ceiling).m_adjustmentCeiling) ∧
    ((s.m_pulseWidth ≠ requested ∨ s.m_adjustmentFloor ≠ floor
        ∨ s.m_adjustmentCeiling ≠ ceiling) →
      (s.SetBacklashPulse requested floor ceiling).m_adjustmentFloor
        ≤ (s.SetBacklashPulse requested floor ceiling).m_pulseWidth ∧
      (s.SetBacklashPulse requested floor ceiling).m_pulseWidth
        ≤ (s.SetBacklashPulse requested floor ceiling).m_adjustmentCeiling) := by
  have h1 := SetCompValues_floor_le_pulse s requested floor ceiling h20 hr
  have h2 := (SetCompValues_pulse_le_ceiling s requested floor ceiling hc).1
  refine ⟨⟨h1, h2⟩, fun hne => ?_⟩
  obtain ⟨e1, e2, e3, _⟩ := SetBacklashPulse_values s requested floor ceiling hne
  rw [e1, e2, e3]
  exact ⟨h1, h2⟩

/-- C10 (witness): the amended statement at `requested = 500`, `floor = 100`,
`ceiling = 1000` on a fresh compensator. -/
theorem C10_floor_le_pulse_le_ceiling_witness :
    ((freshComp.SetCompValues 500 100 1000).m_adjustmentFloor
        ≤ (freshComp.SetCompValues 500 100 1000).m_pulseWidth ∧
      (freshComp.SetCompValues 500 100 1000).m_pulseWidth
        ≤ (freshComp.SetCompValues 500 100 1000).m_adjustmentCeiling) ∧
    ((freshComp.m_pulseWidth ≠ 500 ∨ freshComp.m_adjustmentFloor ≠ 100
        ∨ freshComp.m_adjustmentCeiling ≠ 1000) →
      (freshComp.SetBacklashPulse 500 100 1000).m_adjustmentFloor
        ≤ (freshComp.SetBacklashPulse 500 100 1000).m_pulseWidth ∧
      (freshComp.SetBacklashPulse 500 100 1000).m_pulseWidth
        ≤ (freshComp.SetBacklashPulse 500 100 1000).m_adjustmentCeiling) :=
  C10_floor_le_pulse_le_ceiling freshComp 500 100 1000 (by decide) (by decide) (by decide)

/-! ## ApplyBacklashComp -/

/-- C2: for every state and every call of `ApplyBacklashComp`, `*yAmount` afterwards is
`yAmount + pulse_width` if compensation is active, the pulse is positive, `yDist` is not
zero, a last direction is known and `dir` differs from it, and is unchanged otherwise;
`m_lastDirection` becomes `dir` exactly when compensation is active, the pulse is positive
and `yDist` is not zero, and is unchanged otherwise.  In the scenario with last direction
NORTH, `dir = NORTH`, `yDist = 2`, `yAmount = 400`: the amount stays 400, the history is
untouched (no new event) and the last direction is still NORTH. -/
theorem C2_ApplyBacklashComp_spec (s : BacklashComp) (opts : Nat) (dir : Int) (yDist : ℚ)
    (yAmount now : Int) :
    (s.ApplyBacklashComp opts dir yDist yAmount now).2
      = (if s.m_compActive = true ∧ s.m_pulseWidth > 0 ∧ yDist ≠ 0
            ∧ s.m_lastDirection ≠ NONE ∧ dir ≠ s.m_lastDirection
          then yAmount + s.m_pulseWidth else yAmount) ∧
    (s.ApplyBacklashComp opts dir yDist yAmount now).1.m_lastDirection
      = (if s.m_compActive = true ∧ s.m_pulseWidth > 0 ∧ yDist ≠ 0
          then dir else s.m_lastDirection) ∧
    (BacklashComp.ApplyBacklashComp { s with m_lastDirection := NORTH } opts NORTH 2 400 now).2
      = 400 ∧
    (BacklashComp.ApplyBacklashComp { s with m_lastDirection := NORTH } opts NORTH 2 400
      now).1.m_pHistory = s.m_pHistory ∧
    (BacklashComp.ApplyBacklashComp { s with m_lastDirection := NORTH } opts NORTH 2 400
      now).1.m_lastDirection = NORTH := by
  refine ⟨?_, ?_, ?_, ?_, ?_⟩
  · unfold BacklashComp.ApplyBacklashComp
    split_ifs with h1 h2 h3 h3 h3 <;> first | rfl | (exfalso; simp_all; try omega)
  · unfold BacklashComp.ApplyBacklashComp
    split_ifs with h1 h2 h3 h3 h3 <;> first | rfl | (exfalso; simp_all; try omega)
  · simp [BacklashComp.ApplyBacklashComp]
  · simp [BacklashComp.ApplyBacklashComp]
  · simp [BacklashComp.ApplyBacklashComp]

end BLC

namespace BLC

/-! ## Lemmas about BLCHistory -/

namespace BLCHistory

/-- One loop iteration of `GetStats` counts the event either as long or as short. -/
theorem GetStats.body_counts {a a1 : StatsAcc} {evt : BLCEvent}
    (h : GetStats.body a evt = some a1) :
    a1.res.longCount = a.res.longCount + (if evt.initialOvershoot = true then 1 else 0) ∧
    a1.res.shortCount = a.res.shortCount + (if evt.initialOvershoot = true then 0 else 1) := by
  unfold GetStats.body at h
  cases ho : evt.initialOvershoot <;> cases hst : evt.stictionSeen <;>
    cases h2 : evt.corrections[2]? <;> cases h1 : evt.corrections[1]? <;>
    by_cases hc : evt.InfoCount > 1 <;>
    simp [ho, hst, h2, h1, hc] at h <;> (subst h; simp)

/-- The loop of `GetStats` adds to `longCount` the number of visited events with
`initialOvershoot` and to `shortCount` the number of the others. -/
theorem GetStats.loop_counts (w : List BLCEvent) :
    ∀ {a a1 : StatsAcc}, GetStats.loop a w = some a1 →
      a1.res.longCount = a.res.longCount + (w.countP (fun e => e.initialOvershoot) : Nat) ∧
      a1.res.shortCount = a.res.shortCount + (w.countP (fun e => !e.initialOvershoot) : Nat) := by
  induction w with
  | nil =>
    intro a a1 h
    simp only [GetStats.loop, Option.some.injEq] at h
    subst h
    simp
  | cons evt rest ih =>
    intro a a1 h
    simp only [GetStats.loop] at h
    cases hb : GetStats.body a evt with
    | none => rw [hb] at h; exact absurd h (by simp)
    | some a2 =>
      rw [hb] at h
      obtain ⟨i1, i2⟩ := ih h
      obtain ⟨b1, b2⟩ := GetStats.body_counts hb
      rw [i1, i2, b1, b2, List.countP_cons, List.countP_cons]
      cases evt.initialOvershoot <;> simp <;> omega

/-- The counts reported by `GetStats` on a fresh result, in terms of the visited window. -/
theorem GetStats_counts {h : BLCHistory} {n : Int} {s : RecentStats}
    (hs : h.GetStats n {} = some s) :
    ∃ w, GetStats.window h n = some w ∧
      s.longCount = (w.countP (fun e => e.initialOvershoot) : Nat) ∧
      s.shortCount = (w.countP (fun e => !e.initialOvershoot) : Nat) := by
  unfold GetStats at hs
  cases hw : GetStats.window h n with
  | none => rw [hw] at hs; exact absurd hs (by simp)
  | some w =>
    rw [hw] at hs
    dsimp only at hs
    cases hl : GetStats.loop ⟨{}, 0, 0, 0⟩ w with
    | none => rw [hl] at hs; exact absurd hs (by simp)
    | some a =>
      rw [hl] at hs
      obtain ⟨c1, c2⟩ := GetStats.loop_counts w hl
      refine ⟨w, rfl, ?_, ?_⟩
      · simp only [Option.some.injEq] at hs
        subst hs
        split_ifs <;> simpa using c1
      · simp only [Option.some.injEq] at hs
        subst hs
        split_ifs <;> simpa using c2

/-- A list with at least one element satisfying `p` splits at the first such element. -/
theorem split_at_first {α : Type} (p : α → Bool) :
    ∀ (l : List α), 1 ≤ l.countP p →
      ∃ a e r, l = a ++ e :: r ∧ (∀ x ∈ a, p x = false) ∧ p e = true ∧
        r.countP p + 1 = l.countP p := by
  intro l
  induction l with
  | nil => intro h; simp at h
  | cons x xs ih =>
    intro h
    cases hx : p x with
    | true =>
      refine ⟨[], x, xs, rfl, ?_, hx, ?_⟩
      · intro y hy; simp at hy
      · rw [List.countP_cons_of_pos _ _ hx]
    | false =>
      have hx1 : ¬ (p x = true) := by simp [hx]
      rw [List.countP_cons_of_neg _ _ hx1] at h
      obtain ⟨a, e, r, hl, ha, he, hr⟩ := ih h
      refine ⟨x :: a, e, r, ?_, ?_, he, ?_⟩
      · rw [hl]; rfl
      · intro y hy
        rcases List.mem_cons.mp hy with rfl | hy
        · exact hx
        · exact ha y hy
      · rw [List.countP_cons_of_neg _ _ hx1]; exact hr

/-- One round of `RemoveOldestOvershoots` on a history whose events are `a ++ e :: r`,
with no initial overshoot in `a`, an initial overshoot at `e` and `r` not empty:
`e` is erased and `blcIndex` is the new last index. -/
theorem RemoveOldestOvershoots.pass_found (h : BLCHistory) (a r : List BLCEvent) (e : BLCEvent)
    (hl : h.blcEvents = a ++ e :: r) (ha : ∀ x ∈ a, x.initialOvershoot = false)
    (he : e.initialOvershoot = true) (hr : r ≠ []) :
    RemoveOldestOvershoots.pass h
      = some { h with blcEvents := a ++ r, blcIndex := ((a ++ r).length : Int) - 1 } := by
  have hd : h.blcEvents.dropLast = a ++ e :: r.dropLast := by
    rw [hl, List.dropLast_append_cons, List.dropLast_cons_of_ne_nil hr]
  have hf : h.blcEvents.dropLast.findIdx? (fun e => e.initialOvershoot) = some a.length := by
    rw [hd, List.findIdx?_append]
    have hn : a.findIdx? (fun e => e.initialOvershoot) = none := by
      rw [List.findIdx?_eq_none_iff]
      intro x hx
      simp [ha x hx]
    rw [hn]
    simp [List.findIdx?_cons, he]
  have her : h.blcEvents.eraseIdx a.length = a ++ r := by
    rw [hl, List.eraseIdx_append_of_length_le (le_refl _)]
    simp
  unfold RemoveOldestOvershoots.pass
  rw [hf]
  simp only [her]
  rw [hl]
  cases a <;> rfl

/-- Two rounds of `RemoveOldestOvershoots` on events `a ++ e1 :: b ++ e2 :: c`, where `e1`
and `e2` are the first two events with an initial overshoot and `c` is not empty. -/
theorem RemoveOldestOvershoots_two (h : BLCHistory) (a b c : List BLCEvent) (e1 e2 : BLCEvent)
    (hl : h.blcEvents = a ++ e1 :: (b ++ e2 :: c))
    (ha : ∀ x ∈ a, x.initialOvershoot = false) (hb : ∀ x ∈ b, x.initialOvershoot = false)
    (he1 : e1.initialOvershoot = true) (he2 : e2.initialOvershoot = true) (hc : c ≠ []) :
    h.RemoveOldestOvershoots 2
      = some { h with blcEvents := a ++ b ++ c, blcIndex := ((a ++ b ++ c).length : Int) - 1 } := by
  have p1 := RemoveOldestOvershoots.pass_found h a (b ++ e2 :: c) e1 hl ha he1 (by simp)
  have hl2 : ({ h with blcEvents := a ++ (b ++ e2 :: c),
                       blcIndex := ((a ++ (b ++ e2 :: c)).length : Int) - 1 } : BLCHistory).blcEvents
      = (a ++ b) ++ e2 :: c := by simp
  have hab : ∀ x ∈ a ++ b, x.initialOvershoot = false := by
    intro x hx
    rcases List.mem_append.mp hx with hx | hx
    · exact ha x hx
    · exact hb x hx
  have p2 := RemoveOldestOvershoots.pass_found _ (a ++ b) c e2 hl2 hab he2 hc
  show RemoveOldestOvershoots.loop (2 : Int).toNat h = _
  have h2 : (2 : Int).toNat = 2 := rfl
  rw [h2]
  simp only [RemoveOldestOvershoots.loop, p1, p2]

end BLCHistory

end BLC

namespace BLC

namespace BLCHistory

/-- A round of `RemoveOldestOvershoots` on a non-empty history succeeds, leaves the window
flag alone and leaves the history non-empty. -/
theorem RemoveOldestOvershoots.pass_some (h : BLCHistory) (hne : h.blcEvents ≠ []) :
    ∃ h1, RemoveOldestOvershoots.pass h = some h1 ∧ h1.windowOpen = h.windowOpen ∧
      h1.blcEvents ≠ [] := by
  unfold RemoveOldestOvershoots.pass
  cases hl : h.blcEvents with
  | nil => exact absurd hl hne
  | cons x xs =>
    dsimp only
    cases hf : (x :: xs).dropLast.findIdx? (fun e => e.initialOvershoot) with
    | none => exact ⟨h, rfl, rfl, by rw [hl]; simp⟩
    | some inx =>
      refine ⟨_, rfl, rfl, ?_⟩
      obtain ⟨hlt, -⟩ := List.findIdx?_eq_some_iff_getElem.mp hf
      rw [List.length_dropLast] at hlt
      dsimp only
      rw [List.eraseIdx_ne_nil]
      left
      omega

/-- The loop of `RemoveOldestOvershoots` on a non-empty history succeeds and leaves the
window flag alone. -/
theorem RemoveOldestOvershoots.loop_some (n : Nat) :
    ∀ (h : BLCHistory), h.blcEvents ≠ [] →
      ∃ h1, RemoveOldestOvershoots.loop n h = some h1 ∧ h1.windowOpen = h.windowOpen := by
  induction n with
  | zero => intro h _; exact ⟨h, rfl, rfl⟩
  | succ k ih =>
    intro h hne
    obtain ⟨h1, e1, w1, n1⟩ := RemoveOldestOvershoots.pass_some h hne
    obtain ⟨h2, e2, w2⟩ := ih h1 n1
    refine ⟨h2, ?_, by rw [w2, w1]⟩
    simp only [RemoveOldestOvershoots.loop, e1, e2]

/-- An event read at `blcIndex` shows that the event list is not empty. -/
theorem blcEvents_ne_nil_of_getElem? {h : BLCHistory} {i : Nat} {e : BLCEvent}
    (he : h.blcEvents[i]? = some e) : h.blcEvents ≠ [] := by
  intro hn
  rw [hn] at he
  simp at he

/-- The branch `miss > 0` of `AdjustmentNeeded` for `|miss| >= minMove` on a history whose
current event `e` has 2 or 3 corrections, with `s` the statistics over the last 10 events
and a non-zero guide rate: the call returns; it reports an adjustment if and only if
`s.avgInitialMiss > 0`, `e` has exactly 3 corrections, `s.stictionCount <= 2` and
`s.longCount < 2`, and then the adjustment is the value of
`(int)(floor(abs(avgInitMiss) / yRate) + 0.5)`; in every other case the correction is 0; the
window is open afterwards only if it was open, `s.avgInitialMiss > 0` and `e` has fewer than
3 corrections; the events are untouched. -/
theorem AdjustmentNeeded_undershoot (h : BLCHistory) (miss minMove yRate : ℚ) (s : RecentStats)
    (e : BLCEvent) (hidx : 0 ≤ h.blcIndex) (he : h.blcEvents[h.blcIndex.toNat]? = some e)
    (hc2 : 2 ≤ e.InfoCount) (hc3 : e.InfoCount ≤ 3)
    (hs : h.GetStats HISTORY_DEPTH {} = some s)
    (hmiss : miss > 0) (hmm : |miss| ≥ minMove) (hy : yRate ≠ 0) :
    ∃ r, h.AdjustmentNeeded miss minMove yRate = some r ∧
      (r.adjust = true ↔
        (s.avgInitialMiss > 0 ∧ e.InfoCount = 3 ∧ s.stictionCount ≤ 2 ∧ s.longCount < 2)) ∧
      r.correction = (if r.adjust = true then ((corrOf s.avgInitialMiss yRate : Int) : ℚ) else 0) ∧
      (r.hist.windowOpen = true ↔
        (h.windowOpen = true ∧ s.avgInitialMiss > 0 ∧ e.InfoCount < 3)) ∧
      r.hist.blcEvents = h.blcEvents ∧ r.hist.blcIndex = h.blcIndex := by
  unfold AdjustmentNeeded
  rw [if_pos hidx, hs]
  dsimp only
  rw [he]
  dsimp only
  rw [if_neg (not_lt.mpr hc2), if_pos hmm, if_neg hy, if_pos hmiss]
  unfold ENTRY_CAPACITY
  split_ifs with h1 h2 h3 h4 <;> refine ⟨_, rfl, ?_⟩ <;> simp
  · omega
  · omega
  · exact ⟨⟨h1, by omega, by omega, by omega⟩, fun _ _ => by omega⟩
  · exact ⟨fun _ hh => absurd hh h2, fun _ => ⟨h1, by omega⟩⟩
  · exact ⟨fun hh => absurd hh h1, fun _ hh => absurd hh h1⟩

/-- C3 (code defect): `AdjustmentNeeded` called with `miss > 0` and `|miss| >= minMove` on
a history whose current event `e` has 2 or 3 corrections, with `s` the statistics over the
last 10 events and a positive guide rate: the call returns; it reports an adjustment if and
only if `s.avgInitialMiss > 0`, `e` has exactly 3 corrections, `s.stictionCount <= 2` and
`s.longCount < 2`; in every other case the correction is 0 (no adjustment); the window is
open afterwards only if it was open, `s.avgInitialMiss > 0` and `e` has fewer than 3
corrections; the events are untouched.  The adjustment reported is
`floor(|s.avgInitialMiss| / yRate)`, the quotient rounded down, not the nearest integer
`round(|s.avgInitialMiss| / yRate)`: whenever the fractional part of the quotient is at
least 1/2 the reported adjustment is one less than the nearest integer. -/
theorem C3_undershoot_amount_rounded_down (h : BLCHistory) (miss minMove yRate : ℚ)
    (s : RecentStats) (e : BLCEvent) (hidx : 0 ≤ h.blcIndex)
    (he : h.blcEvents[h.blcIndex.toNat]? = some e)
    (hc2 : 2 ≤ e.InfoCount) (hc3 : e.InfoCount ≤ 3)
    (hs : h.GetStats HISTORY_DEPTH {} = some s)
    (hmiss : miss > 0) (hmm : |miss| ≥ minMove) (hy : 0 < yRate) :
    ∃ r, h.AdjustmentNeeded miss minMove yRate = some r ∧
      (r.adjust = true ↔
        (s.avgInitialMiss > 0 ∧ e.InfoCount = 3 ∧ s.stictionCount ≤ 2 ∧ s.longCount < 2)) ∧
      (r.adjust = false → r.correction = 0) ∧
      (r.adjust = true → r.correction = ((⌊|s.avgInitialMiss| / yRate⌋ : Int) : ℚ)) ∧
      (r.adjust = true → 1 / 2 ≤ Int.fract (|s.avgInitialMiss| / yRate) →
        r.correction = ((round (|s.avgInitialMiss| / yRate) : Int) : ℚ) - 1) ∧
      (r.hist.windowOpen = true ↔
        (h.windowOpen = true ∧ s.avgInitialMiss > 0 ∧ e.InfoCount < 3)) ∧
      r.hist.blcEvents = h.blcEvents ∧ r.hist.blcIndex = h.blcIndex := by
  obtain ⟨r, hr, hadj, hcorr, hw, hev, hix⟩ :=
    AdjustmentNeeded_undershoot h miss minMove yRate s e hidx he hc2 hc3 hs hmiss hmm hy.ne'
  rw [corrOf_eq_floor _ _ hy] at hcorr
  refine ⟨r, hr, hadj, ?_, ?_, ?_, hw, hev, hix⟩
  · intro hf
    rw [hcorr, hf]
    rfl
  · intro ht
    rw [hcorr, if_pos ht]
  · intro ht hfr
    rw [hcorr, if_pos ht, floor_eq_round_sub_one _ hfr]
    push_cast
    rfl

/-- C3 (witness, the failing input): on `histUnder` (one event, trigger `+10`, misses `+3`
and `+2`; the average initial miss is 3) the call with `miss = 2`, `minMove = 0` and
`yRate = 8/5` reports the adjustment `+1`: the quotient is `15/8 = 1.875`, whose nearest
integer is 2. -/
theorem C3_undershoot_amount_rounded_down_witness :
    histUnder.GetStats HISTORY_DEPTH {} = some statsUnder ∧
    statsUnder.avgInitialMiss = 3 ∧
    histUnder.AdjustmentNeeded 2 0 (8 / 5)
      = some ⟨true, 1, { histUnder with lastIncrease := 1, windowOpen := false }⟩ ∧
    |statsUnder.avgInitialMiss| / (8 / 5) = 15 / 8 ∧
    round (|statsUnder.avgInitialMiss| / (8 / 5)) = 2 ∧
    ∃ r, histUnder.AdjustmentNeeded 2 0 (8 / 5) = some r ∧
      (r.adjust = true ↔
        (statsUnder.avgInitialMiss > 0 ∧ evUnder.InfoCount = 3 ∧ statsUnder.stictionCount ≤ 2
          ∧ statsUnder.longCount < 2)) ∧
      (r.adjust = false → r.correction = 0) ∧
      (r.adjust = true
        → r.correction = ((⌊|statsUnder.avgInitialMiss| / (8 / 5)⌋ : Int) : ℚ)) ∧
      (r.adjust = true → 1 / 2 ≤ Int.fract (|statsUnder.avgInitialMiss| / (8 / 5)) →
        r.correction = ((round (|statsUnder.avgInitialMiss| / (8 / 5)) : Int) : ℚ) - 1) ∧
      (r.hist.windowOpen = true ↔
        (histUnder.windowOpen = true ∧ statsUnder.avgInitialMiss > 0 ∧ evUnder.InfoCount < 3)) ∧
      r.hist.blcEvents = histUnder.blcEvents ∧ r.hist.blcIndex = histUnder.blcIndex := by
  have hq : |statsUnder.avgInitialMiss| / (8 / 5) = 15 / 8 := by
    have : statsUnder.avgInitialMiss = 3 := rfl
    rw [this]
    norm_num
  refine ⟨by decide!, rfl, by decide!, hq, ?_,
    C3_undershoot_amount_rounded_down histUnder 2 0 (8 / 5) statsUnder evUnder (by decide)
      (by decide) (by decide) (by decide) (by decide!) (by norm_num) (by norm_num)
      (by norm_num)⟩
  rw [hq, round_eq]
  decide!

/-- C4 (code defect, evaluation at the failing input): the magnitude is the quotient
rounded down, not the nearest integer.  On `histOver7` the average initial miss is `-7`;
with `yRate = 4` the quotient is `1.75`, the code computes
`(int)(floor(1.75) + 0.5) = 1` and returns `-1`, while the nearest integer is 2. -/
theorem C4_corr_is_rounded_down :
    histOver7.GetStats HISTORY_DEPTH {} = some ⟨0, 1, 0, -7, 0⟩ ∧
    corrOf (-7) 4 = 1 ∧
    histOver7.AdjustmentNeeded (-7) 0 4
      = some ⟨true, -1, { histOver7 with windowOpen := false }⟩ ∧
    round (|(-7 : ℚ)| / 4) = 2 := by
  refine ⟨by decide!, by decide!, by decide!, ?_⟩
  have h : |(-7 : ℚ)| / 4 = 7 / 4 := by norm_num
  rw [h, round_eq]
  decide!

/-- C5 (counterexample): on `histMixed` the current event has 2 corrections, the average
initial miss is `+2`, `longCount = shortCount = 1` and the current event shows no
stiction; the call with `miss = -1`, `minMove = 1/2` returns no adjustment and leaves
the window open. -/
theorem C5_counterexample :
    histMixed.blcEvents[histMixed.blcIndex.toNat]? = some evOver1 ∧
    evOver1.InfoCount = 2 ∧ (-1 : ℚ) < 0 ∧ |(-1 : ℚ)| ≥ 1 / 2 ∧
    histMixed.GetStats HISTORY_DEPTH {} = some statsMixed ∧
    histMixed.AdjustmentNeeded (-1) (1 / 2) 1 = some ⟨false, 0, histMixed⟩ ∧
    histMixed.windowOpen = true := by
  refine ⟨by decide, by decide, by norm_num, by norm_num, by decide!, by decide!, by decide⟩

/-- C5 (amended): `AdjustmentNeeded` called with `miss < 0` and `|miss| >= minMove` on a
history whose current event `e` has 2 or 3 corrections (non-zero guide rate) returns, and
the window is closed afterwards except when `s.avgInitialMiss >= 0`,
`s.longCount <= s.shortCount`, `e` shows no stiction and `e` has fewer than 3 corrections;
in that one case the window flag is left as it was.  Whenever
`s.avgInitialMiss >= 0`, `s.longCount <= s.shortCount` and `e` shows no stiction, no
adjustment is returned. -/
theorem C5_overshoot_window (h : BLCHistory) (miss minMove yRate : ℚ) (s : RecentStats)
    (e : BLCEvent) (hidx : 0 ≤ h.blcIndex) (he : h.blcEvents[h.blcIndex.toNat]? = some e)
    (hc2 : 2 ≤ e.InfoCount) (hc3 : e.InfoCount ≤ 3)
    (hs : h.GetStats HISTORY_DEPTH {} = some s)
    (hmiss : miss < 0) (hmm : |miss| ≥ minMove) (hy : yRate ≠ 0) :
    ∃ r, h.AdjustmentNeeded miss minMove yRate = some r ∧
      (r.hist.windowOpen = true ↔
        (h.windowOpen = true ∧ 0 ≤ s.avgInitialMiss ∧ s.longCount ≤ s.shortCount
          ∧ e.stictionSeen = false ∧ e.InfoCount < 3)) ∧
      ((0 ≤ s.avgInitialMiss ∧ s.longCount ≤ s.shortCount ∧ e.stictionSeen = false) →
        r.adjust = false ∧ r.correction = 0) := by
  obtain ⟨h2, e2, w2⟩ := RemoveOldestOvershoots.loop_some (2 : Int).toNat
    { h with windowOpen := false } (blcEvents_ne_nil_of_getElem? he)
  have w2f : h2.windowOpen = false := w2
  have key2 : (s.avgInitialMiss < 0 ∨ s.longCount > s.shortCount ∨ e.stictionSeen = true) →
      0 ≤ s.avgInitialMiss → s.longCount ≤ s.shortCount → e.stictionSeen = true := by
    rintro (hh | hh | hh) a b
    · exact absurd a (not_le.mpr hh)
    · exact absurd b (not_le.mpr hh)
    · exact hh
  have key : (s.avgInitialMiss < 0 ∨ s.longCount > s.shortCount ∨ e.stictionSeen = true) →
      0 ≤ s.avgInitialMiss → s.longCount ≤ s.shortCount → e.stictionSeen = false → False := by
    intro hh a b c
    have := key2 hh a b
    rw [c] at this
    exact Bool.false_ne_true this
  unfold AdjustmentNeeded
  rw [if_pos hidx, hs]
  dsimp only
  rw [he]
  dsimp only
  rw [if_neg (not_lt.mpr hc2), if_pos hmm, if_neg hy, if_neg (not_lt.mpr hmiss.le)]
  unfold ENTRY_CAPACITY RemoveOldestOvershoots
  rw [e2]
  dsimp only
  split_ifs with h1 h3 h4 h5 h6 h7 h8 <;> refine ⟨_, rfl, ?_⟩ <;> simp
  · exact ⟨fun _ a b c => (key h1 a b c).elim, key2 h1⟩
  · exact fun _ a b c => (key h1 a b c).elim
  · exact fun _ a b c => (key h1 a b c).elim
  · refine ⟨?_, key2 h1⟩
    rw [w2f]
    constructor
    · intro hh; exact absurd hh (by decide)
    · rintro ⟨_, a, b, c, _⟩; exact (key h1 a b c).elim
  · exact ⟨fun _ a b c => (key h1 a b c).elim, key2 h1⟩
  · exact fun _ a b c => (key h1 a b c).elim
  · intros; omega
  · intro _
    push_neg at h1
    obtain ⟨a, b, c⟩ := h1
    refine ⟨a, b, by simpa using c, by omega⟩

/-- C5 (witness): the amended statement at `histMixed`, `miss = -1`, `minMove = 1/2`,
`yRate = 1`. -/
theorem C5_overshoot_window_witness :
    ∃ r, histMixed.AdjustmentNeeded (-1) (1 / 2) 1 = some r ∧
      (r.hist.windowOpen = true ↔
        (histMixed.windowOpen = true ∧ 0 ≤ statsMixed.avgInitialMiss
          ∧ statsMixed.longCount ≤ statsMixed.shortCount
          ∧ evOver1.stictionSeen = false ∧ evOver1.InfoCount < 3)) ∧
      ((0 ≤ statsMixed.avgInitialMiss ∧ statsMixed.longCount ≤ statsMixed.shortCount
          ∧ evOver1.stictionSeen = false) →
        r.adjust = false ∧ r.correction = 0) :=
  C5_overshoot_window histMixed (-1) (1 / 2) 1 statsMixed evOver1 (by decide) (by decide)
    (by decide) (by decide) (by decide!) (by norm_num) (by norm_num) (by norm_num)

/-- C6 (code defect, evaluation at the failing input): on `histStiction2` both events show
stiction, the average stiction amount is `-3.5`; with `yRate = 2` the quotient is `1.75`,
the code computes `(int)(floor(1.75) + 0.5) = 1` and returns `-1` with the window closed,
while the nearest integer is 2.  On `histStiction1` (the single event with trigger `-10`
and misses `+4`, `-3`) the stiction count is 1, no adjustment is returned and the window
is closed. -/
theorem C6_stiction_corr_is_rounded_down :
    histStiction2.GetStats HISTORY_DEPTH {} = some ⟨2, 0, 2, 4, -7 / 2⟩ ∧
    histStiction2.AdjustmentNeeded (-4) 1 2
      = some ⟨true, -1, { histStiction2 with windowOpen := false }⟩ ∧
    round (|(-7 / 2 : ℚ)| / 2) = 2 ∧
    histStiction1.GetStats HISTORY_DEPTH {} = some ⟨1, 0, 1, 4, -3⟩ ∧
    histStiction1.AdjustmentNeeded (-3) 1 1
      = some ⟨false, 0, { histStiction1 with windowOpen := false }⟩ := by
  refine ⟨by decide!, by decide!, ?_, by decide!, by decide!⟩
  have h : |(-7 / 2 : ℚ)| / 2 = 7 / 4 := by
    rw [abs_of_neg (by norm_num)]; norm_num
  rw [h, round_eq]
  decide!

/-- A list whose element at the last index is `e` is its `dropLast` followed by `e`. -/
theorem eq_dropLast_append_of_getElem? {α : Type} {l : List α} {e : α}
    (h : l[l.length - 1]? = some e) : l = l.dropLast ++ [e] := by
  have hne : l ≠ [] := by
    intro hn; rw [hn] at h; simp at h
  obtain ⟨hlt, hget⟩ := List.getElem?_eq_some.mp h
  have h1 := List.dropLast_concat_getLast hne
  rw [List.getLast_eq_getElem, hget] at h1
  exact h1.symm

/-- With `blcIndex` at the last of at least 5 events, more long than short events in the
statistics window means that at least two events other than the last one have
`initialOvershoot`. -/
theorem two_overshoots_before_last {h : BLCHistory} {s : RecentStats}
    (hsize : h.blcIndex = (h.blcEvents.length : Int) - 1) (h4 : 4 ≤ h.blcIndex)
    (hs : h.GetStats HISTORY_DEPTH {} = some s) (hls : s.longCount > s.shortCount) :
    2 ≤ h.blcEvents.dropLast.countP (fun e => e.initialOvershoot) := by
  obtain ⟨w, hw, c1, c2⟩ := GetStats_counts hs
  unfold GetStats.window HISTORY_DEPTH at hw
  dsimp only at hw
  rw [if_neg (by omega), if_pos (by omega)] at hw
  simp only [Option.some.injEq] at hw
  have htake : h.blcEvents.take (h.blcIndex.toNat + 1) = h.blcEvents :=
    List.take_of_length_le (by omega)
  rw [htake] at hw
  subst hw
  rw [List.countP_reverse] at c1 c2
  have hlen : ((h.blcEvents.drop (max 0 (h.blcIndex - (10 - 1))).toNat).length : Int) ≥ 5 := by
    rw [List.length_drop]
    omega
  have hsum := List.length_eq_countP_add_countP (fun e : BLCEvent => e.initialOvershoot)
    (h.blcEvents.drop (max 0 (h.blcIndex - (10 - 1))).toNat)
  have hnot : (fun a : BLCEvent => decide ¬(a.initialOvershoot = true))
      = (fun e => !e.initialOvershoot) := by
    funext a; cases a.initialOvershoot <;> rfl
  rw [hnot] at hsum
  have hsub := List.Sublist.countP_le (fun e : BLCEvent => e.initialOvershoot)
    (List.drop_sublist (max 0 (h.blcIndex - (10 - 1))).toNat h.blcEvents)
  have hne : h.blcEvents ≠ [] := by
    intro hn; rw [hn] at hsize; simp at hsize; omega
  have hdl := List.dropLast_concat_getLast hne
  have hcnt : h.blcEvents.countP (fun e => e.initialOvershoot)
      ≤ h.blcEvents.dropLast.countP (fun e => e.initialOvershoot) + 1 := by
    conv_lhs => rw [← hdl]
    rw [List.countP_append]
    have : [h.blcEvents.getLast hne].countP (fun e => e.initialOvershoot) ≤ 1 := by
      simpa using List.countP_le_length (fun e : BLCEvent => e.initialOvershoot)
        (l := [h.blcEvents.getLast hne])
    omega
  omega

/-- The branch of `AdjustmentNeeded` that removes over-shoot events: for every history
whose `blcIndex` is the last index and at least 4, whose current event `e` has exactly 2
corrections, and every call with `miss < 0`, `|miss| >= minMove`, a non-zero guide rate and
`longCount > shortCount` in the statistics `s` over the last 10 events: the events are
`a ++ e1 :: b ++ e2 :: c ++ [e]` where `e1` and `e2` are the two oldest events other than
the current one with an initial over-shoot; the call reports as adjustment minus the value
of `(int)(floor(abs(avgInitMiss) / yRate) + 0.5)`, computed from `s` (the statistics before
the removal); the history afterwards holds `a ++ b ++ c ++ [e]` (current event kept, order
of the rest preserved), `blcIndex` is the new last index and the window is closed. -/
theorem AdjustmentNeeded_purge (h : BLCHistory) (miss minMove yRate : ℚ) (s : RecentStats)
    (e : BLCEvent) (hsize : h.blcIndex = (h.blcEvents.length : Int) - 1) (h4 : 4 ≤ h.blcIndex)
    (he : h.blcEvents[h.blcIndex.toNat]? = some e) (hc : e.InfoCount = 2)
    (hs : h.GetStats HISTORY_DEPTH {} = some s)
    (hmiss : miss < 0) (hmm : |miss| ≥ minMove) (hy : yRate ≠ 0)
    (hls : s.longCount > s.shortCount) :
    ∃ a e1 b e2 c,
      h.blcEvents = a ++ e1 :: (b ++ e2 :: (c ++ [e])) ∧
      (∀ x ∈ a, x.initialOvershoot = false) ∧ e1.initialOvershoot = true ∧
      (∀ x ∈ b, x.initialOvershoot = false) ∧ e2.initialOvershoot = true ∧
      h.AdjustmentNeeded miss minMove yRate
        = some ⟨true, -((corrOf s.avgInitialMiss yRate : Int) : ℚ),
            { h with blcEvents := a ++ b ++ (c ++ [e]),
                     blcIndex := ((a ++ b ++ (c ++ [e])).length : Int) - 1,
                     windowOpen := false }⟩ := by
  have hidx : 0 ≤ h.blcIndex := by omega
  have hnat : h.blcIndex.toNat = h.blcEvents.length - 1 := by omega
  have hlast : h.blcEvents = h.blcEvents.dropLast ++ [e] := by
    apply eq_dropLast_append_of_getElem?
    rw [← hnat]; exact he
  have hcount := two_overshoots_before_last hsize h4 hs hls
  obtain ⟨a, e1, r1, hr1, ha, he1, hc1⟩ :=
    split_at_first (fun e : BLCEvent => e.initialOvershoot) h.blcEvents.dropLast (by omega)
  obtain ⟨b, e2, c, hr2, hb, he2, -⟩ :=
    split_at_first (fun e : BLCEvent => e.initialOvershoot) r1 (by omega)
  have hl : h.blcEvents = a ++ e1 :: (b ++ e2 :: (c ++ [e])) := by
    rw [hlast, hr1, hr2]; simp
  refine ⟨a, e1, b, e2, c, hl, ha, he1, hb, he2, ?_⟩
  have hrem := RemoveOldestOvershoots_two { h with windowOpen := false } a b (c ++ [e]) e1 e2
    hl ha hb he1 he2 (by simp)
  unfold AdjustmentNeeded
  rw [if_pos hidx, hs]
  dsimp only
  rw [he]
  dsimp only
  rw [if_neg (by omega), if_pos hmm, if_neg hy, if_neg (not_lt.mpr hmiss.le),
    if_pos (Or.inr (Or.inl hls)), if_neg (by unfold ENTRY_CAPACITY; omega),
    if_pos ⟨hls, h4⟩, hrem]

/-- C7 (code defect): for every history whose `blcIndex` is the last index and at least
4, whose current event `e` has exactly 2 corrections, and every `AdjustmentNeeded` call with
`miss < 0`, `|miss| >= minMove`, a positive guide rate and `longCount > shortCount` in the
statistics `s` over the last 10 events: the events are `a ++ e1 :: b ++ e2 :: c ++ [e]`
where `e1` and `e2` are the two oldest events other than the current one with an initial
over-shoot; the history afterwards holds `a ++ b ++ c ++ [e]` (current event kept, order of
the rest preserved), `blcIndex` is the new last index and the window is closed.  The
adjustment reported is `-floor(|s.avgInitialMiss| / yRate)`, from the statistics before the
removal, with the quotient rounded down, not the nearest integer: whenever the fractional
part of the quotient is at least 1/2 its magnitude is one less than
`round(|s.avgInitialMiss| / yRate)`. -/
theorem C7_purge_amount_rounded_down (h : BLCHistory) (miss minMove yRate : ℚ)
    (s : RecentStats) (e : BLCEvent)
    (hsize : h.blcIndex = (h.blcEvents.length : Int) - 1) (h4 : 4 ≤ h.blcIndex)
    (he : h.blcEvents[h.blcIndex.toNat]? = some e) (hc : e.InfoCount = 2)
    (hs : h.GetStats HISTORY_DEPTH {} = some s)
    (hmiss : miss < 0) (hmm : |miss| ≥ minMove) (hy : 0 < yRate)
    (hls : s.longCount > s.shortCount) :
    (∃ a e1 b e2 c,
      h.blcEvents = a ++ e1 :: (b ++ e2 :: (c ++ [e])) ∧
      (∀ x ∈ a, x.initialOvershoot = false) ∧ e1.initialOvershoot = true ∧
      (∀ x ∈ b, x.initialOvershoot = false) ∧ e2.initialOvershoot = true ∧
      h.AdjustmentNeeded miss minMove yRate
        = some ⟨true, -((⌊|s.avgInitialMiss| / yRate⌋ : Int) : ℚ),
            { h with blcEvents := a ++ b ++ (c ++ [e]),
                     blcIndex := ((a ++ b ++ (c ++ [e])).length : Int) - 1,
                     windowOpen := false }⟩) ∧
    (1 / 2 ≤ Int.fract (|s.avgInitialMiss| / yRate) →
      ⌊|s.avgInitialMiss| / yRate⌋ = round (|s.avgInitialMiss| / yRate) - 1) := by
  obtain ⟨a, e1, b, e2, c, hl, ha, he1, hb, he2, hadj⟩ :=
    AdjustmentNeeded_purge h miss minMove yRate s e hsize h4 he hc hs hmiss hmm hy.ne' hls
  rw [corrOf_eq_floor _ _ hy] at hadj
  exact ⟨⟨a, e1, b, e2, c, hl, ha, he1, hb, he2, hadj⟩, floor_eq_round_sub_one _⟩

/-- C7 (witness, the failing input): `histPurge`, five events with `longCount = 4`,
`shortCount = 1`, `blcIndex = 4`, the current miss `-6` and the average initial miss
`-22/5`.  With `yRate = 5/2` the quotient is `44/25 = 1.76`, whose nearest integer is 2, and
the call reports `-1`; the two oldest over-shoot events are removed and the window is
closed.  (With `yRate = 1/20` the quotient is the integer 88 and the call reports `-88`.) -/
theorem C7_purge_amount_rounded_down_witness :
    histPurge.GetStats HISTORY_DEPTH {} = some statsPurge ∧
    histPurge.AdjustmentNeeded (-6) 1 (5 / 2)
      = some ⟨true, -1, ⟨[evShort 10, evLong 30, evLong 40], 2, false, 0, 0⟩⟩ ∧
    |statsPurge.avgInitialMiss| / (5 / 2) = 44 / 25 ∧
    round (|statsPurge.avgInitialMiss| / (5 / 2)) = 2 ∧
    histPurge.AdjustmentNeeded (-6) 1 (1 / 20)
      = some ⟨true, -88, ⟨[evShort 10, evLong 30, evLong 40], 2, false, 0, 0⟩⟩ ∧
    ((∃ a e1 b e2 c,
      histPurge.blcEvents = a ++ e1 :: (b ++ e2 :: (c ++ [evLong 40])) ∧
      (∀ x ∈ a, x.initialOvershoot = false) ∧ e1.initialOvershoot = true ∧
      (∀ x ∈ b, x.initialOvershoot = false) ∧ e2.initialOvershoot = true ∧
      histPurge.AdjustmentNeeded (-6) 1 (5 / 2)
        = some ⟨true, -((⌊|statsPurge.avgInitialMiss| / (5 / 2)⌋ : Int) : ℚ),
            { histPurge with blcEvents := a ++ b ++ (c ++ [evLong 40]),
                             blcIndex := ((a ++ b ++ (c ++ [evLong 40])).length : Int) - 1,
                             windowOpen := false }⟩) ∧
    (1 / 2 ≤ Int.fract (|statsPurge.avgInitialMiss| / (5 / 2)) →
      ⌊|statsPurge.avgInitialMiss| / (5 / 2)⌋
        = round (|statsPurge.avgInitialMiss| / (5 / 2)) - 1)) := by
  have hq : |statsPurge.avgInitialMiss| / (5 / 2) = 44 / 25 := by
    have : statsPurge.avgInitialMiss = -22 / 5 := rfl
    rw [this, abs_of_neg (by norm_num)]
    norm_num
  refine ⟨by decide!, by decide!, hq, ?_, by decide!,
    C7_purge_amount_rounded_down histPurge (-6) 1 (5 / 2) statsPurge (evLong 40) (by decide)
      (by decide) (by decide) (by decide) (by decide!) (by norm_num) (by norm_num)
      (by norm_num) (by decide)⟩
  rw [hq, round_eq]
  decide!

end BLCHistory

end BLC

namespace BLC

/-! ## TrackBLCResults -/

theorem ROUND_mono {x y : ℚ} (h : x ≤ y) : ROUND x ≤ ROUND y := by
  unfold ROUND
  exact Int.floor_le_floor (by linarith)

theorem ROUND_intCast (n : Int) : ROUND (n : ℚ) = n := by
  unfold ROUND
  rw [Int.floor_eq_iff]
  constructor <;> norm_num

/-- The rate limiter of `_TrackBLCResults`: the value `newBLC` computed from the pulse `p`,
the floor `f`, the ceiling `c` and the nominal value, when `0 <= p` and `f <= p <= c`. -/
theorem newBLC_bounds (p f c : Int) (nominal : ℚ) (hp : 0 ≤ p) (hf : f ≤ p) (hc : p ≤ c) :
    let newBLC : Int :=
      if nominal > (p : ℚ) then
        (if ROUND (min ((p : ℚ) * (11 / 10)) nominal) > c then c
          else ROUND (min ((p : ℚ) * (11 / 10)) nominal))
      else
        (if ROUND (max ((4 / 5) * (p : ℚ)) nominal) < f then f
          else ROUND (max ((4 / 5) * (p : ℚ)) nominal))
    ROUND ((4 / 5) * (p : ℚ)) ≤ newBLC ∧ newBLC ≤ ROUND ((p : ℚ) * (11 / 10)) ∧
      f ≤ newBLC ∧ newBLC ≤ c ∧ 0 ≤ newBLC ∧
      (nominal > (p : ℚ) → p ≤ newBLC) ∧ (¬ nominal > (p : ℚ) → newBLC ≤ p) := by
  have hpq : (0 : ℚ) ≤ p := by exact_mod_cast hp
  have l0 : ROUND (0 : ℚ) = 0 := by
    have := ROUND_intCast 0
    simpa using this
  have l1 : 0 ≤ ROUND ((4 / 5) * (p : ℚ)) := by
    rw [← l0]; exact ROUND_mono (by linarith)
  have l2 : ROUND ((4 / 5) * (p : ℚ)) ≤ p := by
    conv_rhs => rw [← ROUND_intCast p]
    exact ROUND_mono (by linarith)
  have l3 : p ≤ ROUND ((p : ℚ) * (11 / 10)) := by
    conv_lhs => rw [← ROUND_intCast p]
    exact ROUND_mono (by linarith)
  intro newBLC
  by_cases hn : nominal > (p : ℚ)
  · have m1 : p ≤ ROUND (min ((p : ℚ) * (11 / 10)) nominal) := by
      conv_lhs => rw [← ROUND_intCast p]
      exact ROUND_mono (le_min (by linarith) hn.le)
    have m2 : ROUND (min ((p : ℚ) * (11 / 10)) nominal) ≤ ROUND ((p : ℚ) * (11 / 10)) :=
      ROUND_mono (min_le_left _ _)
    have hnew : newBLC = (if ROUND (min ((p : ℚ) * (11 / 10)) nominal) > c then c
          else ROUND (min ((p : ℚ) * (11 / 10)) nominal)) := if_pos hn
    rw [hnew]
    split_ifs with hgt
    · exact ⟨by omega, by omega, by omega, le_refl _, by omega, fun _ => hc,
        fun h => absurd hn h⟩
    · exact ⟨by omega, m2, by omega, by omega, by omega, fun _ => m1, fun h => absurd hn h⟩
  · have m1 : ROUND (max ((4 / 5) * (p : ℚ)) nominal) ≤ p := by
      conv_rhs => rw [← ROUND_intCast p]
      exact ROUND_mono (max_le (by linarith) (not_lt.mp hn))
    have m2 : ROUND ((4 / 5) * (p : ℚ)) ≤ ROUND (max ((4 / 5) * (p : ℚ)) nominal) :=
      ROUND_mono (le_max_left _ _)
    have hnew : newBLC = (if ROUND (max ((4 / 5) * (p : ℚ)) nominal) < f then f
          else ROUND (max ((4 / 5) * (p : ℚ)) nominal)) := if_neg hn
    rw [hnew]
    split_ifs with hlt
    · exact ⟨by omega, by omega, le_refl _, by omega, by omega, fun h => absurd h hn,
        fun _ => hf⟩
    · exact ⟨m2, by omega, by omega, by omega, by omega, fun h => absurd h hn, fun _ => m1⟩

/-- The pulse stored by `SetCompValues` for a request inside `[0, 8000]` is the request. -/
theorem SetCompValues_pulse_of_range (s : BacklashComp) (r f c : Int) (h0 : 0 ≤ r)
    (h1 : r ≤ 8000) : (s.SetCompValues r f c).m_pulseWidth = r := by
  have := clampedPulse_of_nonneg (r := r) h0 (by omega)
  simp only [BacklashComp.SetCompValues]
  rw [this]
  omega

/-- A non-negative pulse lies inside its own rounded band. -/
theorem pulse_in_band (p : Int) (hp : 0 ≤ p) :
    ROUND ((4 / 5) * (p : ℚ)) ≤ p ∧ p ≤ ROUND ((p : ℚ) * (11 / 10)) := by
  have hpq : (0 : ℚ) ≤ p := by exact_mod_cast hp
  constructor
  · conv_rhs => rw [← ROUND_intCast p]
    exact ROUND_mono (by linarith)
  · conv_lhs => rw [← ROUND_intCast p]
    exact ROUND_mono (by linarith)

theorem ROUND_le_add_half (x : ℚ) : (ROUND x : ℚ) ≤ x + 1 / 2 := by
  unfold ROUND
  exact Int.floor_le _

theorem sub_half_lt_ROUND (x : ℚ) : x - 1 / 2 < (ROUND x : ℚ) := by
  unfold ROUND
  have := Int.lt_floor_add_one (x + 1 / 2)
  linarith

/-- The pulse after `_TrackBLCResults`, when `0 <= p`, `f <= p <= c <= 8000` hold before. -/
theorem TrackBLCResults_inner_pulse_bounds (s s1 : BacklashComp) (opts : Nat)
    (yDistance minMove yRate : ℚ) (now : Int)
    (hp : 0 ≤ s.m_pulseWidth) (hf : s.m_adjustmentFloor ≤ s.m_pulseWidth)
    (hc : s.m_pulseWidth ≤ s.m_adjustmentCeiling) (hc8 : s.m_adjustmentCeiling ≤ 8000)
    (hrun : s._TrackBLCResults opts yDistance minMove yRate now = some s1) :
    ROUND ((4 / 5) * (s.m_pulseWidth : ℚ)) ≤ s1.m_pulseWidth ∧
      s1.m_pulseWidth ≤ ROUND ((s.m_pulseWidth : ℚ) * (11 / 10)) ∧
      s.m_adjustmentFloor ≤ s1.m_pulseWidth ∧ s1.m_pulseWidth ≤ s.m_adjustmentCeiling := by
  obtain ⟨b1, b2⟩ := pulse_in_band s.m_pulseWidth hp
  unfold BacklashComp._TrackBLCResults at hrun
  dsimp only at hrun
  split at hrun
  · exact absurd hrun (by simp)
  · split at hrun
    · exact absurd hrun (by simp)
    · rename_i r _
      by_cases hadj : r.adjust = true
      · rw [if_pos hadj] at hrun
        simp only [Option.some.injEq] at hrun
        obtain ⟨n1, n2, n3, n4, n5, -, -⟩ := newBLC_bounds s.m_pulseWidth s.m_adjustmentFloor
          s.m_adjustmentCeiling ((s.m_pulseWidth : ℚ) + r.correction) hp hf hc
        rw [← hrun, SetCompValues_pulse_of_range _ _ _ _ n5 (by omega)]
        exact ⟨n1, n2, n3, n4⟩
      · rw [if_neg hadj] at hrun
        simp only [Option.some.injEq] at hrun
        rw [← hrun]
        exact ⟨b1, b2, hf, hc⟩

/-- C1 (amended): for every state with `0 <= pulse_width` and
`floor_ms <= pulse_width <= ceiling_ms <= 8000`, and every `TrackBLCResults` call (any
flags, distance, minimum move and rate) that returns: the pulse `q` afterwards satisfies
`ROUND(0.8 p) <= q <= ROUND(1.1 p)`, hence `0.8 p - 1/2 < q <= 1.1 p + 1/2` (the band is
rounded to whole milliseconds), and `floor_ms <= q <= ceiling_ms` (floor and ceiling taken
before the call). -/
theorem C1_track_result_pulse_bounds (s s1 : BacklashComp) (opts : Nat)
    (yDistance minMove yRate : ℚ) (now : Int)
    (hp : 0 ≤ s.m_pulseWidth) (hf : s.m_adjustmentFloor ≤ s.m_pulseWidth)
    (hc : s.m_pulseWidth ≤ s.m_adjustmentCeiling) (hc8 : s.m_adjustmentCeiling ≤ 8000)
    (hrun : s.TrackBLCResults opts yDistance minMove yRate now = some s1) :
    (ROUND ((4 / 5) * (s.m_pulseWidth : ℚ)) ≤ s1.m_pulseWidth ∧
      s1.m_pulseWidth ≤ ROUND ((s.m_pulseWidth : ℚ) * (11 / 10))) ∧
    ((4 / 5) * (s.m_pulseWidth : ℚ) - 1 / 2 < (s1.m_pulseWidth : ℚ) ∧
      (s1.m_pulseWidth : ℚ) ≤ (11 / 10) * (s.m_pulseWidth : ℚ) + 1 / 2) ∧
    (s.m_adjustmentFloor ≤ s1.m_pulseWidth ∧ s1.m_pulseWidth ≤ s.m_adjustmentCeiling) := by
  have main : ROUND ((4 / 5) * (s.m_pulseWidth : ℚ)) ≤ s1.m_pulseWidth ∧
      s1.m_pulseWidth ≤ ROUND ((s.m_pulseWidth : ℚ) * (11 / 10)) ∧
      s.m_adjustmentFloor ≤ s1.m_pulseWidth ∧ s1.m_pulseWidth ≤ s.m_adjustmentCeiling := by
    obtain ⟨b1, b2⟩ := pulse_in_band s.m_pulseWidth hp
    unfold BacklashComp.TrackBLCResults at hrun
    split_ifs at hrun with h1 h2 h3 h4
    · exact TrackBLCResults_inner_pulse_bounds s s1 opts yDistance minMove yRate now hp hf hc hc8 hrun
    all_goals
      simp only [Option.some.injEq] at hrun
      rw [← hrun]
      first
        | exact ⟨b1, b2, hf, hc⟩
        | (unfold BacklashComp.ResetBaseline; rw [if_pos h1]; exact ⟨b1, b2, hf, hc⟩)
  obtain ⟨m1, m2, m3, m4⟩ := main
  refine ⟨⟨m1, m2⟩, ⟨?_, ?_⟩, ⟨m3, m4⟩⟩
  · have h1 := sub_half_lt_ROUND ((4 / 5) * (s.m_pulseWidth : ℚ))
    have h2 : (ROUND ((4 / 5) * (s.m_pulseWidth : ℚ)) : ℚ) ≤ (s1.m_pulseWidth : ℚ) := by
      exact_mod_cast m1
    linarith
  · have h1 := ROUND_le_add_half ((s.m_pulseWidth : ℚ) * (11 / 10))
    have h2 : (s1.m_pulseWidth : ℚ) ≤ (ROUND ((s.m_pulseWidth : ℚ) * (11 / 10)) : ℚ) := by
      exact_mod_cast m2
    linarith

/-- C1 (witness): the amended statement at the state `afterReversal 28 20 100` (pulse 28,
floor 20, ceiling 100, one open event) and a call reporting an over-shoot of 10; the pulse
afterwards is 22. -/
theorem C1_track_result_pulse_bounds_witness :
    (ROUND ((4 / 5) * ((afterReversal 28 20 100).m_pulseWidth : ℚ)) ≤ afterTrack28.m_pulseWidth ∧
      afterTrack28.m_pulseWidth ≤ ROUND (((afterReversal 28 20 100).m_pulseWidth : ℚ) * (11 / 10))) ∧
    ((4 / 5) * ((afterReversal 28 20 100).m_pulseWidth : ℚ) - 1 / 2
        < (afterTrack28.m_pulseWidth : ℚ) ∧
      (afterTrack28.m_pulseWidth : ℚ)
        ≤ (11 / 10) * ((afterReversal 28 20 100).m_pulseWidth : ℚ) + 1 / 2) ∧
    ((afterReversal 28 20 100).m_adjustmentFloor ≤ afterTrack28.m_pulseWidth ∧
      afterTrack28.m_pulseWidth ≤ (afterReversal 28 20 100).m_adjustmentCeiling) :=
  C1_track_result_pulse_bounds (afterReversal 28 20 100) afterTrack28 algoMove (-10) 0 1 3
    (by decide!) (by decide!) (by decide!) (by decide!) (by decide!)

/-- C1 (counterexample): two states reached from a fresh compensator through
`SetBacklashPulse`, `EnableBacklashComp` and two `ApplyBacklashComp` calls, each followed
by one `TrackBLCResults` call that reports an over-shoot of 10 (`minMove = 0`,
`yRate = 1`).  From pulse 28 (floor 20, ceiling 100) the pulse becomes 22, below
`0.8 * 28 = 22.4`.  From pulse 5 (stored floor 20, ceiling 100) the pulse becomes 20,
above `1.1 * 5 = 5.5`. -/
theorem C1_counterexample :
    ((afterReversal 28 20 100).m_pulseWidth = 28 ∧
      ((afterReversal 28 20 100).TrackBLCResults algoMove (-10) 0 1 3).map
          (fun t => t.m_pulseWidth) = some 22 ∧
      ¬ ((4 / 5 : ℚ) * 28 ≤ 22)) ∧
    ((afterReversal 5 0 100).m_pulseWidth = 5 ∧
      ((afterReversal 5 0 100).TrackBLCResults algoMove (-10) 0 1 3).map
          (fun t => t.m_pulseWidth) = some 20 ∧
      ¬ ((20 : ℚ) ≤ (11 / 10) * 5)) := by
  refine ⟨⟨by decide!, by decide!, by norm_num⟩, ⟨by decide!, by decide!, by norm_num⟩⟩

end BLC

namespace BLC

/-! ## TrackBLCResults frame, EnableBacklashComp, ResetBaseline -/

/-- C11: for every state and every `TrackBLCResults` call, unless compensation is active,
the move options contain both `USE_BLC` and `ALGO_RESULT`, the history window is open and
`m_fixedSize` is false, the call returns and leaves the pulse width, the floor, the
ceiling (and the fixed-size flag) unchanged.  In particular a state with
`m_fixedSize = true` never has its pulse width changed by `TrackBLCResults`. -/
theorem C11_track_result_frame (s : BacklashComp) (opts : Nat) (yDistance minMove yRate : ℚ)
    (now : Int)
    (hguard : s.m_compActive = false ∨ opts &&& MOVEOPT_USE_BLC = 0
      ∨ opts &&& MOVEOPT_ALGO_RESULT = 0 ∨ s.m_pHistory.windowOpen = false
      ∨ s.m_fixedSize = true) :
    ∃ s1, s.TrackBLCResults opts yDistance minMove yRate now = some s1 ∧
      s1.m_pulseWidth = s.m_pulseWidth ∧ s1.m_adjustmentFloor = s.m_adjustmentFloor ∧
      s1.m_adjustmentCeiling = s.m_adjustmentCeiling ∧ s1.m_fixedSize = s.m_fixedSize := by
  unfold BacklashComp.TrackBLCResults
  split_ifs with h1 h2 h3 h4
  · exfalso
    rcases hguard with g | g | g | g | g
    · rw [g] at h1; exact Bool.false_ne_true h1
    · exact h2 g
    · exact h3 g
    · rw [g] at h4; exact Bool.false_ne_true h4.1
    · rw [g] at h4; exact Bool.false_ne_true h4.2.symm
  · exact ⟨_, rfl, rfl, rfl, rfl, rfl⟩
  · exact ⟨_, rfl, rfl, rfl, rfl, rfl⟩
  · refine ⟨_, rfl, ?_⟩
    unfold BacklashComp.ResetBaseline
    rw [if_pos h1]
    exact ⟨rfl, rfl, rfl, rfl⟩
  · exact ⟨_, rfl, rfl, rfl, rfl, rfl⟩

/-- C11 (witness): the theorem at the fixed-size state `fixedSizeComp` (active, window
open) and an algorithm-result move reporting an over-shoot of 10. -/
theorem C11_track_result_frame_witness :
    ∃ s1, fixedSizeComp.TrackBLCResults algoMove (-10) 0 1 3 = some s1 ∧
      s1.m_pulseWidth = fixedSizeComp.m_pulseWidth ∧
      s1.m_adjustmentFloor = fixedSizeComp.m_adjustmentFloor ∧
      s1.m_adjustmentCeiling = fixedSizeComp.m_adjustmentCeiling ∧
      s1.m_fixedSize = fixedSizeComp.m_fixedSize :=
  C11_track_result_frame fixedSizeComp algoMove (-10) 0 1 3
    (Or.inr (Or.inr (Or.inr (Or.inr (by decide!)))))

/-- C12 (code defect, evaluation at the failing input): `disabledAfterReversal` is
inactive, its last direction is SOUTH and its window is open.  `EnableBacklashComp(true)`
calls `ResetBaseline()` while `m_compActive` is still false, so the reset does nothing:
afterwards compensation is active, the last direction is still SOUTH (not NONE) and the
window is still open. -/
theorem C12_enable_does_not_reset :
    disabledAfterReversal.m_compActive = false ∧
    disabledAfterReversal.m_lastDirection = SOUTH ∧
    disabledAfterReversal.m_pHistory.windowOpen = true ∧
    (disabledAfterReversal.EnableBacklashComp true).m_compActive = true ∧
    (disabledAfterReversal.EnableBacklashComp true).m_lastDirection = SOUTH ∧
    (disabledAfterReversal.EnableBacklashComp true).m_lastDirection ≠ NONE ∧
    (disabledAfterReversal.EnableBacklashComp true).m_pHistory.windowOpen = true := by
  decide!

/-- C13 (counterexample): `disabledAfterReversal` is inactive with last direction SOUTH and
an open window; `ResetBaseline()` leaves both as they are. -/
theorem C13_counterexample :
    disabledAfterReversal.m_compActive = false ∧
    disabledAfterReversal.ResetBaseline.m_lastDirection = SOUTH ∧
    disabledAfterReversal.ResetBaseline.m_lastDirection ≠ NONE ∧
    disabledAfterReversal.ResetBaseline.m_pHistory.windowOpen = true := by
  decide!

/-- C13 (amended): for every active state, after `ResetBaseline()` the last direction is
NONE and the history window is closed, while the pulse width, the floor, the ceiling, the
active flag and the recorded events are unchanged; for every inactive state
`ResetBaseline()` changes nothing. -/
theorem C13_reset_baseline (s : BacklashComp) :
    (s.m_compActive = true →
      s.ResetBaseline.m_lastDirection = NONE ∧ s.ResetBaseline.m_pHistory.windowOpen = false ∧
      s.ResetBaseline.m_pulseWidth = s.m_pulseWidth ∧
      s.ResetBaseline.m_adjustmentFloor = s.m_adjustmentFloor ∧
      s.ResetBaseline.m_adjustmentCeiling = s.m_adjustmentCeiling ∧
      s.ResetBaseline.m_compActive = s.m_compActive ∧
      s.ResetBaseline.m_pHistory.blcEvents = s.m_pHistory.blcEvents) ∧
    (s.m_compActive = false → s.ResetBaseline = s) := by
  constructor
  · intro ha
    unfold BacklashComp.ResetBaseline
    rw [if_pos ha]
    exact ⟨rfl, rfl, rfl, rfl, rfl, rfl, rfl⟩
  · intro ha
    unfold BacklashComp.ResetBaseline
    rw [ha]
    rfl

/-- C13 (witness): the amended statement, its first part at the active state
`afterReversal 500 100 1000` and its second part at the inactive state
`disabledAfterReversal`. -/
theorem C13_reset_baseline_witness :
    ((afterReversal 500 100 1000).ResetBaseline.m_lastDirection = NONE ∧
      (afterReversal 500 100 1000).ResetBaseline.m_pHistory.windowOpen = false ∧
      (afterReversal 500 100 1000).ResetBaseline.m_pulseWidth
        = (afterReversal 500 100 1000).m_pulseWidth ∧
      (afterReversal 500 100 1000).ResetBaseline.m_adjustmentFloor
        = (afterReversal 500 100 1000).m_adjustmentFloor ∧
      (afterReversal 500 100 1000).ResetBaseline.m_adjustmentCeiling
        = (afterReversal 500 100 1000).m_adjustmentCeiling ∧
      (afterReversal 500 100 1000).ResetBaseline.m_compActive
        = (afterReversal 500 100 1000).m_compActive ∧
      (afterReversal 500 100 1000).ResetBaseline.m_pHistory.blcEvents
        = (afterReversal 500 100 1000).m_pHistory.blcEvents) ∧
    disabledAfterReversal.ResetBaseline = disabledAfterReversal :=
  ⟨(C13_reset_baseline (afterReversal 500 100 1000)).1 (by decide!),
    (C13_reset_baseline disabledAfterReversal).2 (by decide!)⟩

end BLC

namespace BLC

/-! ## RecordNewBLC, AddDeflection, AddEventInfo -/

namespace BLCHistory

/-- What `RecordNewBLC` does to a history of at most 10 events. -/
theorem RecordNewBLC_spec (h : BLCHistory) (When : Int) (trigger : ℚ)
    (hn : h.blcEvents.length ≤ 10) :
    (h.RecordNewBLC When trigger).blcEvents
      = (if h.blcEvents.length = 10 then h.blcEvents.tail else h.blcEvents)
          ++ [BLCEvent.mk1 (When - h.timeBase) trigger] ∧
    (h.RecordNewBLC When trigger).blcEvents.length = min (h.blcEvents.length + 1) 10 ∧
    (h.RecordNewBLC When trigger).blcEvents.length ≤ 10 ∧
    (h.RecordNewBLC When trigger).blcIndex
      = ((h.RecordNewBLC When trigger).blcEvents.length : Int) - 1 ∧
    (h.RecordNewBLC When trigger).windowOpen = true := by
  have hev : (h.RecordNewBLC When trigger).blcEvents
      = (if h.blcEvents.length = 10 then h.blcEvents.tail else h.blcEvents)
          ++ [BLCEvent.mk1 (When - h.timeBase) trigger] := by
    unfold RecordNewBLC HISTORY_DEPTH
    dsimp only
    by_cases h10 : h.blcEvents.length = 10
    · rw [if_pos h10, if_pos (by omega)]
    · rw [if_neg h10, if_neg (by omega)]
  have hlen : (h.RecordNewBLC When trigger).blcEvents.length
      = min (h.blcEvents.length + 1) 10 := by
    rw [hev]
    by_cases h10 : h.blcEvents.length = 10
    · rw [if_pos h10, List.length_append, List.length_tail]
      simp only [List.length_singleton]
      omega
    · rw [if_neg h10, List.length_append]
      simp only [List.length_singleton]
      omega
  refine ⟨hev, hlen, by omega, rfl, rfl⟩

/-- C16: for every history holding `n <= 10` events, `RecordNewBLC(When, trigger)` yields
the previous events in order, minus the oldest one when `n = 10`, followed by a new last
event with exactly one correction `(When - timeBase, trigger)` and all three flags false;
the result holds `min(n + 1, 10)` events (so never more than 10), `blcIndex` is the last
index and the window is open. -/
theorem C16_record_new (h : BLCHistory) (When : Int) (trigger : ℚ)
    (hn : h.blcEvents.length ≤ 10) :
    (h.RecordNewBLC When trigger).blcEvents
      = (if h.blcEvents.length = 10 then h.blcEvents.tail else h.blcEvents)
          ++ [⟨[⟨When - h.timeBase, trigger⟩], false, false, false⟩] ∧
    (h.RecordNewBLC When trigger).blcEvents.length = min (h.blcEvents.length + 1) 10 ∧
    (h.RecordNewBLC When trigger).blcEvents.length ≤ 10 ∧
    (h.RecordNewBLC When trigger).blcIndex
      = ((h.RecordNewBLC When trigger).blcEvents.length : Int) - 1 ∧
    (h.RecordNewBLC When trigger).windowOpen = true :=
  RecordNewBLC_spec h When trigger hn

/-- C16 (witness): the theorem at the one-event history `histUnder`. -/
theorem C16_record_new_witness :
    (histUnder.RecordNewBLC 7 (-4)).blcEvents
      = (if histUnder.blcEvents.length = 10 then histUnder.blcEvents.tail
          else histUnder.blcEvents)
          ++ [⟨[⟨7 - histUnder.timeBase, -4⟩], false, false, false⟩] ∧
    (histUnder.RecordNewBLC 7 (-4)).blcEvents.length
      = min (histUnder.blcEvents.length + 1) 10 ∧
    (histUnder.RecordNewBLC 7 (-4)).blcEvents.length ≤ 10 ∧
    (histUnder.RecordNewBLC 7 (-4)).blcIndex
      = ((histUnder.RecordNewBLC 7 (-4)).blcEvents.length : Int) - 1 ∧
    (histUnder.RecordNewBLC 7 (-4)).windowOpen = true :=
  C16_record_new histUnder 7 (-4) (by decide)

/-- The corrections of an event with fewer than 3 corrections after `AddEventInfo`. -/
theorem AddEventInfo_corrections (e : BLCEvent) (t : Int) (a m : ℚ) (hlt : e.InfoCount < 3) :
    (e.AddEventInfo t a m).corrections = e.corrections ++ [⟨t, a⟩] := by
  unfold BLCEvent.AddEventInfo
  rw [if_pos hlt]
  dsimp only
  split_ifs <;> rfl

/-- C17 (counterexample): on `histClosed1` (one event with one correction, window closed)
`AddDeflection` returns true and appends a correction although the window is closed;
the window flag stays false. -/
theorem C17_counterexample :
    histClosed1.windowOpen = false ∧
    histClosed1.AddDeflection 1 3 0
      = some (true, ⟨[⟨[⟨0, 10⟩, ⟨1, 3⟩], false, true, false⟩], 0, false, 0, 0⟩) := by
  decide!

/-- C17 (amended): for every history whose `blcIndex` is not negative and points at an
event `e`, `AddDeflection(When, Amt, MinMove)` returns true if and only if `e` has fewer
than 3 corrections, whatever the window flag is.  In that case the current event is
replaced by `e.AddEventInfo`, whose corrections are those of `e` followed by
`(When - timeBase, Amt)`, and nothing else changes (the window flag included).  Otherwise
it returns false, leaves every event unchanged and closes the window. -/
theorem C17_add_deflection (h : BLCHistory) (When : Int) (Amt MinMove : ℚ) (e : BLCEvent)
    (hidx : 0 ≤ h.blcIndex) (he : h.blcEvents[h.blcIndex.toNat]? = some e) :
    (e.InfoCount < 3 →
      h.AddDeflection When Amt MinMove
        = some (true,
            { h with
              blcEvents := h.blcEvents.set h.blcIndex.toNat
                (e.AddEventInfo (When - h.timeBase) Amt MinMove) }) ∧
      (e.AddEventInfo (When - h.timeBase) Amt MinMove).corrections
        = e.corrections ++ [⟨When - h.timeBase, Amt⟩]) ∧
    (¬ e.InfoCount < 3 →
      h.AddDeflection When Amt MinMove = some (false, { h with windowOpen := false })) := by
  constructor
  · intro hlt
    refine ⟨?_, AddEventInfo_corrections e _ Amt MinMove hlt⟩
    unfold AddDeflection ENTRY_CAPACITY
    rw [if_pos hidx, he]
    dsimp only
    rw [if_pos hlt]
  · intro hge
    unfold AddDeflection ENTRY_CAPACITY
    rw [if_pos hidx, he]
    dsimp only
    rw [if_neg hge]

/-- C17 (witness): the amended statement at `histClosed1` (first part, one correction) and
at `histUnder` (second part, three corrections). -/
theorem C17_add_deflection_witness :
    (histClosed1.AddDeflection 1 3 0
        = some (true,
            { histClosed1 with
              blcEvents := histClosed1.blcEvents.set histClosed1.blcIndex.toNat
                ((BLCEvent.mk1 0 10).AddEventInfo (1 - histClosed1.timeBase) 3 0) }) ∧
      ((BLCEvent.mk1 0 10).AddEventInfo (1 - histClosed1.timeBase) 3 0).corrections
        = (BLCEvent.mk1 0 10).corrections ++ [⟨1 - histClosed1.timeBase, 3⟩]) ∧
    histUnder.AddDeflection 5 1 0 = some (false, { histUnder with windowOpen := false }) :=
  ⟨(C17_add_deflection histClosed1 1 3 0 (BLCEvent.mk1 0 10) (by decide) (by decide)).1
      (by decide),
    (C17_add_deflection histUnder 5 1 0 evUnder (by decide) (by decide)).2 (by decide)⟩

end BLCHistory

/-- C18 (counterexample): the event with trigger `+10`, first miss `+10` and second miss
`-3`, both added with `minMove = 5`, has `initialUndershoot` set and a negative slot-2
miss, but `stictionSeen` is false because the second miss is not larger than `minMove`. -/
theorem C18_counterexample :
    (((BLCEvent.mk1 0 10).AddEventInfo 1 10 5).AddEventInfo 2 (-3) 5).corrections
      = [⟨0, 10⟩, ⟨1, 10⟩, ⟨2, -3⟩] ∧
    (((BLCEvent.mk1 0 10).AddEventInfo 1 10 5).AddEventInfo 2 (-3) 5).initialUndershoot = true ∧
    (-3 : ℚ) < 0 ∧
    (((BLCEvent.mk1 0 10).AddEventInfo 1 10 5).AddEventInfo 2 (-3) 5).stictionSeen = false := by
  refine ⟨by decide!, by decide!, by norm_num, by decide!⟩

/-- C18 (amended): for every event created with a trigger deflection and given two further
corrections through `AddEventInfo` (the path taken by `AddDeflection`), with any `minMove`
values: the event has three corrections, the slot-2 miss is the last amount `a2`, and
`stictionSeen` is true if and only if `initialUndershoot` is true, `a2` is negative and
`|a2|` is larger than the `minMove` of that call. -/
theorem C18_stiction_seen (t0 t1 t2 : Int) (a0 a1 a2 m1 m2 : ℚ) :
    (((BLCEvent.mk1 t0 a0).AddEventInfo t1 a1 m1).AddEventInfo t2 a2 m2).corrections
      = [⟨t0, a0⟩, ⟨t1, a1⟩, ⟨t2, a2⟩] ∧
    ((((BLCEvent.mk1 t0 a0).AddEventInfo t1 a1 m1).AddEventInfo t2 a2 m2).stictionSeen = true ↔
      ((((BLCEvent.mk1 t0 a0).AddEventInfo t1 a1 m1).AddEventInfo t2 a2 m2).initialUndershoot
          = true ∧ a2 < 0 ∧ |a2| > m2)) := by
  unfold BLCEvent.AddEventInfo BLCEvent.mk1 BLCEvent.InfoCount
  by_cases h1 : |a1| > m1 <;> by_cases h2 : |a2| > m2 <;> by_cases h3 : a1 > 0 <;>
    by_cases h4 : a2 < 0 <;> simp [h1, h2, h3, h4]

/-! ## Invariants of sequences of history operations -/

theorem BLCEvent.mk1_wellFormed (t : Int) (a : ℚ) : (BLCEvent.mk1 t a).WellFormed := by
  unfold BLCEvent.WellFormed BLCEvent.mk1
  simp

theorem BLCEvent.AddEventInfo_wellFormed (e : BLCEvent) (t : Int) (a m : ℚ)
    (hw : e.WellFormed) : (e.AddEventInfo t a m).WellFormed := by
  obtain ⟨w1, w2, w3, w4, w5, w6⟩ := hw
  unfold BLCEvent.AddEventInfo BLCEvent.InfoCount
  dsimp only
  split_ifs with c1 c2 c3 c4 c5
  all_goals unfold BLCEvent.WellFormed
  all_goals simp only [List.length_append, List.length_singleton] at *
  · have h1 : e.corrections.length = 1 := by omega
    obtain ⟨o, _⟩ := w3 h1
    refine ⟨by omega, by omega, fun hh => by omega, fun _ => w4 (by omega), ?_, ?_⟩
    · rw [o]; simp
    · intro _; trivial
  · have h1 : e.corrections.length = 1 := by omega
    obtain ⟨_, u⟩ := w3 h1
    refine ⟨by omega, by omega, fun hh => by omega, fun _ => w4 (by omega), ?_, ?_⟩
    · rw [u]; simp
    · intro hs; rw [w4 (by omega)] at hs; exact absurd hs (by decide)
  · refine ⟨by omega, by omega, fun hh => by omega, fun hh => by omega, w5, ?_⟩
    intro hs
    simp only [Bool.and_eq_true] at hs
    exact hs.1
  · exfalso; omega
  · refine ⟨by omega, by omega, fun hh => by omega, ?_, w5, w6⟩
    intro hh
    exact w4 (by omega)
  · exact ⟨w1, w2, w3, w4, w5, w6⟩

namespace BLCHistory

theorem new_wellFormed (now : Int) : (BLCHistory.new now).WellFormed := by
  unfold WellFormed BLCHistory.new
  simp

theorem RecordNewBLC_wellFormed (h : BLCHistory) (w : Int) (t : ℚ) (hw : h.WellFormed) :
    (h.RecordNewBLC w t).WellFormed ∧ (h.RecordNewBLC w t).blcEvents ≠ [] := by
  obtain ⟨w1, w2, _⟩ := hw
  obtain ⟨e1, e2, e3, e4, _⟩ := RecordNewBLC_spec h w t w2
  refine ⟨⟨?_, e3, fun _ => ?_⟩, ?_⟩
  · intro e he
    rw [e1] at he
    rcases List.mem_append.mp he with he | he
    · apply w1
      split_ifs at he
      · exact List.mem_of_mem_tail he
      · exact he
    · rw [List.mem_singleton] at he
      rw [he]
      exact BLCEvent.mk1_wellFormed _ _
  · rw [e4, e2]
    omega
  · rw [e1]
    simp

theorem AddDeflection_wellFormed (h h1 : BLCHistory) (w : Int) (a m : ℚ) (b : Bool)
    (hw : h.WellFormed) (hrun : h.AddDeflection w a m = some (b, h1)) :
    h1.WellFormed ∧ (h.blcEvents ≠ [] → h1.blcEvents ≠ []) := by
  obtain ⟨w1, w2, w3⟩ := hw
  unfold AddDeflection at hrun
  split_ifs at hrun with c1
  · cases he : h.blcEvents[h.blcIndex.toNat]? with
    | none => rw [he] at hrun; exact absurd hrun (by simp)
    | some evt =>
      rw [he] at hrun
      dsimp only at hrun
      split_ifs at hrun with c2
      · simp only [Option.some.injEq, Prod.mk.injEq] at hrun
        obtain ⟨-, rfl⟩ := hrun
        refine ⟨⟨?_, ?_, ?_⟩, ?_⟩
        · intro e hmem
          rcases List.mem_or_eq_of_mem_set hmem with hmem | rfl
          · exact w1 e hmem
          · exact BLCEvent.AddEventInfo_wellFormed _ _ _ _ (w1 evt (List.getElem?_mem he))
        · simpa using w2
        · intro _
          have hne : h.blcEvents ≠ [] := blcEvents_ne_nil_of_getElem? he
          simpa using w3 hne
        · intro hne
          simpa using hne
      · simp only [Option.some.injEq, Prod.mk.injEq] at hrun
        obtain ⟨-, rfl⟩ := hrun
        exact ⟨⟨w1, w2, w3⟩, fun hne => hne⟩
  · simp only [Option.some.injEq, Prod.mk.injEq] at hrun
    obtain ⟨-, rfl⟩ := hrun
    exact ⟨⟨w1, w2, w3⟩, fun hne => hne⟩

/-- On a well-formed, non-empty history `AddDeflection` reads inside the bounds. -/
theorem AddDeflection_isSome (h : BLCHistory) (w : Int) (a m : ℚ) (hw : h.WellFormed)
    (hne : h.blcEvents ≠ []) : ∃ r, h.AddDeflection w a m = some r := by
  obtain ⟨_, _, w3⟩ := hw
  obtain ⟨i0, i1⟩ := w3 hne
  have hlt : h.blcIndex.toNat < h.blcEvents.length := by omega
  unfold AddDeflection
  rw [if_pos i0, List.getElem?_eq_getElem hlt]
  dsimp only
  split_ifs <;> exact ⟨_, rfl⟩

/-- Well-formedness is kept by every sequence of operations that runs to its end. -/
theorem runOps_wellFormed (ops : List HistoryOp) :
    ∀ (h h1 : BLCHistory), h.WellFormed → h.runOps ops = some h1 →
      h1.WellFormed ∧ (h.blcEvents ≠ [] → h1.blcEvents ≠ []) := by
  induction ops with
  | nil =>
    intro h h1 hw hrun
    simp only [runOps, Option.some.injEq] at hrun
    subst hrun
    exact ⟨hw, fun hne => hne⟩
  | cons op ops ih =>
    intro h h1 hw hrun
    cases op with
    | recordNew w t =>
      simp only [runOps, applyOp] at hrun
      obtain ⟨r1, r2⟩ := RecordNewBLC_wellFormed h w t hw
      obtain ⟨i1, i2⟩ := ih _ h1 r1 hrun
      exact ⟨i1, fun _ => i2 r2⟩
    | addDeflection w a m =>
      simp only [runOps, applyOp] at hrun
      cases hadd : h.AddDeflection w a m with
      | none => rw [hadd] at hrun; exact absurd hrun (by simp)
      | some r =>
        obtain ⟨b, h2⟩ := r
        rw [hadd] at hrun
        dsimp only at hrun
        obtain ⟨r1, r2⟩ := AddDeflection_wellFormed h h2 w a m b hw hadd
        obtain ⟨i1, i2⟩ := ih _ h1 r1 hrun
        exact ⟨i1, fun hne => i2 (r2 hne)⟩

/-- From a well-formed history that already holds an event, every sequence of operations
runs to its end. -/
theorem runOps_isSome (ops : List HistoryOp) :
    ∀ (h : BLCHistory), h.WellFormed → h.blcEvents ≠ [] → ∃ h1, h.runOps ops = some h1 := by
  induction ops with
  | nil => intro h _ _; exact ⟨h, rfl⟩
  | cons op ops ih =>
    intro h hw hne
    cases op with
    | recordNew w t =>
      obtain ⟨r1, r2⟩ := RecordNewBLC_wellFormed h w t hw
      obtain ⟨h1, e1⟩ := ih _ r1 r2
      exact ⟨h1, by simp only [runOps, applyOp, e1]⟩
    | addDeflection w a m =>
      obtain ⟨⟨b, h2⟩, hadd⟩ := AddDeflection_isSome h w a m hw hne
      obtain ⟨r1, r2⟩ := AddDeflection_wellFormed h h2 w a m b hw hadd
      obtain ⟨h1, e1⟩ := ih _ r1 (r2 hne)
      exact ⟨h1, by simp only [runOps, applyOp, hadd, e1]⟩

end BLCHistory

end BLC

namespace BLC

/-! ## RemoveOldestOvershoots in full -/

theorem eraseFirstN_zero {α : Type} (p : α → Bool) (l : List α) : eraseFirstN p 0 l = l := by
  cases l <;> rfl

/-- Nothing is erased from a list without elements satisfying `p`. -/
theorem eraseFirstN_of_none {α : Type} (p : α → Bool) (k : Nat) :
    ∀ (l : List α), (∀ x ∈ l, p x = false) → eraseFirstN p k l = l := by
  intro l
  induction l with
  | nil => intro _; cases k <;> rfl
  | cons x xs ih =>
    intro hall
    cases k with
    | zero => rfl
    | succ k =>
      have hx : p x = false := hall x (List.mem_cons_self _ _)
      have hxs : ∀ y ∈ xs, p y = false := fun y hy => hall y (List.mem_cons_of_mem _ hy)
      simp only [eraseFirstN, hx, Bool.false_eq_true, if_false]
      rw [ih hxs]

/-- A prefix without elements satisfying `p` is kept as it is. -/
theorem eraseFirstN_append_none {α : Type} (p : α → Bool) (k : Nat) (r : List α) :
    ∀ (a : List α), (∀ x ∈ a, p x = false) → eraseFirstN p k (a ++ r) = a ++ eraseFirstN p k r := by
  intro a
  induction a with
  | nil => intro _; rfl
  | cons x xs ih =>
    intro hall
    have hx : p x = false := hall x (List.mem_cons_self _ _)
    have hxs : ∀ y ∈ xs, p y = false := fun y hy => hall y (List.mem_cons_of_mem _ hy)
    cases k with
    | zero => rw [eraseFirstN_zero, eraseFirstN_zero]
    | succ k =>
      rw [List.cons_append, List.cons_append]
      simp only [eraseFirstN, hx, Bool.false_eq_true, if_false]
      rw [ih hxs]

/-- The list `eraseFirstN p k l` is `l` with every element satisfying `p` removed from a
prefix `pre` that holds exactly `min k (countP p l)` such elements; the rest `post` is kept. -/
theorem eraseFirstN_decomp {α : Type} (p : α → Bool) :
    ∀ (l : List α) (k : Nat), ∃ pre post, l = pre ++ post ∧
      pre.countP p = min k (l.countP p) ∧
      eraseFirstN p k l = pre.filter (fun x => !p x) ++ post := by
  intro l
  induction l with
  | nil =>
    intro k
    refine ⟨[], [], rfl, by simp, ?_⟩
    cases k <;> rfl
  | cons x xs ih =>
    intro k
    cases k with
    | zero => exact ⟨[], x :: xs, rfl, by simp, rfl⟩
    | succ k =>
      cases hx : p x with
      | true =>
        obtain ⟨pre, post, h1, h2, h3⟩ := ih k
        refine ⟨x :: pre, post, by rw [h1]; rfl, ?_, ?_⟩
        · rw [List.countP_cons_of_pos _ _ hx, List.countP_cons_of_pos _ _ hx, h2]
          omega
        · simp only [eraseFirstN, hx, if_true, List.filter_cons, Bool.not_true,
            Bool.false_eq_true, if_false]
          exact h3
      | false =>
        have hx1 : ¬ (p x = true) := by simp [hx]
        obtain ⟨pre, post, h1, h2, h3⟩ := ih (k + 1)
        refine ⟨x :: pre, post, by rw [h1]; rfl, ?_, ?_⟩
        · rw [List.countP_cons_of_neg _ _ hx1, List.countP_cons_of_neg _ _ hx1, h2]
        · simp only [eraseFirstN, hx, Bool.false_eq_true, if_false, List.filter_cons,
            Bool.not_false, if_true, List.cons_append]
          rw [h3]

namespace BLCHistory

/-- A round of `RemoveOldestOvershoots` changes nothing when no event other than the last
has an initial over-shoot. -/
theorem RemoveOldestOvershoots.pass_none (h : BLCHistory) (D : List BLCEvent) (last : BLCEvent)
    (hl : h.blcEvents = D ++ [last]) (hD : ∀ x ∈ D, x.initialOvershoot = false) :
    RemoveOldestOvershoots.pass h = some h := by
  have hd : h.blcEvents.dropLast = D := by rw [hl]; simp
  have hf : h.blcEvents.dropLast.findIdx? (fun e => e.initialOvershoot) = none := by
    rw [hd, List.findIdx?_eq_none_iff]
    intro x hx
    simp [hD x hx]
  unfold RemoveOldestOvershoots.pass
  rw [hf]
  cases hev : h.blcEvents with
  | nil => rw [hev] at hl; simp at hl
  | cons _ _ => rfl

theorem all_false_of_countP_zero {α : Type} (p : α → Bool) (l : List α)
    (h : l.countP p = 0) : ∀ x ∈ l, p x = false := by
  intro x hx
  rw [List.countP_eq_zero] at h
  simpa using h x hx

/-- The loop of `RemoveOldestOvershoots` run `k` times erases the first `k` events with an
initial over-shoot among the events other than the last one. -/
theorem RemoveOldestOvershoots.loop_eq (k : Nat) :
    ∀ (h : BLCHistory) (D : List BLCEvent) (last : BLCEvent), h.blcEvents = D ++ [last] →
      RemoveOldestOvershoots.loop k h
        = some { h with
            blcEvents := eraseFirstN (fun e => e.initialOvershoot) k D ++ [last]
            blcIndex :=
              if k = 0 ∨ D.countP (fun e => e.initialOvershoot) = 0 then h.blcIndex
              else ((eraseFirstN (fun e => e.initialOvershoot) k D ++ [last]).length : Int) - 1 } := by
  induction k with
  | zero =>
    intro h D last hl
    simp only [RemoveOldestOvershoots.loop, eraseFirstN_zero, true_or, if_true, ← hl]
  | succ k ih =>
    intro h D last hl
    by_cases hc : D.countP (fun e => e.initialOvershoot) = 0
    · have hall := all_false_of_countP_zero _ D hc
      have hp := RemoveOldestOvershoots.pass_none h D last hl hall
      simp only [RemoveOldestOvershoots.loop, hp]
      rw [ih h D last hl, eraseFirstN_of_none _ _ D hall, eraseFirstN_of_none _ _ D hall]
      simp only [hc, or_true, if_true]
    · obtain ⟨a, e, r, hD, ha, he, hcr⟩ :=
        split_at_first (fun e : BLCEvent => e.initialOvershoot) D (by omega)
      have hl1 : h.blcEvents = a ++ e :: (r ++ [last]) := by rw [hl, hD]; simp
      have hp := RemoveOldestOvershoots.pass_found h a (r ++ [last]) e hl1 ha he (by simp)
      simp only [RemoveOldestOvershoots.loop, hp]
      have hl2 : ({ h with blcEvents := a ++ (r ++ [last]),
                           blcIndex := ((a ++ (r ++ [last])).length : Int) - 1 }
                    : BLCHistory).blcEvents = (a ++ r) ++ [last] := by simp
      rw [ih _ (a ++ r) last hl2]
      have hev : eraseFirstN (fun e : BLCEvent => e.initialOvershoot) (k + 1) D
          = eraseFirstN (fun e : BLCEvent => e.initialOvershoot) k (a ++ r) := by
        rw [hD, eraseFirstN_append_none _ _ _ a ha, eraseFirstN_append_none _ _ _ a ha]
        simp only [eraseFirstN, he, if_true]
      rw [hev]
      have hk1 : ¬ (k + 1 = 0 ∨ D.countP (fun e => e.initialOvershoot) = 0) := by
        intro hh; rcases hh with hh | hh
        · omega
        · exact hc hh
      rw [if_neg hk1]
      by_cases hk : k = 0 ∨ (a ++ r).countP (fun e => e.initialOvershoot) = 0
      · rw [if_pos hk]
        have hsame : eraseFirstN (fun e : BLCEvent => e.initialOvershoot) k (a ++ r) = a ++ r := by
          rcases hk with hk | hk
          · rw [hk, eraseFirstN_zero]
          · exact eraseFirstN_of_none _ _ _ (all_false_of_countP_zero _ _ hk)
        rw [hsame]
        simp
      · rw [if_neg hk]

/-- C20: for every non-empty history, with events `D ++ [last]`, and every `n >= 0`,
`RemoveOldestOvershoots(n)` returns; with `m` the number of events of `D` that have
`initialOvershoot` set, `D` splits as `pre ++ post` where `pre` holds exactly `min(n, m)`
such events, and the events afterwards are `pre` without its initial over-shoot events,
followed by `post` and by `last`.  So the last event is never removed, exactly
`min(n, m)` events are removed, they are the lowest-indexed initial over-shoots among the
events other than the last, and all remaining events keep their contents and order.  If at
least one event was removed `blcIndex` is the new size minus 1, otherwise it is unchanged;
the other members are unchanged. -/
theorem C20_remove_oldest_overshoots (h : BLCHistory) (n : Nat) (D : List BLCEvent)
    (last : BLCEvent) (hl : h.blcEvents = D ++ [last]) :
    ∃ pre post h1, D = pre ++ post ∧
      pre.countP (fun e => e.initialOvershoot)
        = min n (D.countP (fun e => e.initialOvershoot)) ∧
      h.RemoveOldestOvershoots (n : Int) = some h1 ∧
      h1.blcEvents = pre.filter (fun e => !e.initialOvershoot) ++ post ++ [last] ∧
      h1.blcEvents.length + min n (D.countP (fun e => e.initialOvershoot))
        = h.blcEvents.length ∧
      h1.blcIndex = (if min n (D.countP (fun e => e.initialOvershoot)) = 0 then h.blcIndex
                      else (h1.blcEvents.length : Int) - 1) ∧
      h1.windowOpen = h.windowOpen ∧ h1.timeBase = h.timeBase ∧
      h1.lastIncrease = h.lastIncrease := by
  obtain ⟨pre, post, hD, hcnt, her⟩ :=
    eraseFirstN_decomp (fun e : BLCEvent => e.initialOvershoot) D n
  have hrun := RemoveOldestOvershoots.loop_eq n h D last hl
  have hlenpre : (pre.filter (fun e => !e.initialOvershoot)).length
      + pre.countP (fun e => e.initialOvershoot) = pre.length := by
    have h1 := List.length_eq_countP_add_countP (fun e : BLCEvent => e.initialOvershoot) pre
    have hnot : (fun a : BLCEvent => decide ¬(a.initialOvershoot = true))
        = (fun e => !e.initialOvershoot) := by
      funext a; cases a.initialOvershoot <;> rfl
    rw [hnot, List.countP_eq_length_filter (fun e : BLCEvent => !e.initialOvershoot)] at h1
    omega
  refine ⟨pre, post,
    { h with
      blcEvents := eraseFirstN (fun e => e.initialOvershoot) n D ++ [last]
      blcIndex :=
        if n = 0 ∨ D.countP (fun e => e.initialOvershoot) = 0 then h.blcIndex
        else ((eraseFirstN (fun e => e.initialOvershoot) n D ++ [last]).length : Int) - 1 },
    hD, hcnt, ?_, ?_, ?_, ?_, rfl, rfl, rfl⟩
  · show RemoveOldestOvershoots.loop ((n : Int).toNat) h = _
    rw [Int.toNat_ofNat]
    exact hrun
  · dsimp only
    rw [her]
  · dsimp only
    have hDlen : D.length = pre.length + post.length := by rw [hD, List.length_append]
    rw [her, hl, ← hcnt]
    simp only [List.length_append, List.length_singleton]
    omega
  · dsimp only
    by_cases hz : min n (D.countP (fun e => e.initialOvershoot)) = 0
    · rw [if_pos hz, if_pos (by omega)]
    · rw [if_neg hz, if_neg (by omega)]

/-- C20 (witness): the theorem at `histPurge` (four events before the current one, three
of them initial over-shoots) and `n = 2`. -/
theorem C20_remove_oldest_overshoots_witness :
    ∃ pre post h1, [evLong 0, evShort 10, evLong 20, evLong 30] = pre ++ post ∧
      pre.countP (fun e => e.initialOvershoot)
        = min 2 ([evLong 0, evShort 10, evLong 20, evLong 30].countP
            (fun e => e.initialOvershoot)) ∧
      histPurge.RemoveOldestOvershoots ((2 : Nat) : Int) = some h1 ∧
      h1.blcEvents = pre.filter (fun e => !e.initialOvershoot) ++ post ++ [evLong 40] ∧
      h1.blcEvents.length
          + min 2 ([evLong 0, evShort 10, evLong 20, evLong 30].countP
              (fun e => e.initialOvershoot))
        = histPurge.blcEvents.length ∧
      h1.blcIndex
        = (if min 2 ([evLong 0, evShort 10, evLong 20, evLong 30].countP
              (fun e => e.initialOvershoot)) = 0 then histPurge.blcIndex
            else (h1.blcEvents.length : Int) - 1) ∧
      h1.windowOpen = histPurge.windowOpen ∧ h1.timeBase = histPurge.timeBase ∧
      h1.lastIncrease = histPurge.lastIncrease :=
  C20_remove_oldest_overshoots histPurge 2 [evLong 0, evShort 10, evLong 20, evLong 30]
    (evLong 40) (by decide)

end BLCHistory

end BLC

namespace BLC

namespace BLCHistory

/-! ## Event invariants and the window predicate -/

/-- C14: starting from a freshly constructed (empty) history, after any finite sequence of
`RecordNewBLC` and `AddDeflection` calls that runs to its end (any times, amounts and
minimum moves), every event in the history has between 1 and 3 corrections, never has
both `initialOvershoot` and `initialUndershoot` set, and has `stictionSeen` only if
`initialUndershoot` is set.  Every sequence that starts with `RecordNewBLC` runs to its
end (no read is out of bounds). -/
theorem C14_event_invariants (now : Int) (ops : List HistoryOp) :
    (∀ h, (BLCHistory.new now).runOps ops = some h →
      ∀ e ∈ h.blcEvents,
        1 ≤ e.corrections.length ∧ e.corrections.length ≤ 3 ∧
        ¬ (e.initialOvershoot = true ∧ e.initialUndershoot = true) ∧
        (e.stictionSeen = true → e.initialUndershoot = true)) ∧
    (∀ w t, ∃ h, (BLCHistory.new now).runOps (HistoryOp.recordNew w t :: ops) = some h) := by
  constructor
  · intro h hrun e he
    obtain ⟨⟨hall, _, _⟩, _⟩ := runOps_wellFormed ops _ h (new_wellFormed now) hrun
    obtain ⟨w1, w2, _, _, w5, w6⟩ := hall e he
    exact ⟨w1, w2, w5, w6⟩
  · intro w t
    obtain ⟨r1, r2⟩ := RecordNewBLC_wellFormed (BLCHistory.new now) w t (new_wellFormed now)
    obtain ⟨h1, e1⟩ := runOps_isSome ops _ r1 r2
    exact ⟨h1, by simp only [runOps, applyOp, e1]⟩

/-- C14 (witness): the theorem at the sequence `sampleOps` on a history created at time 0,
which ends in `sampleOpsResult`. -/
theorem C14_event_invariants_witness :
    (∀ e ∈ sampleOpsResult.blcEvents,
        1 ≤ e.corrections.length ∧ e.corrections.length ≤ 3 ∧
        ¬ (e.initialOvershoot = true ∧ e.initialUndershoot = true) ∧
        (e.stictionSeen = true → e.initialUndershoot = true)) ∧
    (∃ h, (BLCHistory.new 0).runOps (HistoryOp.recordNew 0 1 :: sampleOps) = some h) :=
  ⟨(C14_event_invariants 0 sampleOps).1 sampleOpsResult (by decide!),
    (C14_event_invariants 0 sampleOps).2 0 1⟩

/-- After `AdjustmentNeeded` the window is closed or the history is untouched. -/
theorem AdjustmentNeeded_closed_or_same (h : BLCHistory) (miss minMove yRate : ℚ)
    (r : AdjustmentResult) (hrun : h.AdjustmentNeeded miss minMove yRate = some r) :
    r.hist.windowOpen = false ∨ r.hist = h := by
  revert hrun
  unfold AdjustmentNeeded
  by_cases hidx : h.blcIndex ≥ 0
  · rw [if_pos hidx]
    cases hs : h.GetStats HISTORY_DEPTH {} with
    | none => intro hrun; cases hrun
    | some s =>
      dsimp only
      cases he : h.blcEvents[h.blcIndex.toNat]? with
      | none => intro hrun; cases hrun
      | some e =>
        dsimp only
        obtain ⟨h2, e2, w2⟩ := RemoveOldestOvershoots.loop_some (2 : Int).toNat
          { h with windowOpen := false } (blcEvents_ne_nil_of_getElem? he)
        have w2f : h2.windowOpen = false := w2
        unfold RemoveOldestOvershoots
        rw [e2]
        dsimp only
        by_cases hc2 : e.InfoCount < 2
        · rw [if_pos hc2]; intro hrun; cases hrun
        rw [if_neg hc2]
        by_cases hmm : |miss| ≥ minMove
        swap
        · rw [if_neg hmm]; intro hrun; cases hrun; exact Or.inl rfl
        rw [if_pos hmm]
        by_cases hy : yRate = 0
        · rw [if_pos hy]; intro hrun; cases hrun
        rw [if_neg hy]
        by_cases hmiss : miss > 0
        · rw [if_pos hmiss]
          split_ifs <;> intro hrun <;> cases hrun <;> first
            | exact Or.inl rfl
            | exact Or.inr rfl
        · rw [if_neg hmiss]
          split_ifs <;> intro hrun <;> cases hrun <;> first
            | exact Or.inl rfl
            | exact Or.inr rfl
            | exact Or.inl w2f
  · rw [if_neg hidx]
    intro hrun
    cases hrun
    exact Or.inr rfl

/-- C15 (counterexample): the window predicate holds for `histOpen2` (window open, current
event with 2 corrections), but `AddDeflection` fills the third slot and leaves the window
open, so the predicate fails afterwards; and it holds for `histOpen1`, but fails after
`ClearHistory`, which empties the events and leaves the window open. -/
theorem C15_counterexample :
    (histOpen2.WindowInv ∧ histOpen2.AddDeflection 4 2 0 = some (true, histUnder) ∧
      ¬ histUnder.WindowInv) ∧
    (histOpen1.WindowInv ∧ ¬ histOpen1.ClearHistory.WindowInv) := by
  refine ⟨⟨?_, by decide!, ?_⟩, ⟨?_, ?_⟩⟩
  · intro _
    exact ⟨by decide, _, rfl, by decide⟩
  · intro hinv
    obtain ⟨_, e, he, hlt⟩ := hinv rfl
    have he1 : e = evUnder := by
      have : histUnder.blcEvents[histUnder.blcIndex.toNat]? = some evUnder := rfl
      rw [this] at he
      exact (Option.some.inj he).symm
    rw [he1] at hlt
    exact absurd hlt (by decide)
  · intro _
    exact ⟨by decide, _, rfl, by decide⟩
  · intro hinv
    obtain ⟨_, e, he, _⟩ := hinv rfl
    have : histOpen1.ClearHistory.blcEvents[histOpen1.ClearHistory.blcIndex.toNat]? = none := rfl
    rw [this] at he
    exact absurd he (by simp)

/-- The window predicate after `RecordNewBLC`. -/
theorem RecordNewBLC_windowInv (h : BLCHistory) (w : Int) (t : ℚ) :
    (h.RecordNewBLC w t).WindowInv := by
  intro _
  unfold RecordNewBLC
  dsimp only
  refine ⟨?_, BLCEvent.mk1 (w - h.timeBase) t, ?_, by simp [BLCEvent.InfoCount, BLCEvent.mk1]⟩
  · simp only [List.length_append, List.length_singleton]
    omega
  · have hnat : ∀ (l : List BLCEvent) (x : BLCEvent),
        (((l ++ [x]).length : Int) - 1).toNat = l.length := by
      intro l x
      simp only [List.length_append, List.length_singleton]
      omega
    rw [hnat]
    simp

/-- The window predicate after `RemoveOldestOvershoots`, when `blcIndex` is the last index. -/
theorem RemoveOldestOvershoots_windowInv (h h1 : BLCHistory) (n : Int) (hinv : h.WindowInv)
    (hlast : h.blcIndex = (h.blcEvents.length : Int) - 1)
    (hrun : h.RemoveOldestOvershoots n = some h1) : h1.WindowInv := by
  by_cases hwo : h.windowOpen = true
  · obtain ⟨i0, e, he, hlt⟩ := hinv hwo
    have hnat : h.blcIndex.toNat = h.blcEvents.length - 1 := by omega
    have hl : h.blcEvents = h.blcEvents.dropLast ++ [e] := by
      apply eq_dropLast_append_of_getElem?
      rw [← hnat]; exact he
    have hloop := RemoveOldestOvershoots.loop_eq n.toNat h h.blcEvents.dropLast e hl
    unfold RemoveOldestOvershoots at hrun
    rw [hloop] at hrun
    cases hrun
    intro _
    have hidx : (if n.toNat = 0
          ∨ h.blcEvents.dropLast.countP (fun e => e.initialOvershoot) = 0 then h.blcIndex
        else ((eraseFirstN (fun e => e.initialOvershoot) n.toNat h.blcEvents.dropLast
                ++ [e]).length : Int) - 1)
        = ((eraseFirstN (fun e => e.initialOvershoot) n.toNat h.blcEvents.dropLast).length
            : Int) := by
      split_ifs with hk
      · have hsame : eraseFirstN (fun e : BLCEvent => e.initialOvershoot) n.toNat
            h.blcEvents.dropLast = h.blcEvents.dropLast := by
          rcases hk with hk | hk
          · rw [hk, eraseFirstN_zero]
          · exact eraseFirstN_of_none _ _ _ (all_false_of_countP_zero _ _ hk)
        rw [hsame, hlast, List.length_dropLast]
        have : 1 ≤ h.blcEvents.length := by
          rw [hl, List.length_append, List.length_singleton]; omega
        omega
      · simp only [List.length_append, List.length_singleton]
        omega
    dsimp only
    rw [hidx]
    refine ⟨by omega, e, ?_, hlt⟩
    simp
  · have hloop : ∀ (k : Nat) (g g1 : BLCHistory),
        RemoveOldestOvershoots.loop k g = some g1 → g1.windowOpen = g.windowOpen := by
      intro k
      induction k with
      | zero => intro g g1 hg; cases hg; rfl
      | succ k ih =>
        intro g g1 hg
        simp only [RemoveOldestOvershoots.loop] at hg
        cases hp : RemoveOldestOvershoots.pass g with
        | none => rw [hp] at hg; cases hg
        | some g2 =>
          rw [hp] at hg
          have hne : g.blcEvents ≠ [] := by
            intro hn
            unfold RemoveOldestOvershoots.pass at hp
            rw [hn] at hp
            cases hp
          obtain ⟨g3, e3, w3, _⟩ := RemoveOldestOvershoots.pass_some g hne
          rw [hp] at e3
          cases e3
          rw [ih g2 g1 hg, w3]
    intro hopen
    rw [hloop _ h h1 hrun] at hopen
    exact absurd hopen hwo

/-- C15 (amended): the window predicate (an open window implies that `blcIndex` is not
negative and that the event at `blcIndex` has fewer than 3 corrections) holds for a freshly
constructed history and is preserved by `RecordNewBLC`, by `CloseWindow`, by
`AdjustmentNeeded` and, when `blcIndex` is the last index, by `RemoveOldestOvershoots`.
`AddDeflection` keeps the weaker predicate with at most 3 corrections (it may fill the
third slot and leave the window open), and `ClearHistory` followed by `CloseWindow`
restores the predicate. -/
theorem C15_window_predicate :
    (∀ now, (BLCHistory.new now).WindowInv) ∧
    (∀ (h : BLCHistory) w t, (h.RecordNewBLC w t).WindowInv) ∧
    (∀ (h : BLCHistory), h.CloseWindow.WindowInv) ∧
    (∀ (h : BLCHistory) miss minMove yRate r, h.WindowInv →
      h.AdjustmentNeeded miss minMove yRate = some r → r.hist.WindowInv) ∧
    (∀ (h : BLCHistory) n h1, h.WindowInv → h.blcIndex = (h.blcEvents.length : Int) - 1 →
      h.RemoveOldestOvershoots n = some h1 → h1.WindowInv) ∧
    (∀ (h : BLCHistory) w a m b h1, h.WindowInv → h.AddDeflection w a m = some (b, h1) →
      h1.windowOpen = true →
        0 ≤ h1.blcIndex ∧ ∃ e, h1.blcEvents[h1.blcIndex.toNat]? = some e ∧ e.InfoCount ≤ 3) ∧
    (∀ (h : BLCHistory), h.ClearHistory.CloseWindow.WindowInv) := by
  refine ⟨?_, RecordNewBLC_windowInv, ?_, ?_, ?_, ?_, ?_⟩
  · intro now hopen
    exact absurd hopen (by simp [BLCHistory.new])
  · intro h hopen
    exact absurd hopen (by simp [CloseWindow])
  · intro h miss minMove yRate r hinv hrun
    rcases AdjustmentNeeded_closed_or_same h miss minMove yRate r hrun with hc | hs
    · intro hopen
      rw [hc] at hopen
      exact absurd hopen (by decide)
    · rw [hs]; exact hinv
  · intro h n h1 hinv hlast hrun
    exact RemoveOldestOvershoots_windowInv h h1 n hinv hlast hrun
  · intro h w a m b h1 hinv hrun hopen
    unfold AddDeflection ENTRY_CAPACITY at hrun
    by_cases hidx : h.blcIndex ≥ 0
    · rw [if_pos hidx] at hrun
      cases he : h.blcEvents[h.blcIndex.toNat]? with
      | none => rw [he] at hrun; cases hrun
      | some evt =>
        rw [he] at hrun
        dsimp only at hrun
        by_cases hlt : evt.InfoCount < 3
        · rw [if_pos hlt] at hrun
          cases hrun
          refine ⟨hidx, evt.AddEventInfo (w - h.timeBase) a m, ?_, ?_⟩
          · have hlen : h.blcIndex.toNat < h.blcEvents.length := by
              obtain ⟨hh, _⟩ := List.getElem?_eq_some.mp he
              exact hh
            dsimp only
            rw [List.getElem?_set_self hlen]
          · unfold BLCEvent.InfoCount at hlt ⊢
            rw [AddEventInfo_corrections evt _ a m hlt]
            simp only [List.length_append, List.length_singleton]
            omega
        · rw [if_neg hlt] at hrun
          cases hrun
          exact absurd hopen (by simp)
    · rw [if_neg hidx] at hrun
      cases hrun
      exact absurd hopen (by simp)
  · intro h hopen
    exact absurd hopen (by simp [CloseWindow, ClearHistory])

/-- C15 (witness): the amended statement used at concrete histories: `histOpen1` for
`AdjustmentNeeded`, `histPurge` for `RemoveOldestOvershoots` and `histOpen2` for
`AddDeflection`. -/
theorem C15_window_predicate_witness :
    (⟨false, 0, histOpen2⟩ : AdjustmentResult).hist.WindowInv ∧
    ({ histPurge with blcEvents := [evShort 10, evLong 30, evLong 40], blcIndex := 2 }
      : BLCHistory).WindowInv ∧
    (0 ≤ histUnder.blcIndex ∧
      ∃ e, histUnder.blcEvents[histUnder.blcIndex.toNat]? = some e ∧ e.InfoCount ≤ 3) :=
  ⟨C15_window_predicate.2.2.2.1 histOpen2 3 0 (1 / 20) ⟨false, 0, histOpen2⟩
      (fun _ => ⟨by decide, _, rfl, by decide⟩) (by decide!),
    C15_window_predicate.2.2.2.2.1 histPurge 2 _
      (fun _ => ⟨by decide, _, rfl, by decide⟩) (by decide) (by decide!),
    C15_window_predicate.2.2.2.2.2.1 histOpen2 4 2 0 true histUnder
      (fun _ => ⟨by decide, _, rfl, by decide⟩) (by decide!) (by decide)⟩

end BLCHistory

end BLC

namespace BLC

namespace BLCHistory

/-! ## GetStats against its reference definition -/

/-- One loop iteration of `GetStats` on an event that has 3 corrections whenever it shows
stiction. -/
theorem GetStats.body_eq (a : StatsAcc) (evt : BLCEvent)
    (hst : evt.stictionSeen = true → 3 ≤ evt.corrections.length) :
    GetStats.body a evt
      = some ⟨⟨a.res.shortCount + (if evt.initialOvershoot = true then 0 else 1),
                a.res.longCount + (if evt.initialOvershoot = true then 1 else 0),
                a.res.stictionCount + (if evt.stictionSeen = true then 1 else 0),
                a.res.avgInitialMiss, a.res.avgStictionAmount⟩,
              a.sum + (if 2 ≤ evt.corrections.length then slotMiss 1 evt else 0),
              a.stictionSum + (if evt.stictionSeen = true then slotMiss 2 evt else 0),
              a.ct + (if 2 ≤ evt.corrections.length then 1 else 0)⟩ := by
  obtain ⟨cs, o, u, s⟩ := evt
  unfold GetStats.body slotMiss BLCEvent.InfoCount
  rcases cs with _ | ⟨c0, _ | ⟨c1, _ | ⟨c2, rest⟩⟩⟩
  · cases o <;> cases s <;> simp_all
  · cases o <;> cases s <;> simp_all
  · cases o <;> cases s <;> simp_all
  · cases o <;> cases s <;> simp_all <;> omega

/-- The loop of `GetStats` over events that have 3 corrections whenever they show
stiction: counts and sums accumulated over the visited events. -/
theorem GetStats.loop_sums (w : List BLCEvent) :
    ∀ (a : StatsAcc), (∀ e ∈ w, e.stictionSeen = true → 3 ≤ e.corrections.length) →
      GetStats.loop a w
        = some ⟨⟨a.res.shortCount + ((w.countP (fun e => !e.initialOvershoot) : Nat) : Int),
                  a.res.longCount + ((w.countP (fun e => e.initialOvershoot) : Nat) : Int),
                  a.res.stictionCount + ((w.countP (fun e => e.stictionSeen) : Nat) : Int),
                  a.res.avgInitialMiss, a.res.avgStictionAmount⟩,
                a.sum + ((w.filter (fun e => decide (2 ≤ e.corrections.length))).map
                  (slotMiss 1)).sum,
                a.stictionSum + ((w.filter (fun e => e.stictionSeen)).map (slotMiss 2)).sum,
                a.ct + (((w.filter (fun e => decide (2 ≤ e.corrections.length))).length : Nat)
                  : Int)⟩ := by
  induction w with
  | nil =>
    intro a _
    simp [GetStats.loop]
  | cons evt rest ih =>
    intro a hst
    have h1 := GetStats.body_eq a evt (hst evt (List.mem_cons_self _ _))
    have h2 : ∀ e ∈ rest, e.stictionSeen = true → 3 ≤ e.corrections.length :=
      fun e he => hst e (List.mem_cons_of_mem _ he)
    simp only [GetStats.loop, h1]
    rw [ih _ h2]
    have e1 : ((List.countP (fun e => !e.initialOvershoot) (evt :: rest) : Nat) : Int)
        = (if evt.initialOvershoot = true then 0 else 1)
          + ((List.countP (fun e => !e.initialOvershoot) rest : Nat) : Int) := by
      rw [List.countP_cons]
      cases evt.initialOvershoot <;> first | (simp; done) | (simp; ring)
    have e2 : ((List.countP (fun e => e.initialOvershoot) (evt :: rest) : Nat) : Int)
        = (if evt.initialOvershoot = true then 1 else 0)
          + ((List.countP (fun e => e.initialOvershoot) rest : Nat) : Int) := by
      rw [List.countP_cons]
      cases evt.initialOvershoot <;> first | (simp; done) | (simp; ring)
    have e3 : ((List.countP (fun e => e.stictionSeen) (evt :: rest) : Nat) : Int)
        = (if evt.stictionSeen = true then 1 else 0)
          + ((List.countP (fun e => e.stictionSeen) rest : Nat) : Int) := by
      rw [List.countP_cons]
      cases evt.stictionSeen <;> first | (simp; done) | (simp; ring)
    have e4 : ((List.filter (fun e => decide (2 ≤ e.corrections.length)) (evt :: rest)).map
          (slotMiss 1)).sum
        = (if 2 ≤ evt.corrections.length then slotMiss 1 evt else 0)
          + ((List.filter (fun e => decide (2 ≤ e.corrections.length)) rest).map
              (slotMiss 1)).sum := by
      rw [List.filter_cons]
      by_cases hc : 2 ≤ evt.corrections.length <;> simp [hc]
    have e5 : ((List.filter (fun e => e.stictionSeen) (evt :: rest)).map (slotMiss 2)).sum
        = (if evt.stictionSeen = true then slotMiss 2 evt else 0)
          + ((List.filter (fun e => e.stictionSeen) rest).map (slotMiss 2)).sum := by
      rw [List.filter_cons]
      cases evt.stictionSeen <;> simp
    have e6 : (((List.filter (fun e => decide (2 ≤ e.corrections.length)) (evt :: rest)).length
          : Nat) : Int)
        = (if 2 ≤ evt.corrections.length then 1 else 0)
          + (((List.filter (fun e => decide (2 ≤ e.corrections.length)) rest).length : Nat)
              : Int) := by
      rw [List.filter_cons]
      by_cases hc : 2 ≤ evt.corrections.length <;> first | (simp [hc]; done) | (simp [hc]; ring)
    rw [e1, e2, e3, e4, e5, e6]
    simp only [add_assoc]

/-- The events visited by `GetStats` are those of `statsRange`, newest first. -/
theorem GetStats.window_eq (h : BLCHistory) (depth : Int) (hd : 1 ≤ depth)
    (hidx : 0 ≤ h.blcIndex) (hlt : h.blcIndex < (h.blcEvents.length : Int)) :
    GetStats.window h depth = some (h.statsRange depth).reverse := by
  unfold GetStats.window statsRange
  dsimp only
  have hb : h.blcIndex - (depth - 1) = h.blcIndex - depth + 1 := by ring
  rw [hb, if_neg (by omega), if_pos hlt]

/-- The quotient computed by `GetStats` from a sum and an integer count is the mean of the
summed list. -/
theorem mean_eq (l : List ℚ) :
    (if ((l.length : Nat) : Int) > 0 then l.sum / (((l.length : Nat) : Int) : ℚ) else 0)
      = meanOrZero l := by
  unfold meanOrZero
  by_cases hz : l.length = 0
  · rw [if_pos hz, if_neg (by omega)]
  · rw [if_neg hz, if_pos (by omega)]
    push_cast
    rfl

/-- `GetStats` into a fresh result agrees with the reference statistics. -/
theorem GetStats_eq_statsSpec (h : BLCHistory) (depth : Int) (hd : 1 ≤ depth)
    (hidx : 0 ≤ h.blcIndex) (hlt : h.blcIndex < (h.blcEvents.length : Int))
    (hst : ∀ e ∈ h.statsRange depth, e.stictionSeen = true → 3 ≤ e.corrections.length) :
    h.GetStats depth {} = some (h.statsSpec depth) := by
  have hw := GetStats.window_eq h depth hd hidx hlt
  have hst1 : ∀ e ∈ (h.statsRange depth).reverse,
      e.stictionSeen = true → 3 ≤ e.corrections.length :=
    fun e he => hst e (List.mem_reverse.mp he)
  have hl := GetStats.loop_sums (h.statsRange depth).reverse ⟨{}, 0, 0, 0⟩ hst1
  unfold GetStats
  rw [hw]
  dsimp only
  rw [hl]
  dsimp only
  simp only [List.countP_reverse, List.filter_reverse, List.map_reverse, List.sum_reverse,
    List.length_reverse, zero_add]
  have m1 := mean_eq (((h.statsRange depth).filter
    (fun e => decide (2 ≤ e.corrections.length))).map (slotMiss 1))
  have m2 := mean_eq (((h.statsRange depth).filter (fun e => e.stictionSeen)).map (slotMiss 2))
  rw [List.length_map] at m1 m2
  unfold statsSpec
  dsimp only
  rw [← m1, ← m2, List.countP_eq_length_filter (fun e : BLCEvent => e.stictionSeen)]
  split_ifs <;> rfl

/-- C19: for every history with a valid `blcIndex` (events showing stiction having their
3 corrections) and every depth of at least 1, `GetStats(depth)` computed into a fresh
result returns, and its result is the reference statistics over the events at the indices
`max(0, blcIndex - depth + 1) .. blcIndex`: `longCount` is the number of those with
`initialOvershoot`, `shortCount` the number without, `stictionCount` the number with
`stictionSeen`, `avgInitialMiss` the arithmetic mean of the slot-1 miss over those with at
least 2 corrections (0 if none) and `avgStictionAmount` the arithmetic mean of the
slot-2 miss over those with `stictionSeen` (0 if none). -/
theorem C19_stats_refinement (h : BLCHistory) (depth : Int) (hd : 1 ≤ depth)
    (hidx : 0 ≤ h.blcIndex) (hlt : h.blcIndex < (h.blcEvents.length : Int))
    (hst : ∀ e ∈ h.statsRange depth, e.stictionSeen = true → 3 ≤ e.corrections.length) :
    h.GetStats depth {} = some (h.statsSpec depth) :=
  GetStats_eq_statsSpec h depth hd hidx hlt hst

/-- C19 (witness): the theorem at `histPurge` (five events, `blcIndex = 4`) and depth 3:
the three newest events are initial over-shoots with first miss `-6`. -/
theorem C19_stats_refinement_witness :
    histPurge.GetStats 3 {} = some (histPurge.statsSpec 3) ∧
    histPurge.statsSpec 3 = ⟨0, 3, 0, -6, 0⟩ :=
  ⟨C19_stats_refinement histPurge 3 (by decide) (by decide) (by decide) (by decide!),
    by decide!⟩

end BLCHistory

end BLC

namespace BLC

/-! ## ApplyBacklashComp on a reversal, repeated SetBacklashPulse and EnableBacklashComp -/

/-- The event recorded by `RecordNewBLC` is the current event. -/
theorem BLCHistory.RecordNewBLC_current (h : BLCHistory) (w : Int) (t : ℚ) :
    (h.RecordNewBLC w t).blcEvents[(h.RecordNewBLC w t).blcIndex.toNat]?
      = some (BLCEvent.mk1 (w - h.timeBase) t) := by
  unfold BLCHistory.RecordNewBLC
  dsimp only
  have hnat : ∀ (l : List BLCEvent) (x : BLCEvent),
      (((l ++ [x]).length : Int) - 1).toNat = l.length := by
    intro l x
    simp only [List.length_append, List.length_singleton]
    omega
  rw [hnat]
  simp

/-- C21: for every `ApplyBacklashComp` call that performs a compensated reversal (active,
positive pulse, `yDist` not zero, a known last direction different from `dir`): if the move
options contain `ALGO_RESULT`, the history afterwards is the one given by
`RecordNewBLC(now, yDist)`, whose current event is the new event with the single correction
`(now - timeBase, yDist)`, and the window is open; if they do not, the events and
`blcIndex` are unchanged and the window is closed.  In every `ApplyBacklashComp` call the
pulse width, the floor and the ceiling are unchanged. -/
theorem C21_apply_reversal (s : BacklashComp) (opts : Nat) (dir : Int) (yDist : ℚ)
    (yAmount now : Int) :
    ((s.m_compActive = true ∧ 0 < s.m_pulseWidth ∧ yDist ≠ 0 ∧ s.m_lastDirection ≠ NONE
        ∧ dir ≠ s.m_lastDirection) →
      (opts &&& MOVEOPT_ALGO_RESULT ≠ 0 →
        (s.ApplyBacklashComp opts dir yDist yAmount now).1.m_pHistory
          = s.m_pHistory.RecordNewBLC now yDist ∧
        (s.ApplyBacklashComp opts dir yDist yAmount now).1.m_pHistory.blcEvents[
            (s.ApplyBacklashComp opts dir yDist yAmount now).1.m_pHistory.blcIndex.toNat]?
          = some ⟨[⟨now - s.m_pHistory.timeBase, yDist⟩], false, false, false⟩ ∧
        (s.ApplyBacklashComp opts dir yDist yAmount now).1.m_pHistory.windowOpen = true) ∧
      (opts &&& MOVEOPT_ALGO_RESULT = 0 →
        (s.ApplyBacklashComp opts dir yDist yAmount now).1.m_pHistory.blcEvents
          = s.m_pHistory.blcEvents ∧
        (s.ApplyBacklashComp opts dir yDist yAmount now).1.m_pHistory.blcIndex
          = s.m_pHistory.blcIndex ∧
        (s.ApplyBacklashComp opts dir yDist yAmount now).1.m_pHistory.windowOpen = false)) ∧
    (s.ApplyBacklashComp opts dir yDist yAmount now).1.m_pulseWidth = s.m_pulseWidth ∧
    (s.ApplyBacklashComp opts dir yDist yAmount now).1.m_adjustmentFloor
      = s.m_adjustmentFloor ∧
    (s.ApplyBacklashComp opts dir yDist yAmount now).1.m_adjustmentCeiling
      = s.m_adjustmentCeiling := by
  refine ⟨?_, ?_, ?_, ?_⟩
  · rintro ⟨ha, hp, hy, hl, hd⟩
    have hguard : ¬ (s.m_compActive = false ∨ s.m_pulseWidth ≤ 0 ∨ yDist = 0) := by
      rintro (h | h | h)
      · rw [ha] at h; exact Bool.noConfusion h
      · omega
      · exact hy h
    constructor
    · intro halgo
      have hh : (s.ApplyBacklashComp opts dir yDist yAmount now).1.m_pHistory
          = s.m_pHistory.RecordNewBLC now yDist := by
        unfold BacklashComp.ApplyBacklashComp
        rw [if_neg hguard, if_pos ⟨hl, hd⟩]
        dsimp only
        rw [if_pos halgo]
      rw [hh]
      exact ⟨rfl, BLCHistory.RecordNewBLC_current _ _ _, rfl⟩
    · intro halgo
      have hh : (s.ApplyBacklashComp opts dir yDist yAmount now).1.m_pHistory
          = s.m_pHistory.CloseWindow := by
        unfold BacklashComp.ApplyBacklashComp
        rw [if_neg hguard, if_pos ⟨hl, hd⟩]
        dsimp only
        rw [if_neg (not_not.mpr halgo)]
      rw [hh]
      exact ⟨rfl, rfl, rfl⟩
  all_goals
    unfold BacklashComp.ApplyBacklashComp
    split_ifs <;> rfl

/-- C21 (witness): the theorem at `northFirst` (active, pulse 500, last direction NORTH)
and a move SOUTH with `yDist = 10`, once as an algorithm-result move and once as a move
without `ALGO_RESULT`. -/
theorem C21_apply_reversal_witness :
    ((northFirst.ApplyBacklashComp algoMove SOUTH 10 100 2).1.m_pHistory
        = northFirst.m_pHistory.RecordNewBLC 2 10 ∧
      (northFirst.ApplyBacklashComp algoMove SOUTH 10 100 2).1.m_pHistory.blcEvents[
          (northFirst.ApplyBacklashComp algoMove SOUTH 10 100 2).1.m_pHistory.blcIndex.toNat]?
        = some ⟨[⟨2 - northFirst.m_pHistory.timeBase, 10⟩], false, false, false⟩ ∧
      (northFirst.ApplyBacklashComp algoMove SOUTH 10 100 2).1.m_pHistory.windowOpen = true) ∧
    ((northFirst.ApplyBacklashComp MOVEOPT_USE_BLC SOUTH 10 100 2).1.m_pHistory.blcEvents
        = northFirst.m_pHistory.blcEvents ∧
      (northFirst.ApplyBacklashComp MOVEOPT_USE_BLC SOUTH 10 100 2).1.m_pHistory.blcIndex
        = northFirst.m_pHistory.blcIndex ∧
      (northFirst.ApplyBacklashComp MOVEOPT_USE_BLC SOUTH 10 100 2).1.m_pHistory.windowOpen
        = false) :=
  ⟨((C21_apply_reversal northFirst algoMove SOUTH 10 100 2).1
      ⟨by decide!, by decide!, by norm_num, by decide!, by decide!⟩).1 (by decide),
    ((C21_apply_reversal northFirst MOVEOPT_USE_BLC SOUTH 10 100 2).1
      ⟨by decide!, by decide!, by norm_num, by decide!, by decide!⟩).2 (by decide)⟩

/-- C23: for every state, `EnableBacklashComp(false)` followed by
`EnableBacklashComp(false)` gives the same state as a single call; the first call appends
exactly one "Backlash comp enabled" notification when the state was active and none
otherwise, and the second call appends none. -/
theorem C23_disable_twice (s : BacklashComp) :
    (s.EnableBacklashComp false).EnableBacklashComp false = s.EnableBacklashComp false ∧
    (s.EnableBacklashComp false).notified
      = s.notified
          ++ (if s.m_compActive = true then [GuidingParam.backlashCompEnabled false] else []) ∧
    ((s.EnableBacklashComp false).EnableBacklashComp false).notified
      = (s.EnableBacklashComp false).notified := by
  have h1 : (s.EnableBacklashComp false).EnableBacklashComp false
      = s.EnableBacklashComp false := by
    unfold BacklashComp.EnableBacklashComp
    cases s.m_compActive <;> simp
  refine ⟨h1, ?_, by rw [h1]⟩
  unfold BacklashComp.EnableBacklashComp
  cases s.m_compActive <;> simp

end BLC

namespace BLC

/-! ## SetBacklashPulse twice -/

/-- The values stored by `SetCompValues` depend on its arguments only. -/
theorem SetCompValues_values_indep (s t : BacklashComp) (p f c : Int) :
    (s.SetCompValues p f c).m_pulseWidth = (t.SetCompValues p f c).m_pulseWidth ∧
    (s.SetCompValues p f c).m_adjustmentFloor = (t.SetCompValues p f c).m_adjustmentFloor ∧
    (s.SetCompValues p f c).m_adjustmentCeiling = (t.SetCompValues p f c).m_adjustmentCeiling ∧
    (s.SetCompValues p f c).m_fixedSize = (t.SetCompValues p f c).m_fixedSize :=
  ⟨rfl, rfl, rfl, rfl⟩

/-- `SetBacklashPulse` called twice with the same arguments: the second call leaves the
pulse width, the floor, the ceiling, the fixed-size flag and the history as they are after
the first call. -/
theorem SetBacklashPulse_twice (s : BacklashComp) (p f c : Int) :
    ((s.SetBacklashPulse p f c).SetBacklashPulse p f c).m_pulseWidth
      = (s.SetBacklashPulse p f c).m_pulseWidth ∧
    ((s.SetBacklashPulse p f c).SetBacklashPulse p f c).m_adjustmentFloor
      = (s.SetBacklashPulse p f c).m_adjustmentFloor ∧
    ((s.SetBacklashPulse p f c).SetBacklashPulse p f c).m_adjustmentCeiling
      = (s.SetBacklashPulse p f c).m_adjustmentCeiling ∧
    ((s.SetBacklashPulse p f c).SetBacklashPulse p f c).m_fixedSize
      = (s.SetBacklashPulse p f c).m_fixedSize ∧
    ((s.SetBacklashPulse p f c).SetBacklashPulse p f c).m_pHistory
      = (s.SetBacklashPulse p f c).m_pHistory := by
  by_cases h1 : s.m_pulseWidth ≠ p ∨ s.m_adjustmentFloor ≠ f ∨ s.m_adjustmentCeiling ≠ c
  · obtain ⟨v1, v2, v3, v4⟩ := SetBacklashPulse_values s p f c h1
    generalize hs1 : s.SetBacklashPulse p f c = s1 at *
    by_cases h2 : s1.m_pulseWidth ≠ p ∨ s1.m_adjustmentFloor ≠ f ∨ s1.m_adjustmentCeiling ≠ c
    · obtain ⟨u1, u2, u3, u4⟩ := SetBacklashPulse_values s1 p f c h2
      obtain ⟨i1, i2, i3, i4⟩ := SetCompValues_values_indep s1 s p f c
      refine ⟨by rw [u1, i1, v1], by rw [u2, i2, v2], by rw [u3, i3, v3], by rw [u4, i4, v4], ?_⟩
      have hp : (s1.SetCompValues p f c).m_pulseWidth = s1.m_pulseWidth := by rw [i1, v1]
      unfold BacklashComp.SetBacklashPulse
      rw [if_pos h2]
      dsimp only
      rw [hp, sub_self, if_neg (by norm_num)]
      rfl
    · have : s1.SetBacklashPulse p f c = s1 := by
        unfold BacklashComp.SetBacklashPulse
        rw [if_neg h2]
      rw [this]
      exact ⟨rfl, rfl, rfl, rfl, rfl⟩
  · have hsame : s.SetBacklashPulse p f c = s := by
      unfold BacklashComp.SetBacklashPulse
      rw [if_neg h1]
    rw [hsame, hsame]
    exact ⟨rfl, rfl, rfl, rfl, rfl⟩

/-- For a request `p >= 0` on a state whose pulse is at most 8000, `SetBacklashPulse`
clears the history and closes the window exactly when the clamped request differs from the
old pulse by more than 100. -/
theorem SetBacklashPulse_clears_iff (s : BacklashComp) (p f c : Int) (hp0 : 0 ≤ p)
    (hp1 : p < 2 ^ 31) (hs1 : s.m_pulseWidth ≤ 8000) :
    (|max 0 (min p 8000) - s.m_pulseWidth| > 100 →
      (s.SetBacklashPulse p f c).m_pHistory = s.m_pHistory.ClearHistory.CloseWindow) ∧
    (¬ |max 0 (min p 8000) - s.m_pulseWidth| > 100 →
      (s.SetBacklashPulse p f c).m_pHistory = s.m_pHistory) := by
  have hmax : max 0 (min p 8000) = min p 8000 := max_eq_right (le_min hp0 (by norm_num))
  rw [hmax]
  by_cases h1 : s.m_pulseWidth ≠ p ∨ s.m_adjustmentFloor ≠ f ∨ s.m_adjustmentCeiling ≠ c
  · have hP : (s.SetCompValues p f c).m_pulseWidth = min p 8000 := by
      simp only [BacklashComp.SetCompValues]
      exact clampedPulse_of_nonneg hp0 (by omega)
    constructor
    · intro hd
      unfold BacklashComp.SetBacklashPulse
      rw [if_pos h1]
      dsimp only
      rw [hP, if_pos hd]
      rfl
    · intro hd
      unfold BacklashComp.SetBacklashPulse
      rw [if_pos h1]
      dsimp only
      rw [hP, if_neg hd]
      rfl
  · have hsame : s.SetBacklashPulse p f c = s := by
      unfold BacklashComp.SetBacklashPulse
      rw [if_neg h1]
    have hpe : s.m_pulseWidth = p := by
      by_contra hne
      exact h1 (Or.inl hne)
    constructor
    · intro hd
      exfalso
      rw [← hpe, min_eq_left hs1, sub_self] at hd
      simp at hd
    · intro _
      rw [hsame]

/-- C22 (code defect, evaluation at the failing input): on `afterReversal 50 20 100`
(pulse 50, one recorded event, window open) the call `SetBacklashPulse(-1, 20, 100)` stores
the pulse 8000, clears the history and closes the window, although
`|max(0, min(-1, 8000)) - 50| = 50` is not larger than 100.  A second call with the same
arguments changes none of the compared members. -/
theorem C22_negative_request_clears_history :
    (afterReversal 50 20 100).m_pulseWidth = 50 ∧
    (afterReversal 50 20 100).m_pHistory.blcEvents.length = 1 ∧
    (afterReversal 50 20 100).m_pHistory.windowOpen = true ∧
    ¬ (|max 0 (min (-1 : Int) 8000) - 50| > 100) ∧
    ((afterReversal 50 20 100).SetBacklashPulse (-1) 20 100).m_pulseWidth = 8000 ∧
    ((afterReversal 50 20 100).SetBacklashPulse (-1) 20 100).m_pHistory.blcEvents = [] ∧
    ((afterReversal 50 20 100).SetBacklashPulse (-1) 20 100).m_pHistory.windowOpen = false ∧
    (((afterReversal 50 20 100).SetBacklashPulse (-1) 20 100).SetBacklashPulse (-1) 20
        100).m_pulseWidth = 8000 := by
  decide!

end BLC

namespace BLC

/-! ## TrackBLCResults on degenerate inputs, and the end-to-end scenario -/

namespace BLCHistory

/-- In a well-formed event stiction comes with 3 corrections. -/
theorem BLCEvent.WellFormed.stiction_three {e : BLCEvent} (hw : e.WellFormed)
    (hs : e.stictionSeen = true) : 3 ≤ e.corrections.length := by
  obtain ⟨_, _, _, w4, _, _⟩ := hw
  by_contra hlt
  have := w4 (by omega)
  rw [hs] at this
  exact Bool.noConfusion this

/-- The events of `statsRange` are events of the history. -/
theorem mem_of_mem_statsRange {h : BLCHistory} {depth : Int} {e : BLCEvent}
    (he : e ∈ h.statsRange depth) : e ∈ h.blcEvents := by
  unfold statsRange at he
  exact List.mem_of_mem_take (List.mem_of_mem_drop he)

/-- On a well-formed, non-empty history `GetStats` over the last 10 events returns. -/
theorem GetStats_isSome (h : BLCHistory) (hw : h.WellFormed) (hne : h.blcEvents ≠ []) :
    ∃ st, h.GetStats HISTORY_DEPTH {} = some st := by
  obtain ⟨w1, _, w3⟩ := hw
  obtain ⟨i0, i1⟩ := w3 hne
  refine ⟨_, GetStats_eq_statsSpec h HISTORY_DEPTH (by decide) i0 i1 ?_⟩
  intro e he hs
  exact BLCEvent.WellFormed.stiction_three (w1 e (mem_of_mem_statsRange he)) hs

/-- A miss smaller than the minimum move: `AdjustmentNeeded` reports no adjustment and
closes the window, whatever the rate is. -/
theorem AdjustmentNeeded_small_miss (h : BLCHistory) (miss minMove yRate : ℚ) (e : BLCEvent)
    (st : RecentStats) (hidx : 0 ≤ h.blcIndex) (he : h.blcEvents[h.blcIndex.toNat]? = some e)
    (hc2 : 2 ≤ e.InfoCount) (hs : h.GetStats HISTORY_DEPTH {} = some st)
    (hsmall : ¬ |miss| ≥ minMove) :
    h.AdjustmentNeeded miss minMove yRate = some ⟨false, 0, { h with windowOpen := false }⟩ := by
  unfold AdjustmentNeeded
  rw [if_pos hidx, hs]
  dsimp only
  rw [he]
  dsimp only
  rw [if_neg (not_lt.mpr hc2), if_neg hsmall]

/-- After `AddDeflection` on a well-formed, non-empty history the current event has at
least 2 corrections. -/
theorem AddDeflection_current (h h1 : BLCHistory) (w : Int) (a m : ℚ) (b : Bool)
    (hw : h.WellFormed) (hne : h.blcEvents ≠ [])
    (hrun : h.AddDeflection w a m = some (b, h1)) :
    0 ≤ h1.blcIndex ∧ ∃ e, h1.blcEvents[h1.blcIndex.toNat]? = some e ∧ 2 ≤ e.InfoCount := by
  obtain ⟨w1, _, w3⟩ := hw
  unfold AddDeflection ENTRY_CAPACITY at hrun
  by_cases hidx : h.blcIndex ≥ 0
  · rw [if_pos hidx] at hrun
    cases he : h.blcEvents[h.blcIndex.toNat]? with
    | none => rw [he] at hrun; cases hrun
    | some evt =>
      rw [he] at hrun
      dsimp only at hrun
      have hwf := w1 evt (List.getElem?_mem he)
      by_cases hlt : evt.InfoCount < 3
      · rw [if_pos hlt] at hrun
        cases hrun
        refine ⟨hidx, evt.AddEventInfo (w - h.timeBase) a m, ?_, ?_⟩
        · have hlen : h.blcIndex.toNat < h.blcEvents.length :=
            (List.getElem?_eq_some.mp he).1
          dsimp only
          rw [List.getElem?_set_self hlen]
        · unfold BLCEvent.InfoCount
          rw [AddEventInfo_corrections evt _ a m hlt]
          simp only [List.length_append, List.length_singleton]
          have := hwf.1
          omega
      · rw [if_neg hlt] at hrun
        cases hrun
        exact ⟨hidx, evt, he, by omega⟩
  · exact absurd (w3 hne).1 hidx

end BLCHistory

/-- `_TrackBLCResults` with a distance smaller than the (clamped) minimum move, on a
well-formed, non-empty history: the call returns and only the history changes. -/
theorem TrackBLCResults_inner_small_distance (s : BacklashComp) (opts : Nat)
    (yDistance minMove yRate : ℚ) (now : Int) (hw : s.m_pHistory.WellFormed)
    (hne : s.m_pHistory.blcEvents ≠ []) (hsmall : |yDistance| < max minMove 0) :
    ∃ h2, s._TrackBLCResults opts yDistance minMove yRate now
      = some { s with m_pHistory := h2 } := by
  have hmiss : ∀ m : ℚ, (m = |yDistance| ∨ m = -|yDistance|) → ¬ |m| ≥ max minMove 0 := by
    intro m hm
    have : |m| = |yDistance| := by
      rcases hm with rfl | rfl
      · exact abs_abs _
      · rw [abs_neg, abs_abs]
    rw [this]
    exact not_le.mpr hsmall
  unfold BacklashComp._TrackBLCResults
  dsimp only
  generalize hm : (if (if yDistance > 0 then DOWN else UP) = s.m_lastDirection then |yDistance|
    else -|yDistance|) = miss
  have hm1 : miss = |yDistance| ∨ miss = -|yDistance| := by
    rw [← hm]
    split_ifs <;> first | exact Or.inl rfl | exact Or.inr rfl
  obtain ⟨⟨b, h1⟩, hadd⟩ :=
    BLCHistory.AddDeflection_isSome s.m_pHistory now miss (max minMove 0) hw hne
  obtain ⟨hw1, hne1⟩ := BLCHistory.AddDeflection_wellFormed _ h1 now miss _ b hw hadd
  obtain ⟨i0, e, he, hc2⟩ := BLCHistory.AddDeflection_current _ h1 now miss _ b hw hne hadd
  obtain ⟨st, hst⟩ := BLCHistory.GetStats_isSome h1 hw1 (hne1 hne)
  have hadj := BLCHistory.AdjustmentNeeded_small_miss h1 miss (max minMove 0) yRate e st i0 he
    hc2 hst (hmiss miss hm1)
  rw [hadd]
  dsimp only
  rw [hadj]
  dsimp only
  exact ⟨_, rfl⟩

/-- C24 (counterexample): two calls with a "bad" input that are not no-ops.  On
`secondReversal` (pulse 495, window open, an earlier over-shoot in the history) a
`TrackBLCResults` call with `yDistance = 0` and `minMove = 0` records the zero miss,
finds a negative average initial miss and lowers the pulse to 493.  On
`afterReversal 500 100 1000` a call with `yRate = 0` and an over-shoot of 5 reaches the
conversion to `int` of a quotient by zero, which is undefined: the model does not return. -/
theorem C24_counterexample :
    (secondReversal.m_pulseWidth = 495 ∧
      (secondReversal.TrackBLCResults algoMove 0 0 1 5).map (fun t => t.m_pulseWidth)
        = some 493) ∧
    (afterReversal 500 100 1000).TrackBLCResults algoMove (-5) 0 0 3 = none := by
  decide!

/-- C24 (amended): for every state and every `TrackBLCResults` call, if compensation is not
active the call returns and changes nothing; and if the distance is smaller than the
minimum move clamped at 0 (in particular `yDistance = 0` with `minMove > 0`), then on a
well-formed history that holds an event whenever the window is open the call returns, for
every rate including `yRate = 0`, and leaves the pulse width, the floor and the ceiling
unchanged. -/
theorem C24_track_result_bad_input (s : BacklashComp) (opts : Nat)
    (yDistance minMove yRate : ℚ) (now : Int) :
    (s.m_compActive = false → s.TrackBLCResults opts yDistance minMove yRate now = some s) ∧
    (s.m_pHistory.WellFormed →
      (s.m_pHistory.windowOpen = true → s.m_pHistory.blcEvents ≠ []) →
      |yDistance| < max minMove 0 →
      ∃ s1, s.TrackBLCResults opts yDistance minMove yRate now = some s1 ∧
        s1.m_pulseWidth = s.m_pulseWidth ∧ s1.m_adjustmentFloor = s.m_adjustmentFloor ∧
        s1.m_adjustmentCeiling = s.m_adjustmentCeiling) := by
  constructor
  · intro ha
    unfold BacklashComp.TrackBLCResults
    rw [ha]
    rfl
  · intro hw hne hsmall
    unfold BacklashComp.TrackBLCResults
    split_ifs with h1 h2 h3 h4
    · obtain ⟨h2, hrun⟩ := TrackBLCResults_inner_small_distance s opts yDistance minMove yRate
        now hw (hne h4.1) hsmall
      exact ⟨_, hrun, rfl, rfl, rfl⟩
    · exact ⟨_, rfl, rfl, rfl, rfl⟩
    · exact ⟨_, rfl, rfl, rfl, rfl⟩
    · refine ⟨_, rfl, ?_⟩
      unfold BacklashComp.ResetBaseline
      rw [if_pos h1]
      exact ⟨rfl, rfl, rfl⟩
    · exact ⟨_, rfl, rfl, rfl, rfl⟩

/-- C24 (witness): the amended statement, its first part at the inactive state
`disabledAfterReversal` and its second part at `afterReversal 500 100 1000` with
`yDistance = 0`, `minMove = 1` and `yRate = 0`. -/
theorem C24_track_result_bad_input_witness :
    disabledAfterReversal.TrackBLCResults algoMove 3 0 0 5 = some disabledAfterReversal ∧
    (∃ s1, (afterReversal 500 100 1000).TrackBLCResults algoMove 0 1 0 3 = some s1 ∧
      s1.m_pulseWidth = (afterReversal 500 100 1000).m_pulseWidth ∧
      s1.m_adjustmentFloor = (afterReversal 500 100 1000).m_adjustmentFloor ∧
      s1.m_adjustmentCeiling = (afterReversal 500 100 1000).m_adjustmentCeiling) :=
  ⟨(C24_track_result_bad_input disabledAfterReversal algoMove 3 0 0 5).1 (by decide!),
    (C24_track_result_bad_input (afterReversal 500 100 1000) algoMove 0 1 0 3).2 (by decide!)
      (fun _ => by decide!) (by norm_num)⟩

/-- C25: the end-to-end scenario.  From an active, adjustable compensator with pulse 500,
floor 100, ceiling 1000 and an empty history (`northFirst`), an algorithm-result reversal
with trigger deflection `+10` gives `afterReversal 500 100 1000`; two algorithm-result
`TrackBLCResults` calls whose misses are `+3` and `+2` (`minMove = 0`, `yRate = 1/20`)
then leave the stored pulse width at 550.  The same holds for the mirrored reversal to
NORTH, where the under-shoots are reported as negative distances. -/
theorem C25_scenario_pulse_550 :
    northFirst.m_compActive = true ∧ northFirst.m_fixedSize = false ∧
    northFirst.m_pulseWidth = 500 ∧ northFirst.m_adjustmentFloor = 100 ∧
    northFirst.m_adjustmentCeiling = 1000 ∧ northFirst.m_pHistory.blcEvents = [] ∧
    (northFirst.ApplyBacklashComp algoMove SOUTH 10 100 2).1 = afterReversal 500 100 1000 ∧
    (((afterReversal 500 100 1000).TrackBLCResults algoMove 3 0 (1 / 20) 3).bind
        (fun s1 => s1.TrackBLCResults algoMove 2 0 (1 / 20) 4)).map (fun s2 => s2.m_pulseWidth)
      = some 550 ∧
    ((afterReversalNorth.TrackBLCResults algoMove (-3) 0 (1 / 20) 3).bind
        (fun s1 => s1.TrackBLCResults algoMove (-2) 0 (1 / 20) 4)).map
          (fun s2 => s2.m_pulseWidth)
      = some 550 := by
  decide!

/-- C26 (counterexample): in the scenario (single event, trigger `+10`, misses `+3` then
`+2`, `minMove = 0`, `yRate = 1/20`) the history at the third frame is `histUnder`; its
average initial miss is `+3`, not `+2.5`, and `AdjustmentNeeded` returns `+60`, not `+50`. -/
theorem C26_counterexample :
    (((afterReversal 500 100 1000).TrackBLCResults algoMove 3 0 (1 / 20) 3).bind
        (fun s1 => s1.m_pHistory.AddDeflection 4 2 0)) = some (true, histUnder) ∧
    (histUnder.GetStats HISTORY_DEPTH {}).map (fun st => st.avgInitialMiss) = some 3 ∧
    (3 : ℚ) ≠ 5 / 2 ∧
    (histUnder.AdjustmentNeeded 2 0 (1 / 20)).map (fun r => (r.adjust, r.correction))
      = some (true, 60) ∧
    (60 : ℚ) ≠ 50 := by
  refine ⟨by decide!, by decide!, by norm_num, by decide!, by norm_num⟩

/-- C26 (amended): in the same scenario, at the third frame the statistics over the last 10
events report `avgInitialMiss = +3` (the mean of the slot-1 misses only),
`longCount = 0` and `stictionCount = 0`, and `AdjustmentNeeded` returns the adjustment
`+60`, closing the window; the rate limit of `_TrackBLCResults` then gives the pulse 550. -/
theorem C26_scenario_statistics :
    histUnder.GetStats HISTORY_DEPTH {} = some ⟨1, 0, 0, 3, 0⟩ ∧
    histUnder.AdjustmentNeeded 2 0 (1 / 20)
      = some ⟨true, 60, { histUnder with lastIncrease := 60, windowOpen := false }⟩ ∧
    ROUND (min ((500 : ℚ) * (11 / 10)) (500 + 60)) = 550 := by
  decide!

end BLC

namespace BLC

namespace BacklashTool

/-! ## ComputeBacklashPx -/

theorem length_stepDeltas : ∀ l : List ℚ, (stepDeltas l).length = l.length - 1
  | [] => rfl
  | [_] => rfl
  | a :: b :: rest => by
    rw [stepDeltas, List.length_cons, length_stepDeltas (b :: rest)]
    simp

theorem goodMove_iff (em d : ℚ) : goodMove em d = true ↔ (|d| ≥ em ∧ d < 0) := by
  simp [goodMove]

/-- A pair of consecutive good deltas exists exactly when `hasGoodPair` says so. -/
theorem hasGoodPair_iff (em : ℚ) : ∀ l : List ℚ,
    hasGoodPair em l = true ↔
      ∃ (i : Nat) (a b : ℚ), l[i]? = some a ∧ l[i + 1]? = some b ∧
        (|a| ≥ em ∧ a < 0) ∧ (|b| ≥ em ∧ b < 0)
  | [] => by simp [hasGoodPair]
  | [_] => by simp [hasGoodPair]
  | a :: b :: rest => by
    rw [hasGoodPair, Bool.or_eq_true, Bool.and_eq_true, hasGoodPair_iff em (b :: rest),
      goodMove_iff, goodMove_iff]
    constructor
    · rintro (h | ⟨i, x, y, hx, hy, hg⟩)
      · exact ⟨0, a, b, by simp, by simp, h.1, h.2⟩
      · exact ⟨i + 1, x, y, by simpa using hx, by simpa using hy, hg⟩
    · rintro ⟨i, x, y, hx, hy, hg⟩
      cases i with
      | zero =>
        simp at hx hy
        subst hx; subst hy
        exact Or.inl hg
      | succ j =>
        exact Or.inr ⟨j, x, y, by simpa using hx, by simpa using hy, hg⟩

theorem firstGoodPair_none_iff (em : ℚ) : ∀ l : List ℚ,
    firstGoodPair em l = none ↔ hasGoodPair em l = false
  | [] => by simp [firstGoodPair, hasGoodPair]
  | [_] => by simp [firstGoodPair, hasGoodPair]
  | a :: b :: rest => by
    rw [firstGoodPair, hasGoodPair]
    by_cases h : (goodMove em a && goodMove em b) = true
    · simp [h]
    · rw [if_neg h, Option.map_eq_none', firstGoodPair_none_iff em (b :: rest)]
      simp only [Bool.not_eq_true] at h
      simp [h]

theorem hasGoodPair_of_nonneg (em : ℚ) : ∀ l : List ℚ, (∀ x ∈ l, 0 ≤ x) →
    hasGoodPair em l = false
  | [], _ => rfl
  | [_], _ => rfl
  | a :: b :: rest, h => by
    have ha : goodMove em a = false := by
      have := h a (by simp)
      simp only [goodMove, decide_eq_false_iff_not, not_and, not_lt]
      intro _; exact this
    rw [hasGoodPair, ha, hasGoodPair_of_nonneg em (b :: rest) (fun x hx => h x (by simp [hx]))]
    rfl

/-- The first good pair is a good pair, and no pair before it is one. -/
theorem firstGoodPair_spec (em : ℚ) : ∀ (l : List ℚ) (s : Nat), firstGoodPair em l = some s →
    2 ≤ s ∧ s ≤ l.length ∧
      (∃ a b, l[s - 2]? = some a ∧ l[s - 1]? = some b ∧
        goodMove em a = true ∧ goodMove em b = true) ∧
      ∀ t a b, 2 ≤ t → t < s → l[t - 2]? = some a → l[t - 1]? = some b →
        ¬ (goodMove em a = true ∧ goodMove em b = true)
  | [], s, h => by simp [firstGoodPair] at h
  | [_], s, h => by simp [firstGoodPair] at h
  | a :: b :: rest, s, h => by
    rw [firstGoodPair] at h
    by_cases hg : (goodMove em a && goodMove em b) = true
    · rw [if_pos hg] at h
      cases h
      rw [Bool.and_eq_true] at hg
      refine ⟨le_refl _, by simp, ⟨a, b, by simp, by simp, hg.1, hg.2⟩, ?_⟩
      intro t _ _ h2 hlt
      omega
    · rw [if_neg hg, Option.map_eq_some'] at h
      obtain ⟨s0, hs0, rfl⟩ := h
      obtain ⟨h2, hlen, ⟨x, y, hx, hy, hgx, hgy⟩, hmin⟩ := firstGoodPair_spec em (b :: rest) s0 hs0
      refine ⟨by omega, by simpa using hlen, ⟨x, y, ?_, ?_, hgx, hgy⟩, ?_⟩
      · have : s0 + 1 - 2 = (s0 - 2) + 1 := by omega
        rw [this]; simpa using hx
      · have : s0 + 1 - 1 = (s0 - 1) + 1 := by omega
        rw [this]; simpa using hy
      · intro t x y ht2 hts hx hy
        by_cases ht : t = 2
        · subst ht
          simp at hx hy
          subst hx; subst hy
          rw [Bool.and_eq_true] at hg
          exact hg
        · have e1 : t - 2 = (t - 1 - 2) + 1 := by omega
          have e2 : t - 1 = (t - 1 - 1) + 1 := by omega
          rw [e1] at hx
          rw [e2] at hy
          exact hmin (t - 1) x y (by omega) (by omega) (by simpa using hx) (by simpa using hy)

/-- Conversely, the index of a good pair before which there is none is `firstGoodPair`. -/
theorem firstGoodPair_of_first (em : ℚ) (l : List ℚ) (s : Nat) (h2 : 2 ≤ s)
    (hpair : ∃ a b, l[s - 2]? = some a ∧ l[s - 1]? = some b ∧
      goodMove em a = true ∧ goodMove em b = true)
    (hmin : ∀ t a b, 2 ≤ t → t < s → l[t - 2]? = some a → l[t - 1]? = some b →
      ¬ (goodMove em a = true ∧ goodMove em b = true)) :
    firstGoodPair em l = some s := by
  obtain ⟨a, b, ha, hb, hga, hgb⟩ := hpair
  cases hf : firstGoodPair em l with
  | none =>
    have hp := (firstGoodPair_none_iff em l).1 hf
    have : hasGoodPair em l = true := by
      rw [hasGoodPair_iff]
      refine ⟨s - 2, a, b, ha, ?_, (goodMove_iff em a).1 hga, (goodMove_iff em b).1 hgb⟩
      have : s - 2 + 1 = s - 1 := by omega
      rw [this]; exact hb
    rw [hp] at this
    cases this
  | some k =>
    obtain ⟨hk2, _, ⟨x, y, hx, hy, hgx, hgy⟩, hkmin⟩ := firstGoodPair_spec em l k hf
    rcases Nat.lt_trichotomy k s with hlt | heq | hgt
    · exact absurd ⟨hgx, hgy⟩ (hmin k x y hk2 hlt hx hy)
    · rw [heq]
    · exact absurd ⟨hga, hgb⟩ (hkmin s a b h2 hgt ha hb)

theorem southLoop_one_not_good (em dr nR nD : ℚ) (step : Int) (e b : ℚ) (r : List ℚ)
    (hb : goodMove em b = false) :
    southLoop em dr nR nD step ⟨e, 1, 0, none⟩ (b :: r)
      = southLoop em dr nR nD step ⟨e, 0, 0, none⟩ (b :: r) := by
  have hb2 : ¬ (|b| ≥ em ∧ b < 0) := by
    rw [← goodMove_iff]; simp [hb]
  rw [southLoop, southLoop]
  simp only [if_neg hb2]
  norm_num

/-- The south loop from a zero counter: it stops at the first pair of consecutive good
moves, and without such a pair it ends with a counter below 2 and `blPx` untouched. -/
theorem southLoop_eq (em dr nR nD : ℚ) : ∀ (l : List ℚ) (step : Int) (e : ℚ),
    (∀ s, firstGoodPair em l = some s →
      southLoop em dr nR nD step ⟨e, 0, 0, none⟩ l =
        ⟨e + (l.take s).sum, 2,
          (if ((step + s - 1 : Int) : ℚ) * em
                - |e + (l.take s).sum - ((step + s - 1 : Int) : ℚ) * dr| < 0 then 0
           else ((step + s - 1 : Int) : ℚ) * em
                - |e + (l.take s).sum - ((step + s - 1 : Int) : ℚ) * dr|),
          some (verdictOf (((step + s - 1 : Int) : ℚ) * em
                - |e + (l.take s).sum - ((step + s - 1 : Int) : ℚ) * dr|) nR nD)⟩) ∧
    (firstGoodPair em l = none →
      (southLoop em dr nR nD step ⟨e, 0, 0, none⟩ l).goodSouthMoves < 2 ∧
      (southLoop em dr nR nD step ⟨e, 0, 0, none⟩ l).blPx = 0)
  | [], step, e => by
    simp [firstGoodPair, southLoop]
  | [a], step, e => by
    refine ⟨by simp [firstGoodPair], fun _ => ?_⟩
    rw [southLoop]
    by_cases ha : |a| ≥ em ∧ a < 0
    · simp [ha, southLoop]
    · simp [ha, southLoop]
  | a :: b :: rest, step, e => by
    have ih := southLoop_eq em dr nR nD (b :: rest) (step + 1) (e + a)
    by_cases ha : goodMove em a = true
    · have ha2 := (goodMove_iff em a).1 ha
      have h1 : southLoop em dr nR nD step ⟨e, 0, 0, none⟩ (a :: b :: rest)
          = southLoop em dr nR nD (step + 1) ⟨e + a, 1, 0, none⟩ (b :: rest) := by
        rw [southLoop]
        simp [ha2]
      by_cases hb : goodMove em b = true
      · have hb2 := (goodMove_iff em b).1 hb
        have hf : firstGoodPair em (a :: b :: rest) = some 2 := by
          rw [firstGoodPair]; simp [ha, hb]
        rw [h1, hf]
        refine ⟨?_, by simp⟩
        intro s hs
        cases hs
        rw [southLoop]
        simp only [hb2, and_self, if_true]
        norm_num [verdictOf]
        rw [show (step : ℚ) + 1 = (step : ℚ) + 2 - 1 by ring]
        rw [show e + a + b = e + (a + b) by ring]
        simp
      · have hb1 : goodMove em b = false := by simpa using hb
        have hf : firstGoodPair em (a :: b :: rest)
            = (firstGoodPair em (b :: rest)).map (fun s => s + 1) := by
          rw [firstGoodPair]; simp [hb1]
        rw [h1, southLoop_one_not_good em dr nR nD _ _ _ _ hb1, hf]
        refine ⟨?_, ?_⟩
        · intro s hs
          rw [Option.map_eq_some'] at hs
          obtain ⟨s0, hs0, rfl⟩ := hs
          rw [ih.1 s0 hs0]
          have e1 : (step + 1 + (s0 : Int) - 1) = (step + ((s0 + 1 : Nat) : Int) - 1) := by
            push_cast; ring
          rw [e1]
          have e2 : e + a + (List.take s0 (b :: rest)).sum
              = e + (List.take (s0 + 1) (a :: b :: rest)).sum := by
            simp [List.take_succ_cons]; ring
          rw [e2]
        · intro hn
          rw [Option.map_eq_none'] at hn
          exact ih.2 hn
    · have ha1 : goodMove em a = false := by simpa using ha
      have ha2 : ¬ (|a| ≥ em ∧ a < 0) := by rw [← goodMove_iff]; exact ha
      have h1 : southLoop em dr nR nD step ⟨e, 0, 0, none⟩ (a :: b :: rest)
          = southLoop em dr nR nD (step + 1) ⟨e + a, 0, 0, none⟩ (b :: rest) := by
        rw [southLoop]
        simp only [if_neg ha2]
        norm_num
      have hf : firstGoodPair em (a :: b :: rest)
          = (firstGoodPair em (b :: rest)).map (fun s => s + 1) := by
        rw [firstGoodPair]; simp [ha1]
      rw [h1, hf]
      refine ⟨?_, ?_⟩
      · intro s hs
        rw [Option.map_eq_some'] at hs
        obtain ⟨s0, hs0, rfl⟩ := hs
        rw [ih.1 s0 hs0]
        have e1 : (step + 1 + (s0 : Int) - 1) = (step + ((s0 + 1 : Nat) : Int) - 1) := by
          push_cast; ring
        rw [e1]
        have e2 : e + a + (List.take s0 (b :: rest)).sum
            = e + (List.take (s0 + 1) (a :: b :: rest)).sum := by
          simp [List.take_succ_cons]; ring
        rw [e2]
      · intro hn
        rw [Option.map_eq_none'] at hn
        exact ih.2 hn

/-- On more than 3 north steps and a non-zero pulse width `ComputeBacklashPx` returns, and
its result is read off the state in which the south loop ends. -/
theorem ComputeBacklashPx_eq (n s : List ℚ) (dps : ℚ) (t0 t1 pw : Int) (u : ℚ)
    (hn : 3 < n.length) (hpw : pw ≠ 0) (nRate : ℚ)
    (hR : nRate = |(northDeltaOf n - driftTotalOf dps t0 t1)
        / (((stepDeltas n).length : ℚ) * (pw : ℚ))|)
    (st : SouthLoopState)
    (hst : st = southLoop (expectedMagnitudeOf n) (driftPerFrameOf n dps t0 t1) nRate
        (northDeltaOf n) 1 ⟨0, 0, 0, none⟩ (stepDeltas s)) :
    ComputeBacklashPx n s dps t0 t1 pw u =
      (if st.goodSouthMoves < 2 then some MeasurementResults.MEASUREMENT_TOO_FEW_SOUTH
        else st.rslt).map
        (fun r => ⟨r, st.blPx,
          if nRate = 0 then none else some (cTrunc (st.blPx / nRate)), nRate⟩) := by
  have hlen : (stepDeltas n).length = n.length - 1 := length_stepDeltas n
  have hsl : ((stepDeltas n).insertionSort (fun a b => a ≤ b)).length
      = (stepDeltas n).length := List.length_insertionSort _ _
  have hlt : (stepDeltas n).length / 2 < (stepDeltas n).length := by
    apply Nat.div_lt_self <;> omega
  have hmed : ((stepDeltas n).insertionSort (fun a b => a ≤ b))[
        ((stepDeltas n).insertionSort (fun a b => a ≤ b)).length / 2]?
      = some (((stepDeltas n).insertionSort (fun a b => a ≤ b)).getD
          ((stepDeltas n).length / 2) 0) := by
    rw [hsl, List.getD_eq_getElem?_getD]
    have : (stepDeltas n).length / 2
        < ((stepDeltas n).insertionSort (fun a b => a ≤ b)).length := by rw [hsl]; exact hlt
    rw [List.getElem?_eq_getElem this]
    rfl
  have hcnt : (((stepDeltas n).insertionSort (fun a b => a ≤ b)).length : Int) * pw ≠ 0 := by
    rw [hsl]
    apply mul_ne_zero _ hpw
    have : 0 < (stepDeltas n).length := by omega
    exact_mod_cast this.ne'
  unfold ComputeBacklashPx
  rw [if_pos hn]
  simp only []
  rw [if_neg hcnt, hmed]
  simp only [hsl]
  have hR2 : |((stepDeltas n).sum - dps * ((t1 - t0 : Int) : ℚ) / 1000)
        / ((((stepDeltas n).length : Int) * pw : Int) : ℚ)| = nRate := by
    rw [hR, northDeltaOf, driftTotalOf]
    push_cast
    rfl
  rw [hR2]
  have hst2 : southLoop |9 / 10 * ((stepDeltas n).insertionSort (fun a b => a ≤ b)).getD
        ((stepDeltas n).length / 2) 0|
        (dps * ((t1 - t0 : Int) : ℚ) / 1000 / (((stepDeltas n).length : Int) : ℚ)) nRate
        (stepDeltas n).sum 1 ⟨0, 0, 0, none⟩ (stepDeltas s) = st := by
    rw [hst, expectedMagnitudeOf, driftPerFrameOf, driftTotalOf, northDeltaOf]
    push_cast
    rfl
  rw [hst2]
  by_cases hg : st.goodSouthMoves < 2
  · simp [hg]
  · simp only [if_neg hg]
    cases st.rslt <;> rfl

theorem verdictOf_ne_too_few_south (raw nR nD : ℚ) :
    verdictOf raw nR nD ≠ MeasurementResults.MEASUREMENT_TOO_FEW_SOUTH := by
  unfold verdictOf
  split_ifs <;> decide

/-- The result of `ComputeBacklashPx` when the south deltas hold no pair of consecutive
good moves. -/
theorem ComputeBacklashPx_no_pair (n s : List ℚ) (dps : ℚ) (t0 t1 pw : Int) (u : ℚ)
    (hn : 3 < n.length) (hpw : pw ≠ 0)
    (hf : firstGoodPair (expectedMagnitudeOf n) (stepDeltas s) = none) :
    ∃ ms, ComputeBacklashPx n s dps t0 t1 pw u =
      some ⟨MeasurementResults.MEASUREMENT_TOO_FEW_SOUTH, 0, ms,
        |(northDeltaOf n - driftTotalOf dps t0 t1)
          / (((stepDeltas n).length : ℚ) * (pw : ℚ))|⟩ := by
  have h := (southLoop_eq (expectedMagnitudeOf n) (driftPerFrameOf n dps t0 t1)
    (|(northDeltaOf n - driftTotalOf dps t0 t1) / (((stepDeltas n).length : ℚ) * (pw : ℚ))|)
    (northDeltaOf n) (stepDeltas s) 1 0).2 hf
  rw [ComputeBacklashPx_eq n s dps t0 t1 pw u hn hpw _ rfl _ rfl, if_pos h.1, h.2]
  exact ⟨_, rfl⟩

/-- The result of `ComputeBacklashPx` when the first pair of consecutive good south moves
ends at the 1-based index `k`. -/
theorem ComputeBacklashPx_pair (n s : List ℚ) (dps : ℚ) (t0 t1 pw : Int) (u : ℚ) (k : Nat)
    (hn : 3 < n.length) (hpw : pw ≠ 0)
    (hf : firstGoodPair (expectedMagnitudeOf n) (stepDeltas s) = some k) :
    ∃ r, ComputeBacklashPx n s dps t0 t1 pw u = some r ∧
      r.rslt = verdictOf
          (rawBacklash (expectedMagnitudeOf n) (driftPerFrameOf n dps t0 t1) k (stepDeltas s))
          (|(northDeltaOf n - driftTotalOf dps t0 t1)
            / (((stepDeltas n).length : ℚ) * (pw : ℚ))|) (northDeltaOf n) ∧
      r.bltPx = max (rawBacklash (expectedMagnitudeOf n) (driftPerFrameOf n dps t0 t1) k
          (stepDeltas s)) 0 ∧
      r.northRate = |(northDeltaOf n - driftTotalOf dps t0 t1)
          / (((stepDeltas n).length : ℚ) * (pw : ℚ))| := by
  have hgen := ComputeBacklashPx_eq n s dps t0 t1 pw u hn hpw _ rfl _ rfl
  have h := (southLoop_eq (expectedMagnitudeOf n) (driftPerFrameOf n dps t0 t1)
    (|(northDeltaOf n - driftTotalOf dps t0 t1) / (((stepDeltas n).length : ℚ) * (pw : ℚ))|)
    (northDeltaOf n) (stepDeltas s) 1 0).1 k hf
  have e1 : (((1 : Int) + (k : Int) - 1 : Int) : ℚ) = (k : ℚ) := by
    push_cast; ring
  rw [e1, zero_add] at h
  rw [h] at hgen
  simp only [show ¬ ((2 : Int) < 2) by decide, if_false, Option.map_some'] at hgen
  refine ⟨_, hgen, rfl, ?_, rfl⟩
  show ite _ _ _ = max (rawBacklash _ _ _ _) 0
  unfold rawBacklash
  split_ifs with hneg
  · exact (max_eq_right hneg.le).symm
  · exact (max_eq_left (not_lt.1 hneg)).symm

/-- The reported `bltPx` is never negative, and `bltMs` is the integer part of
`bltPx / northRate` whenever the rate is not zero. -/
theorem ComputeBacklashPx_ms (n s : List ℚ) (dps : ℚ) (t0 t1 pw : Int) (u : ℚ)
    (hn : 3 < n.length) (hpw : pw ≠ 0) :
    ∃ r, ComputeBacklashPx n s dps t0 t1 pw u = some r ∧
      r.northRate = |(northDeltaOf n - driftTotalOf dps t0 t1)
          / (((stepDeltas n).length : ℚ) * (pw : ℚ))| ∧
      0 ≤ r.bltPx ∧
      r.bltMs = if r.northRate = 0 then none else some (cTrunc (r.bltPx / r.northRate)) := by
  have hgen := ComputeBacklashPx_eq n s dps t0 t1 pw u hn hpw _ rfl _ rfl
  cases hf : firstGoodPair (expectedMagnitudeOf n) (stepDeltas s) with
  | none =>
    have h := (southLoop_eq (expectedMagnitudeOf n) (driftPerFrameOf n dps t0 t1)
      (|(northDeltaOf n - driftTotalOf dps t0 t1)
        / (((stepDeltas n).length : ℚ) * (pw : ℚ))|)
      (northDeltaOf n) (stepDeltas s) 1 0).2 hf
    rw [if_pos h.1, h.2] at hgen
    exact ⟨_, hgen, rfl, le_refl _, rfl⟩
  | some k =>
    have h := (southLoop_eq (expectedMagnitudeOf n) (driftPerFrameOf n dps t0 t1)
      (|(northDeltaOf n - driftTotalOf dps t0 t1)
        / (((stepDeltas n).length : ℚ) * (pw : ℚ))|)
      (northDeltaOf n) (stepDeltas s) 1 0).1 k hf
    rw [h] at hgen
    simp only [show ¬ ((2 : Int) < 2) by decide, if_false, Option.map_some'] at hgen
    refine ⟨_, hgen, rfl, ?_, rfl⟩
    show (0 : ℚ) ≤ ite _ _ _
    split_ifs with hneg
    · exact le_refl _
    · exact not_lt.1 hneg

/-- With at most 3 north steps `ComputeBacklashPx` returns `MEASUREMENT_TOO_FEW_NORTH` with
0 px and, as the rate, the value `u` found in its uninitialised local; for `u` not zero the
reported `bltMs` is 0. -/
theorem ComputeBacklashPx_few_north (n s : List ℚ) (dps : ℚ) (t0 t1 pw : Int) (u : ℚ)
    (hn : n.length ≤ 3) (hu : u ≠ 0) :
    ComputeBacklashPx n s dps t0 t1 pw u
      = some ⟨MeasurementResults.MEASUREMENT_TOO_FEW_NORTH, 0, some 0, u⟩ := by
  unfold ComputeBacklashPx
  rw [if_neg (by omega)]
  simp [hu, cTrunc]

theorem northRateOf_eq (n : List ℚ) (dps : ℚ) (t0 t1 pw : Int) (hn : 3 < n.length)
    (hpw : 0 < pw) :
    |(northDeltaOf n - driftTotalOf dps t0 t1) / (((stepDeltas n).length : ℚ) * (pw : ℚ))|
      = northRateOf n dps t0 t1 pw := by
  have hlen : (stepDeltas n).length = n.length - 1 := length_stepDeltas n
  have h1 : (0 : ℚ) < ((stepDeltas n).length : ℚ) := by
    have : 0 < (stepDeltas n).length := by omega
    exact_mod_cast this
  have h2 : (0 : ℚ) < (pw : ℚ) := by exact_mod_cast hpw
  rw [northRateOf, abs_div, abs_of_pos (mul_pos h1 h2)]

end BacklashTool

open BacklashTool MeasurementResults

/-- C27: on more than 3 north steps (and a non-zero pulse width) `ComputeBacklashPx`
returns, and its verdict is TOO_FEW_SOUTH exactly when no two consecutive south deltas are
both negative with magnitude at least `|0.9 * median north delta|`; in that case the
reported backlash is 0 px.  In particular south steps with no negative delta give
TOO_FEW_SOUTH. -/
theorem C27_too_few_south (n s : List ℚ) (dps : ℚ) (t0 t1 pw : Int) (u : ℚ)
    (hn : 3 < n.length) (hpw : pw ≠ 0) :
    ∃ r, ComputeBacklashPx n s dps t0 t1 pw u = some r ∧
      (r.rslt = MEASUREMENT_TOO_FEW_SOUTH ↔
        ¬ ∃ (i : Nat) (a b : ℚ),
          (stepDeltas s)[i]? = some a ∧ (stepDeltas s)[i + 1]? = some b ∧
          (|a| ≥ expectedMagnitudeOf n ∧ a < 0) ∧ (|b| ≥ expectedMagnitudeOf n ∧ b < 0)) ∧
      (r.rslt = MEASUREMENT_TOO_FEW_SOUTH → r.bltPx = 0) ∧
      ((∀ x ∈ stepDeltas s, 0 ≤ x) → r.rslt = MEASUREMENT_TOO_FEW_SOUTH) := by
  rw [← hasGoodPair_iff]
  cases hf : firstGoodPair (expectedMagnitudeOf n) (stepDeltas s) with
  | none =>
    obtain ⟨ms, hr⟩ := ComputeBacklashPx_no_pair n s dps t0 t1 pw u hn hpw hf
    have hp := (firstGoodPair_none_iff _ _).1 hf
    exact ⟨_, hr, ⟨fun _ => by simp [hp], fun _ => rfl⟩, fun _ => rfl, fun _ => rfl⟩
  | some k =>
    obtain ⟨r, hr, hv, _, _⟩ := ComputeBacklashPx_pair n s dps t0 t1 pw u k hn hpw hf
    have hne : r.rslt ≠ MEASUREMENT_TOO_FEW_SOUTH := by
      rw [hv]; exact verdictOf_ne_too_few_south _ _ _
    have hp : hasGoodPair (expectedMagnitudeOf n) (stepDeltas s) = true := by
      cases hh : hasGoodPair (expectedMagnitudeOf n) (stepDeltas s) with
      | true => rfl
      | false =>
        rw [(firstGoodPair_none_iff _ _).2 hh] at hf
        cases hf
    refine ⟨r, hr, ⟨fun h => absurd h hne, fun h => absurd hp h⟩, fun h => absurd h hne, ?_⟩
    intro hnn
    rw [hasGoodPair_of_nonneg _ _ hnn] at hp
    cases hp

/-- C27 (witness): with north steps 0, 5, ..., 25 and south steps 25, 40, 60, 80, 100, 120
(no negative south delta) the verdict is TOO_FEW_SOUTH and the reported backlash is 0 px. -/
theorem C27_too_few_south_witness :
    3 < northWrongWay.length ∧ (500 : Int) ≠ 0 ∧
    ∃ r, ComputeBacklashPx northWrongWay southWrongWay 0 0 1000 500 0 = some r ∧
      r.rslt = MEASUREMENT_TOO_FEW_SOUTH ∧ r.bltPx = 0 := by
  refine ⟨by decide, by decide, ?_⟩
  obtain ⟨r, hr, _, hpx, hnn⟩ :=
    C27_too_few_south northWrongWay southWrongWay 0 0 1000 500 0 (by decide) (by decide)
  have hv := hnn (by decide!)
  exact ⟨r, hr, hv, hpx hv⟩

/-- C28: on more than 3 north steps (and a non-zero pulse width), when the first pair of
consecutive good south deltas ends at the 1-based index `k`, with
`raw = k * |expected| - |(sum of south deltas 1..k) - k * drift_per_frame|` the verdict is
SANITY if `raw * north_rate < -200`, else TOO_FEW_NORTH if `raw >= 0.7 * north_delta`, else
VALID; the reported backlash is `max raw 0`, so it is not negative on VALID. -/
theorem C28_first_good_pair (n s : List ℚ) (dps : ℚ) (t0 t1 pw : Int) (u : ℚ) (k : Nat)
    (hn : 3 < n.length) (hpw : pw ≠ 0)
    (hk : firstGoodPair (expectedMagnitudeOf n) (stepDeltas s) = some k) :
    ∃ r, ComputeBacklashPx n s dps t0 t1 pw u = some r ∧
      r.northRate = |(northDeltaOf n - driftTotalOf dps t0 t1)
          / (((stepDeltas n).length : ℚ) * (pw : ℚ))| ∧
      r.rslt = verdictOf
          (rawBacklash (expectedMagnitudeOf n) (driftPerFrameOf n dps t0 t1) k (stepDeltas s))
          r.northRate (northDeltaOf n) ∧
      r.bltPx = max (rawBacklash (expectedMagnitudeOf n) (driftPerFrameOf n dps t0 t1) k
          (stepDeltas s)) 0 ∧
      (r.rslt = MEASUREMENT_VALID → 0 ≤ r.bltPx) := by
  obtain ⟨r, hr, hv, hpx, hrate⟩ := ComputeBacklashPx_pair n s dps t0 t1 pw u k hn hpw hk
  refine ⟨r, hr, hrate, ?_, hpx, fun _ => ?_⟩
  · rw [hrate]; exact hv
  · rw [hpx]; exact le_max_right _ _

/-- C28 (witness): north steps 0, 5, ..., 20 and south steps 20, 20, 15, 10 with pulse
width 7: the first good pair ends at index 3, the raw backlash is 7/2. -/
theorem C28_first_good_pair_witness :
    3 < northShort.length ∧ (7 : Int) ≠ 0 ∧
    firstGoodPair (expectedMagnitudeOf northShort) (stepDeltas southShort) = some 3 ∧
    rawBacklash (expectedMagnitudeOf northShort) (driftPerFrameOf northShort 0 0 1000) 3
      (stepDeltas southShort) = 7 / 2 ∧
    ∃ r, ComputeBacklashPx northShort southShort 0 0 1000 7 0 = some r ∧
      r.northRate = |(northDeltaOf northShort - driftTotalOf 0 0 1000)
          / (((stepDeltas northShort).length : ℚ) * ((7 : Int) : ℚ))| ∧
      r.rslt = verdictOf
          (rawBacklash (expectedMagnitudeOf northShort) (driftPerFrameOf northShort 0 0 1000) 3
            (stepDeltas southShort))
          r.northRate (northDeltaOf northShort) ∧
      r.bltPx = max (rawBacklash (expectedMagnitudeOf northShort)
          (driftPerFrameOf northShort 0 0 1000) 3 (stepDeltas southShort)) 0 ∧
      (r.rslt = MEASUREMENT_VALID → 0 ≤ r.bltPx) :=
  ⟨by decide, by decide, by decide!, by decide!,
    C28_first_good_pair northShort southShort 0 0 1000 7 0 3 (by decide) (by decide) (by decide!)⟩

/-- C29 (counterexample): north steps 0, 5, ..., 20, south steps 20, 20, 15, 10, no drift and
pulse width 7: the rate is 5/7, the reported backlash is 7/2 px, the quotient is 49/10 whose
nearest integer is 5, and the reported `bltMs` is 4. -/
theorem C29_counterexample :
    3 < northShort.length ∧
    northRateOf northShort 0 0 1000 7 = 5 / 7 ∧
    ComputeBacklashPx northShort southShort 0 0 1000 7 0
      = some ⟨MEASUREMENT_VALID, 7 / 2, some 4, 5 / 7⟩ ∧
    ((7 / 2 : ℚ) / (5 / 7) = 49 / 10) ∧
    ROUND ((7 / 2 : ℚ) / (5 / 7)) = 5 ∧
    |((7 / 2 : ℚ) / (5 / 7)) - ((5 : Int) : ℚ)| < 1 / 2 := by
  refine ⟨by decide, by decide!, by decide!, by norm_num, by decide!, by decide!⟩

/-- C29: on more than 3 north steps, a positive pulse width and a non-zero empirical north
rate `|north_delta - drift_total_px| / (len(north deltas) * pulse_width)`, the reported rate
is that rate and the reported `bltMs` is the quotient of the reported backlash and the
reported rate truncated to an integer (its floor: the quotient is not negative). -/
theorem C29_backlash_ms_truncates (n s : List ℚ) (dps : ℚ) (t0 t1 pw : Int) (u : ℚ)
    (hn : 3 < n.length) (hpw : 0 < pw) (hrate : northRateOf n dps t0 t1 pw ≠ 0) :
    ∃ r, ComputeBacklashPx n s dps t0 t1 pw u = some r ∧
      r.northRate = northRateOf n dps t0 t1 pw ∧
      0 ≤ r.bltPx / r.northRate ∧
      r.bltMs = some ⌊r.bltPx / r.northRate⌋ := by
  obtain ⟨r, hr, hnr, hpx, hms⟩ := ComputeBacklashPx_ms n s dps t0 t1 pw u hn hpw.ne'
  rw [northRateOf_eq n dps t0 t1 pw hn hpw] at hnr
  have hq : 0 ≤ r.bltPx / r.northRate := by
    apply div_nonneg hpx
    rw [hnr, northRateOf_eq n dps t0 t1 pw hn hpw |>.symm]
    exact abs_nonneg _
  refine ⟨r, hr, hnr, hq, ?_⟩
  rw [hms, if_neg (by rw [hnr]; exact hrate), cTrunc, if_pos hq]

/-- C29 (witness): the amended statement at north steps 0, 5, ..., 20, south steps
20, 20, 15, 10, no drift and pulse width 7. -/
theorem C29_backlash_ms_truncates_witness :
    3 < northShort.length ∧ (0 : Int) < 7 ∧ northRateOf northShort 0 0 1000 7 ≠ 0 ∧
    ∃ r, ComputeBacklashPx northShort southShort 0 0 1000 7 0 = some r ∧
      r.northRate = northRateOf northShort 0 0 1000 7 ∧
      0 ≤ r.bltPx / r.northRate ∧
      r.bltMs = some ⌊r.bltPx / r.northRate⌋ :=
  ⟨by decide, by decide, by decide!,
    C29_backlash_ms_truncates northShort southShort 0 0 1000 7 0 (by decide) (by decide)
      (by decide!)⟩

/-- C30 (counterexample): on the happy-path input (north steps 0, 5, ..., 100, zero drift,
pulse width 100, south steps 100, 100, 100, 100, 95, 90) the verdict is VALID and the rate
is 1/20 px/ms, but the reported backlash is 25/2 px, not 27/2, and `bltMs` is 250, not 270. -/
theorem C30_counterexample :
    ComputeBacklashPx northHappy southHappy 0 0 40000 100 0
      = some ⟨MEASUREMENT_VALID, 25 / 2, some 250, 1 / 20⟩ ∧
    (25 / 2 : ℚ) ≠ 27 / 2 ∧ (some 250 : Option Int) ≠ some 270 := by
  refine ⟨by decide!, by norm_num, by decide⟩

/-- C30: on the happy-path input, whatever the start and end times, the twenty north deltas
are 5 px, the expected magnitude is 9/2, the south deltas are 0, 0, 0, -5, -5, the first
good pair ends at index 5 where the raw backlash is `5 * 9/2 - |-10| = 25/2`, and
`ComputeBacklashPx` returns VALID with 25/2 px, 250 ms and the rate 1/20 px/ms (whatever
its uninitialised local holds). -/
theorem C30_happy_path (t0 t1 : Int) (u : ℚ) :
    stepDeltas northHappy = List.replicate 20 5 ∧
    expectedMagnitudeOf northHappy = 9 / 2 ∧
    stepDeltas southHappy = [0, 0, 0, -5, -5] ∧
    firstGoodPair (expectedMagnitudeOf northHappy) (stepDeltas southHappy) = some 5 ∧
    rawBacklash (expectedMagnitudeOf northHappy) (driftPerFrameOf northHappy 0 t0 t1) 5
      (stepDeltas southHappy) = 25 / 2 ∧
    ComputeBacklashPx northHappy southHappy 0 t0 t1 100 u
      = some ⟨MEASUREMENT_VALID, 25 / 2, some 250, 1 / 20⟩ := by
  have hd : driftPerFrameOf northHappy 0 t0 t1 = driftPerFrameOf northHappy 0 0 0 := by
    simp [driftPerFrameOf, driftTotalOf]
  have hc : ComputeBacklashPx northHappy southHappy 0 t0 t1 100 u
      = ComputeBacklashPx northHappy southHappy 0 0 0 100 0 := by
    have hlen : northHappy.length > 3 := by decide
    simp [ComputeBacklashPx, hlen]
  rw [hd, hc]
  refine ⟨by decide!, by decide!, by decide!, by decide!, by decide!, by decide!⟩

end BLC

namespace BLC

namespace RunningStats

/-! ## RunningStats: the online update against the two-pass computation -/

/-- Sum of squared deviations from any centre `m`, by sums of squares and sums. -/
theorem sum_sq_dev (m : ℚ) : ∀ l : List ℚ,
    (l.map (fun x => (x - m) ^ 2)).sum
      = (l.map (fun x => x ^ 2)).sum - 2 * m * l.sum + (l.length : ℚ) * m ^ 2
  | [] => by simp
  | x :: rest => by
    simp only [List.map_cons, List.sum_cons, List.length_cons, sum_sq_dev m rest]
    push_cast
    ring

/-- The fields after feeding a list: 0 for the empty list; otherwise the count, the sum of
squares less `sum^2 / n`, and `sum / n`. -/
theorem feed_eq (r : RunningStats) (l : List ℚ) :
    (l = [] → feed r l = ⟨0, 0, 0⟩) ∧
    (l ≠ [] → feed r l = ⟨(l.length : Int),
      (l.map (fun x => x ^ 2)).sum - l.sum ^ 2 / (l.length : ℚ), l.sum / (l.length : ℚ)⟩) := by
  induction l using List.reverseRecOn with
  | nil => exact ⟨fun _ => rfl, fun h => absurd rfl h⟩
  | append_singleton l x ih =>
    refine ⟨fun h => absurd h (by simp), fun _ => ?_⟩
    have hstep : feed r (l ++ [x]) = (feed r l).AddDelta x := by
      unfold feed
      rw [List.foldl_append]
      rfl
    rw [hstep]
    by_cases hl : l = []
    · subst hl
      rw [ih.1 rfl]
      simp [AddDelta]
    · rw [ih.2 hl]
      have hpos : 0 < l.length := List.length_pos.mpr hl
      have hq : (0 : ℚ) < (l.length : ℚ) := by exact_mod_cast hpos
      have hne1 : ¬ ((l.length : Int) + 1 = 1) := by omega
      unfold AddDelta
      simp only [if_neg hne1]
      have hq1 : ((l.length : ℚ) + 1) ≠ 0 := by positivity
      have hq0 : (l.length : ℚ) ≠ 0 := hq.ne'
      congr 1
      · simp
      · simp only [List.map_append, List.sum_append, List.map_cons, List.map_nil, List.sum_cons,
          List.sum_nil, List.length_append, List.length_singleton, add_zero]
        push_cast
        field_simp
        ring
      · simp only [List.sum_append, List.sum_cons, List.sum_nil, List.length_append,
          List.length_singleton, add_zero]
        push_cast
        field_simp
        ring

end RunningStats

open RunningStats

/-- C31: for every non-empty sequence fed to a reset `RunningStats` through `AddDelta`, in
exact arithmetic: `count` is the number of samples, `currentMean` is the two-pass mean and
`currentSS` is the two-pass sum of squared deviations from that mean; and after `Reset()`
all three fields are 0. -/
theorem C31_running_stats (r : RunningStats) (xs : List ℚ) :
    (xs ≠ [] →
      (feed r xs).count = xs.length ∧
      (feed r xs).currentMean = naiveMean xs ∧
      (feed r xs).currentSS = naiveSS xs) ∧
    r.Reset = ⟨0, 0, 0⟩ := by
  refine ⟨fun hne => ?_, rfl⟩
  rw [(feed_eq r xs).2 hne]
  refine ⟨rfl, rfl, ?_⟩
  have hq : (xs.length : ℚ) ≠ 0 := by
    have := List.length_pos.mpr hne
    positivity
  show _ = naiveSS xs
  unfold naiveSS naiveMean
  rw [sum_sq_dev]
  field_simp
  ring

/-- C31 (witness): the samples 5, 7, 3, 1 fed to statistics that held other values before:
count 4, mean 4, sum of squared deviations 20. -/
theorem C31_running_stats_witness :
    ([5, 7, 3, 1] : List ℚ) ≠ [] ∧
    feed ⟨9, 2, 1⟩ [5, 7, 3, 1] = ⟨4, 20, 4⟩ ∧
    (feed ⟨9, 2, 1⟩ [5, 7, 3, 1]).count = ([5, 7, 3, 1] : List ℚ).length ∧
    (feed ⟨9, 2, 1⟩ [5, 7, 3, 1]).currentMean = naiveMean [5, 7, 3, 1] ∧
    (feed ⟨9, 2, 1⟩ [5, 7, 3, 1]).currentSS = naiveSS [5, 7, 3, 1] :=
  ⟨by decide, by decide!,
    (C31_running_stats ⟨9, 2, 1⟩ [5, 7, 3, 1]).1 (by decide)⟩

end BLC

namespace BLC

namespace BacklashTool

/-! ## ComputeBacklashPx on ideal data -/

/-- With all north deltas equal to `d` the expected magnitude is `|0.9 d|`. -/
theorem expectedMagnitudeOf_const (n : List ℚ) (d : ℚ) (hn : 3 < n.length)
    (hnorth : ∀ x ∈ stepDeltas n, x = d) : expectedMagnitudeOf n = |(9 / 10) * d| := by
  have hlen : (stepDeltas n).length = n.length - 1 := length_stepDeltas n
  have hsl : ((stepDeltas n).insertionSort (fun a b => a ≤ b)).length
      = (stepDeltas n).length := List.length_insertionSort _ _
  have hlt : (stepDeltas n).length / 2
      < ((stepDeltas n).insertionSort (fun a b => a ≤ b)).length := by
    rw [hsl]
    apply Nat.div_lt_self <;> omega
  unfold expectedMagnitudeOf
  rw [List.getD_eq_getElem?_getD, List.getElem?_eq_getElem hlt]
  have hmem := List.getElem_mem hlt
  have hmem2 : ((stepDeltas n).insertionSort (fun a b => a ≤ b))[(stepDeltas n).length / 2]
      ∈ stepDeltas n := (List.perm_insertionSort _ _).subset hmem
  rw [Option.getD_some, hnorth _ hmem2]

/-- The first good pair of `k` idle moves followed by at least two moves of `-d` ends at
index `k + 2`. -/
theorem firstGoodPair_idle_then_south (em d : ℚ) (hem : 0 < em) (hd : em ≤ d) (m : Nat)
    (hm : 2 ≤ m) : ∀ k : Nat,
    firstGoodPair em (List.replicate k 0 ++ List.replicate m (-d)) = some (k + 2)
  | 0 => by
    obtain ⟨m2, rfl⟩ : ∃ m2, m = m2 + 2 := ⟨m - 2, by omega⟩
    have hg : goodMove em (-d) = true := by
      rw [goodMove_iff, abs_neg, abs_of_pos (lt_of_lt_of_le hem hd)]
      exact ⟨hd, by linarith⟩
    simp [List.replicate_succ, firstGoodPair, hg]
  | k + 1 => by
    have ih := firstGoodPair_idle_then_south em d hem hd m hm k
    have h0 : goodMove em 0 = false := by
      simp only [goodMove, decide_eq_false_iff_not, not_and, not_lt, abs_zero]
      intro h
      exact absurd h (not_le.mpr hem)
    obtain ⟨b, rest, hbr⟩ : ∃ b rest, List.replicate k 0 ++ List.replicate m (-d) = b :: rest := by
      cases hl : List.replicate k 0 ++ List.replicate m (-d) with
      | nil =>
        have := congrArg List.length hl
        simp at this
        omega
      | cons b rest => exact ⟨b, rest, rfl⟩
    rw [List.replicate_succ, List.cons_append, hbr, firstGoodPair, h0, Bool.false_and]
    rw [hbr] at ih
    simp [ih]

/-- The sum of the first `k + 2` of `k` idle moves followed by at least two moves of `-d`. -/
theorem sum_take_idle_then_south (d : ℚ) (k m : Nat) (hm : 2 ≤ m) :
    ((List.replicate k (0 : ℚ) ++ List.replicate m (-d)).take (k + 2)).sum = -(2 * d) := by
  obtain ⟨m2, rfl⟩ : ∃ m2, m = m2 + 2 := ⟨m - 2, by omega⟩
  have : (List.replicate k (0 : ℚ) ++ List.replicate (m2 + 2) (-d)).take (k + 2)
      = List.replicate k 0 ++ [-d, -d] := by
    rw [List.take_append_eq_append_take]
    simp [List.replicate_succ]
  rw [this]
  simp
  ring

end BacklashTool

open BacklashTool

/-- C39: for ideal measurement data (at least 4 north steps with every north delta equal to
`d > 0`, zero drift, south deltas made of `k` zeros followed by at least two deltas `-d`,
a non-zero pulse width) the second good move is detected at step `k + 2` and
`ComputeBacklashPx` reports `bltPx = max(0, (k + 2) * 0.9 * d - 2 * d)`, which is
`max(0, (0.9 * k - 0.2) * d)`. -/
theorem C39_ideal_data (n s : List ℚ) (d : ℚ) (k m : Nat) (t0 t1 pw : Int) (u : ℚ)
    (hn : 4 ≤ n.length) (hpw : pw ≠ 0) (hd : 0 < d)
    (hnorth : ∀ x ∈ stepDeltas n, x = d)
    (hsouth : stepDeltas s = List.replicate k 0 ++ List.replicate m (-d)) (hm : 2 ≤ m) :
    firstGoodPair (expectedMagnitudeOf n) (stepDeltas s) = some (k + 2) ∧
    ∃ r, ComputeBacklashPx n s 0 t0 t1 pw u = some r ∧
      r.bltPx = max 0 (((k : ℚ) + 2) * (9 / 10) * d - 2 * d) ∧
      r.bltPx = max 0 (((9 / 10) * (k : ℚ) - 2 / 10) * d) := by
  have hem : expectedMagnitudeOf n = (9 / 10) * d := by
    rw [expectedMagnitudeOf_const n d (by omega) hnorth, abs_of_pos (by linarith)]
  have hfirst : firstGoodPair (expectedMagnitudeOf n) (stepDeltas s) = some (k + 2) := by
    rw [hem, hsouth]
    exact firstGoodPair_idle_then_south _ d (by linarith) (by linarith) m hm k
  refine ⟨hfirst, ?_⟩
  obtain ⟨r, hr, _, hpx, _⟩ := ComputeBacklashPx_pair n s 0 t0 t1 pw u (k + 2) (by omega) hpw hfirst
  have hraw : rawBacklash (expectedMagnitudeOf n) (driftPerFrameOf n 0 t0 t1) (k + 2)
      (stepDeltas s) = ((k : ℚ) + 2) * (9 / 10) * d - 2 * d := by
    unfold rawBacklash
    rw [hem, hsouth, sum_take_idle_then_south d k m hm]
    have hdr : driftPerFrameOf n 0 t0 t1 = 0 := by simp [driftPerFrameOf, driftTotalOf]
    rw [hdr, mul_zero, sub_zero, abs_neg, abs_of_pos (by linarith)]
    push_cast
    ring
  rw [hraw, max_comm] at hpx
  refine ⟨r, hr, hpx, ?_⟩
  rw [hpx]
  congr 1
  ring

/-- C39 (witness): twenty north deltas of 5 px and south deltas 0, 0, 0, -5, -5 (`k = 3`,
`d = 5`): the reported backlash is `max(0, 5 * 4.5 - 10) = 12.5` px. -/
theorem C39_ideal_data_witness :
    4 ≤ northHappy.length ∧ (100 : Int) ≠ 0 ∧ (0 : ℚ) < 5 ∧
    (∀ x ∈ stepDeltas northHappy, x = 5) ∧
    stepDeltas southHappy = List.replicate 3 0 ++ List.replicate 2 (-5) ∧
    firstGoodPair (expectedMagnitudeOf northHappy) (stepDeltas southHappy) = some (3 + 2) ∧
    ∃ r, ComputeBacklashPx northHappy southHappy 0 0 40000 100 0 = some r ∧
      r.bltPx = max 0 ((((3 : Nat) : ℚ) + 2) * (9 / 10) * 5 - 2 * 5) ∧
      r.bltPx = max 0 (((9 / 10) * ((3 : Nat) : ℚ) - 2 / 10) * 5) :=
  ⟨by decide, by decide, by norm_num, by decide!, by decide!,
    C39_ideal_data northHappy southHappy 5 3 2 0 40000 100 0 (by decide) (by decide)
      (by norm_num) (by decide!) (by decide!) (by decide)⟩

end BLC

namespace BLC

/-! ## The learning step: direction of the change, and what it does to the history -/

/-- `SetCompValues` with a request inside `[floor, ceiling]`, `20 <= floor` and
`ceiling <= 8000` stores the request, the floor and the ceiling as given. -/
theorem SetCompValues_keeps (s : BacklashComp) (r f c : Int) (hf20 : 20 ≤ f) (hf : f ≤ r)
    (hc : r ≤ c) (hc8 : c ≤ 8000) :
    (s.SetCompValues r f c).m_pulseWidth = r ∧ (s.SetCompValues r f c).m_adjustmentFloor = f ∧
      (s.SetCompValues r f c).m_adjustmentCeiling = c := by
  have hr : wxMax_iu 0 (wxMin_iu r MAX_COMP_AMOUNT) = r := by
    rw [clampedPulse_of_nonneg (by omega) (by omega)]
    omega
  have hfu : toUInt f = f := toUInt_of_range (by omega) (by omega)
  have hcu : toUInt c = c := toUInt_of_range (by omega) (by omega)
  simp only [BacklashComp.SetCompValues]
  rw [hr]
  refine ⟨rfl, ?_, ?_⟩
  · rw [if_neg]
    rw [hfu]
    unfold MIN_COMP_AMOUNT
    omega
  · rw [if_neg (by omega)]
    unfold wxMin_iu MAX_COMP_AMOUNT
    rw [hcu]
    split_ifs <;> omega

/-- C38: in the learning step, if `20 <= floor <= pulse <= ceiling <= 8000` holds beforehand
and `AdjustmentNeeded` returns the adjustment `a`: the step returns; when `a > 0` the new
pulse lies in `[pulse, ceiling]`, when `a <= 0` it lies in `[floor, pulse]`; and the floor
and the ceiling are unchanged. -/
theorem C38_learning_step_direction (s : BacklashComp) (opts : Nat)
    (yDistance minMove yRate : ℚ) (now : Int) (b : Bool) (h1 : BLCHistory)
    (r : AdjustmentResult)
    (hf20 : 20 ≤ s.m_adjustmentFloor) (hf : s.m_adjustmentFloor ≤ s.m_pulseWidth)
    (hc : s.m_pulseWidth ≤ s.m_adjustmentCeiling) (hc8 : s.m_adjustmentCeiling ≤ 8000)
    (hadd : s.m_pHistory.AddDeflection now
      (if (if yDistance > 0 then DOWN else UP) = s.m_lastDirection then |yDistance|
        else -|yDistance|) (max minMove 0) = some (b, h1))
    (hadj : h1.AdjustmentNeeded
      (if (if yDistance > 0 then DOWN else UP) = s.m_lastDirection then |yDistance|
        else -|yDistance|) (max minMove 0) yRate = some r)
    (hyes : r.adjust = true) :
    ∃ s1, s._TrackBLCResults opts yDistance minMove yRate now = some s1 ∧
      (r.correction > 0 →
        s.m_pulseWidth ≤ s1.m_pulseWidth ∧ s1.m_pulseWidth ≤ s.m_adjustmentCeiling) ∧
      (r.correction ≤ 0 →
        s.m_adjustmentFloor ≤ s1.m_pulseWidth ∧ s1.m_pulseWidth ≤ s.m_pulseWidth) ∧
      s1.m_adjustmentFloor = s.m_adjustmentFloor ∧
      s1.m_adjustmentCeiling = s.m_adjustmentCeiling := by
  obtain ⟨_, _, n3, n4, _, n6, n7⟩ := newBLC_bounds s.m_pulseWidth s.m_adjustmentFloor
    s.m_adjustmentCeiling ((s.m_pulseWidth : ℚ) + r.correction) (by omega) hf hc
  unfold BacklashComp._TrackBLCResults
  dsimp only
  rw [hadd]
  dsimp only
  rw [hadj]
  dsimp only
  rw [if_pos hyes]
  refine ⟨_, rfl, ?_⟩
  obtain ⟨k1, k2, k3⟩ := SetCompValues_keeps { s with m_pHistory := r.hist } _
    s.m_adjustmentFloor s.m_adjustmentCeiling hf20 n3 n4 hc8
  rw [k1, k2, k3]
  refine ⟨fun ha => ⟨n6 (by linarith), n4⟩, fun ha => ⟨n3, n7 (by linarith)⟩, rfl, rfl⟩

/-- C38 (witness): the theorem at `afterFirstMiss` (pulse 500, floor 100, ceiling 1000)
with the second miss `+2` (`yRate = 1/20`): the adjustment is `+60` and the pulse goes
from 500 to 550. -/
theorem C38_learning_step_direction_witness :
    (afterFirstMiss.m_pulseWidth = 500 ∧ afterFirstMiss.m_adjustmentFloor = 100 ∧
      afterFirstMiss.m_adjustmentCeiling = 1000 ∧
      (afterFirstMiss._TrackBLCResults algoMove 2 0 (1 / 20) 4).map (fun t => t.m_pulseWidth)
        = some 550) ∧
    ∃ s1, afterFirstMiss._TrackBLCResults algoMove 2 0 (1 / 20) 4 = some s1 ∧
      (adjUnder.correction > 0 →
        afterFirstMiss.m_pulseWidth ≤ s1.m_pulseWidth ∧
        s1.m_pulseWidth ≤ afterFirstMiss.m_adjustmentCeiling) ∧
      (adjUnder.correction ≤ 0 →
        afterFirstMiss.m_adjustmentFloor ≤ s1.m_pulseWidth ∧
        s1.m_pulseWidth ≤ afterFirstMiss.m_pulseWidth) ∧
      s1.m_adjustmentFloor = afterFirstMiss.m_adjustmentFloor ∧
      s1.m_adjustmentCeiling = afterFirstMiss.m_adjustmentCeiling :=
  ⟨by decide!,
    C38_learning_step_direction afterFirstMiss algoMove 2 0 (1 / 20) 4 true histUnder adjUnder
      (by decide!) (by decide!) (by decide!) (by decide!) (by decide!) (by decide!) rfl⟩

namespace BLCHistory

/-- What the loop of `RemoveOldestOvershoots` keeps: the window flag, a non-empty event
list made of events held before, and `blcIndex` at the last index. -/
theorem RemoveOldestOvershoots.loop_props (k : Nat) (h h2 : BLCHistory)
    (hne : h.blcEvents ≠ []) (hrun : RemoveOldestOvershoots.loop k h = some h2) :
    h2.windowOpen = h.windowOpen ∧ h2.blcEvents ≠ [] ∧
      (∀ e ∈ h2.blcEvents, e ∈ h.blcEvents) ∧ h2.blcEvents.length ≤ h.blcEvents.length ∧
      (h.blcIndex = (h.blcEvents.length : Int) - 1 →
        h2.blcIndex = (h2.blcEvents.length : Int) - 1) := by
  obtain ⟨D, last, hl⟩ : ∃ D last, h.blcEvents = D ++ [last] :=
    ⟨h.blcEvents.dropLast, h.blcEvents.getLast hne, (List.dropLast_append_getLast hne).symm⟩
  rw [RemoveOldestOvershoots.loop_eq k h D last hl] at hrun
  cases hrun
  obtain ⟨pre, post, hD, -, herase⟩ := eraseFirstN_decomp (fun e : BLCEvent => e.initialOvershoot) D k
  have hsub : ∀ e ∈ eraseFirstN (fun e : BLCEvent => e.initialOvershoot) k D, e ∈ D := by
    intro e he
    rw [herase] at he
    rw [hD]
    rcases List.mem_append.mp he with h1 | h1
    · exact List.mem_append_left _ (List.mem_of_mem_filter h1)
    · exact List.mem_append_right _ h1
  have hlen : (eraseFirstN (fun e : BLCEvent => e.initialOvershoot) k D).length ≤ D.length := by
    rw [herase]
    conv_rhs => rw [hD]
    simp only [List.length_append]
    have := List.length_filter_le (fun x : BLCEvent => !x.initialOvershoot) pre
    omega
  refine ⟨rfl, by simp, ?_, ?_, ?_⟩
  · intro e he
    dsimp only at he
    rw [hl]
    rcases List.mem_append.mp he with h1 | h1
    · exact List.mem_append_left _ (hsub e h1)
    · exact List.mem_append_right _ h1
  · dsimp only
    rw [hl]
    simp only [List.length_append, List.length_singleton]
    omega
  · intro hidx
    dsimp only
    split_ifs with hc
    · have hsame : eraseFirstN (fun e : BLCEvent => e.initialOvershoot) k D = D := by
        rcases hc with rfl | hc
        · exact eraseFirstN_zero _ _
        · exact eraseFirstN_of_none _ _ _ (all_false_of_countP_zero _ _ hc)
      rw [hsame, hidx, hl]
    · rfl

/-- The shapes of the history after `AdjustmentNeeded`: untouched (then no adjustment is
reported, and the current event does not have 3 corrections); or the same events with the
window closed; or the result of `RemoveOldestOvershoots(2)` on the closed history. -/
theorem AdjustmentNeeded_shape (h : BLCHistory) (miss minMove yRate : ℚ)
    (r : AdjustmentResult) (hrun : h.AdjustmentNeeded miss minMove yRate = some r) :
    (r.hist = h ∧ r.adjust = false ∧
      (h.blcIndex < 0 ∨ ∃ e, h.blcEvents[h.blcIndex.toNat]? = some e
        ∧ ¬ e.InfoCount = ENTRY_CAPACITY)) ∨
    (h.blcEvents ≠ [] ∧ ∃ li, r.hist = { h with lastIncrease := li, windowOpen := false }) ∨
    (h.blcEvents ≠ [] ∧
      RemoveOldestOvershoots.loop 2 { h with windowOpen := false } = some r.hist) := by
  revert hrun
  unfold AdjustmentNeeded
  by_cases hidx : h.blcIndex ≥ 0
  · rw [if_pos hidx]
    cases hs : h.GetStats HISTORY_DEPTH {} with
    | none => intro hrun; cases hrun
    | some s =>
      dsimp only
      cases he : h.blcEvents[h.blcIndex.toNat]? with
      | none => intro hrun; cases hrun
      | some e =>
        dsimp only
        have hne : h.blcEvents ≠ [] := blcEvents_ne_nil_of_getElem? he
        obtain ⟨h2, e2, w2⟩ := RemoveOldestOvershoots.loop_some (2 : Int).toNat
          { h with windowOpen := false } hne
        have e2b : RemoveOldestOvershoots.loop 2 { h with windowOpen := false } = some h2 := e2
        unfold RemoveOldestOvershoots
        rw [e2]
        dsimp only
        by_cases hc2 : e.InfoCount < 2
        · rw [if_pos hc2]; intro hrun; cases hrun
        rw [if_neg hc2]
        by_cases hmm : |miss| ≥ minMove
        swap
        · rw [if_neg hmm]; intro hrun; cases hrun
          exact Or.inr (Or.inl ⟨hne, _, rfl⟩)
        rw [if_pos hmm]
        by_cases hy : yRate = 0
        · rw [if_pos hy]; intro hrun; cases hrun
        rw [if_neg hy]
        by_cases hmiss : miss > 0
        · rw [if_pos hmiss]
          split_ifs with c1 c2 c3 c4 <;> intro hrun <;> cases hrun <;> first
            | exact Or.inr (Or.inl ⟨hne, _, rfl⟩)
            | exact Or.inl ⟨rfl, rfl, Or.inr ⟨e, rfl, by assumption⟩⟩
        · rw [if_neg hmiss]
          split_ifs with c1 c2 c3 c4 c5 c6 c7 <;> intro hrun <;> cases hrun <;> first
            | exact Or.inr (Or.inl ⟨hne, _, rfl⟩)
            | exact Or.inl ⟨rfl, rfl, Or.inr ⟨e, rfl, by assumption⟩⟩
            | exact Or.inr (Or.inr ⟨hne, e2b⟩)
  · rw [if_neg hidx]
    intro hrun
    cases hrun
    exact Or.inl ⟨rfl, rfl, Or.inl (by omega)⟩

/-- When `AdjustmentNeeded` reports an adjustment, the history afterwards is not empty and
its window is closed. -/
theorem AdjustmentNeeded_adjust (h : BLCHistory) (miss minMove yRate : ℚ)
    (r : AdjustmentResult) (hrun : h.AdjustmentNeeded miss minMove yRate = some r)
    (hyes : r.adjust = true) : r.hist.blcEvents ≠ [] ∧ r.hist.windowOpen = false := by
  rcases AdjustmentNeeded_shape h miss minMove yRate r hrun with ⟨_, hno, _⟩ | ⟨hne, li, hh⟩
    | ⟨hne, hloop⟩
  · rw [hno] at hyes
    exact absurd hyes Bool.false_ne_true
  · rw [hh]
    exact ⟨hne, rfl⟩
  · obtain ⟨p1, p2, _⟩ := RemoveOldestOvershoots.loop_props 2
      { h with windowOpen := false } r.hist hne hloop
    exact ⟨p2, p1⟩

end BLCHistory

/-- What `_TrackBLCResults` leaves alone: the notifications, and when the pulse width
changes the history afterwards is not empty and its window is closed. -/
theorem TrackBLCResults_inner_keeps_history (s s1 : BacklashComp) (opts : Nat)
    (yDistance minMove yRate : ℚ) (now : Int)
    (hrun : s._TrackBLCResults opts yDistance minMove yRate now = some s1) :
    s1.notified = s.notified ∧
    (s1.m_pulseWidth ≠ s.m_pulseWidth →
      s1.m_pHistory.blcEvents ≠ [] ∧ s1.m_pHistory.windowOpen = false) := by
  unfold BacklashComp._TrackBLCResults at hrun
  dsimp only at hrun
  split at hrun
  · exact absurd hrun (by simp)
  · split at hrun
    · exact absurd hrun (by simp)
    · rename_i r hadj
      by_cases hyes : r.adjust = true
      · rw [if_pos hyes] at hrun
        simp only [Option.some.injEq] at hrun
        rw [← hrun]
        exact ⟨rfl, fun _ => BLCHistory.AdjustmentNeeded_adjust _ _ _ _ r hadj hyes⟩
      · rw [if_neg hyes] at hrun
        simp only [Option.some.injEq] at hrun
        rw [← hrun]
        exact ⟨rfl, fun hne => absurd rfl hne⟩

/-- C32 (counterexample): on `afterBigMiss` (pulse 2000, floor 20, ceiling 8000, one event)
a `TrackBLCResults` call reporting a second under-shoot of 20 raises the pulse to 2200, a
change of 200 ms; the history still holds its event and no notification is added, whereas
`SetBacklashPulse(2200, 20, 8000)` on the same state empties the history and notifies. -/
theorem C32_counterexample :
    afterBigMiss.m_pulseWidth = 2000 ∧
    (afterBigMiss.TrackBLCResults algoMove 20 0 (1 / 20) 4).map (fun t => t.m_pulseWidth)
      = some 2200 ∧
    (afterBigMiss.TrackBLCResults algoMove 20 0 (1 / 20) 4).map
        (fun t => t.m_pHistory.blcEvents.length) = some 1 ∧
    (afterBigMiss.TrackBLCResults algoMove 20 0 (1 / 20) 4).map (fun t => t.notified)
      = some afterBigMiss.notified ∧
    (afterBigMiss.SetBacklashPulse 2200 20 8000).m_pulseWidth = 2200 ∧
    (afterBigMiss.SetBacklashPulse 2200 20 8000).m_pHistory.blcEvents = [] ∧
    (afterBigMiss.SetBacklashPulse 2200 20 8000).notified
      = afterBigMiss.notified ++ [GuidingParam.backlashCompAmount 2200] := by
  decide!

/-- C32 (amended): the learning step stores the new pulse through `SetCompValues`, not
through `SetBacklashPulse`: for every `TrackBLCResults` call that returns, no notification
is emitted, and whenever the pulse width changes (by any amount, also by more than 100 ms)
the history is not cleared (it still holds events) and the window is closed afterwards. -/
theorem C32_learning_step_keeps_history (s s1 : BacklashComp) (opts : Nat)
    (yDistance minMove yRate : ℚ) (now : Int)
    (hrun : s.TrackBLCResults opts yDistance minMove yRate now = some s1) :
    s1.notified = s.notified ∧
    (s1.m_pulseWidth ≠ s.m_pulseWidth →
      s1.m_pHistory.blcEvents ≠ [] ∧ s1.m_pHistory.windowOpen = false) := by
  unfold BacklashComp.TrackBLCResults at hrun
  split_ifs at hrun with h1 h2 h3 h4
  · exact TrackBLCResults_inner_keeps_history s s1 opts yDistance minMove yRate now hrun
  all_goals
    simp only [Option.some.injEq] at hrun
    rw [← hrun]
    first
      | exact ⟨rfl, fun hne => absurd rfl hne⟩
      | (unfold BacklashComp.ResetBaseline; rw [if_pos h1]; exact ⟨rfl, fun hne => absurd rfl hne⟩)

/-- C32 (witness): the amended statement at `afterBigMiss`, where the pulse goes from 2000
to 2200. -/
theorem C32_learning_step_keeps_history_witness :
    ((afterBigMiss.TrackBLCResults algoMove 20 0 (1 / 20) 4).getD freshComp).notified
      = afterBigMiss.notified ∧
    (((afterBigMiss.TrackBLCResults algoMove 20 0 (1 / 20) 4).getD freshComp).m_pulseWidth
        ≠ afterBigMiss.m_pulseWidth →
      ((afterBigMiss.TrackBLCResults algoMove 20 0 (1 / 20) 4).getD
          freshComp).m_pHistory.blcEvents ≠ [] ∧
      ((afterBigMiss.TrackBLCResults algoMove 20 0 (1 / 20) 4).getD
          freshComp).m_pHistory.windowOpen = false) :=
  C32_learning_step_keeps_history afterBigMiss
    ((afterBigMiss.TrackBLCResults algoMove 20 0 (1 / 20) 4).getD freshComp)
    algoMove 20 0 (1 / 20) 4 (by decide!)

end BLC

namespace BLC

/-! ## Reachable states of a BacklashComp: the indices of the learning step -/

namespace BLCHistory

theorem LearnInv_new (now : Int) : (BLCHistory.new now).LearnInv :=
  ⟨new_wellFormed now, fun h => absurd rfl h, fun h => absurd h (by simp [BLCHistory.new])⟩

theorem LearnInv_closeWindow (h : BLCHistory) (hi : h.LearnInv) : h.CloseWindow.LearnInv :=
  ⟨hi.1, hi.2.1, fun h => absurd h (by simp [CloseWindow])⟩

theorem LearnInv_clear (h : BLCHistory) : h.ClearHistory.CloseWindow.LearnInv := by
  refine ⟨⟨?_, ?_, ?_⟩, ?_, ?_⟩
  · intro e he
    simp [ClearHistory, CloseWindow] at he
  · simp [ClearHistory, CloseWindow]
  · intro hne
    exact absurd rfl hne
  · intro hne
    exact absurd rfl hne
  · intro hw
    simp [ClearHistory, CloseWindow] at hw

theorem LearnInv_recordNew (h : BLCHistory) (w : Int) (t : ℚ) (hi : h.LearnInv) :
    (h.RecordNewBLC w t).LearnInv := by
  obtain ⟨hw, hne⟩ := RecordNewBLC_wellFormed h w t hi.1
  refine ⟨hw, fun _ => rfl, fun _ => ⟨hne, _, RecordNewBLC_current h w t, ?_⟩⟩
  simp [BLCEvent.InfoCount, BLCEvent.mk1]

/-- `AdjustmentNeeded` on a well-formed history whose current event has at least 2
corrections returns, unless the guide rate is zero. -/
theorem AdjustmentNeeded_isSome (h : BLCHistory) (miss minMove yRate : ℚ) (e : BLCEvent)
    (hw : h.WellFormed) (he : h.blcEvents[h.blcIndex.toNat]? = some e)
    (hidx : 0 ≤ h.blcIndex) (hc2 : 2 ≤ e.InfoCount) (hy : yRate ≠ 0) :
    ∃ r, h.AdjustmentNeeded miss minMove yRate = some r := by
  have hne : h.blcEvents ≠ [] := blcEvents_ne_nil_of_getElem? he
  obtain ⟨st, hst⟩ := GetStats_isSome h hw hne
  obtain ⟨h2, e2, -⟩ := RemoveOldestOvershoots.loop_some (2 : Int).toNat
    { h with windowOpen := false } hne
  unfold AdjustmentNeeded
  rw [if_pos hidx, hst]
  dsimp only
  rw [he]
  dsimp only
  unfold RemoveOldestOvershoots
  rw [e2]
  dsimp only
  rw [if_neg (not_lt.mpr hc2), if_neg hy]
  split_ifs <;> exact ⟨_, rfl⟩

/-- The learning step keeps the history predicate: `AddDeflection` followed by
`AdjustmentNeeded`, on a history with an open window. -/
theorem LearnInv_learning (h h1 : BLCHistory) (w : Int) (miss miss2 minMove yRate : ℚ)
    (b : Bool) (r : AdjustmentResult) (hi : h.LearnInv) (hopen : h.windowOpen = true)
    (hadd : h.AddDeflection w miss minMove = some (b, h1))
    (hadj : h1.AdjustmentNeeded miss2 minMove yRate = some r) : r.hist.LearnInv := by
  obtain ⟨hw, hlast, hwin⟩ := hi
  obtain ⟨hne, e, he, hle⟩ := hwin hopen
  have hidx : 0 ≤ h.blcIndex := (hw.2.2 hne).1
  have hlt : h.blcIndex.toNat < h.blcEvents.length := (List.getElem?_eq_some.mp he).1
  obtain ⟨hw1, hne1⟩ := AddDeflection_wellFormed h h1 w miss minMove b hw hadd
  have hh1 : h1 = { h with
      blcEvents := h.blcEvents.set h.blcIndex.toNat
        (e.AddEventInfo (w - h.timeBase) miss minMove) } := by
    unfold AddDeflection ENTRY_CAPACITY at hadd
    rw [if_pos hidx, he] at hadd
    dsimp only at hadd
    rw [if_pos (by omega)] at hadd
    cases hadd
    rfl
  have hcur : h1.blcEvents[h1.blcIndex.toNat]?
      = some (e.AddEventInfo (w - h.timeBase) miss minMove) := by
    rw [hh1]
    dsimp only
    rw [List.getElem?_set_self hlt]
  have hcnt : (e.AddEventInfo (w - h.timeBase) miss minMove).InfoCount = e.InfoCount + 1 := by
    unfold BLCEvent.InfoCount
    rw [AddEventInfo_corrections e _ miss minMove (by unfold BLCEvent.InfoCount at hle ⊢; omega)]
    simp
  have hlast1 : h1.blcEvents ≠ [] → h1.blcIndex = (h1.blcEvents.length : Int) - 1 := by
    intro _
    rw [hh1]
    dsimp only
    rw [List.length_set]
    exact hlast hne
  rcases AdjustmentNeeded_shape h1 miss2 minMove yRate r hadj with ⟨hsame, _, hc⟩ | ⟨_, li, hh⟩
    | ⟨_, hloop⟩
  · rw [hsame]
    refine ⟨hw1, hlast1, fun _ => ⟨hne1 hne, _, hcur, ?_⟩⟩
    rcases hc with hneg | ⟨e1, he1, hc3⟩
    · have : h1.blcIndex = h.blcIndex := by rw [hh1]
      omega
    · rw [hcur] at he1
      cases he1
      have h1c := (hw.1 e (List.getElem?_mem he)).1
      unfold ENTRY_CAPACITY at hc3
      unfold BLCEvent.InfoCount at hcnt hle hc3 ⊢
      omega
  · rw [hh]
    exact ⟨hw1, hlast1, fun hc => absurd hc (by simp)⟩
  · obtain ⟨p1, p2, p3, p4, p5⟩ := RemoveOldestOvershoots.loop_props 2
      { h1 with windowOpen := false } r.hist (hne1 hne) hloop
    have hidx2 := p5 (hlast1 (hne1 hne))
    refine ⟨⟨fun e he => hw1.1 e (p3 e he), le_trans p4 hw1.2.1, fun hn => ?_⟩,
      fun _ => hidx2, fun hc => ?_⟩
    · have : 0 < r.hist.blcEvents.length := List.length_pos.mpr hn
      omega
    · rw [p1] at hc
      exact absurd hc (by simp)

end BLCHistory

namespace BacklashComp

theorem SetCompValues_history (s : BacklashComp) (r f c : Int) :
    (s.SetCompValues r f c).m_pHistory = s.m_pHistory := rfl

/-- `TrackBLCResults` keeps the history predicate. -/
theorem LearnInv_track (s s1 : BacklashComp) (opts : Nat) (yDistance minMove yRate : ℚ)
    (now : Int) (hi : s.m_pHistory.LearnInv)
    (hrun : s.TrackBLCResults opts yDistance minMove yRate now = some s1) :
    s1.m_pHistory.LearnInv := by
  unfold TrackBLCResults at hrun
  split_ifs at hrun with h1 h2 h3 h4
  · unfold _TrackBLCResults at hrun
    dsimp only at hrun
    split at hrun
    · exact absurd hrun (by simp)
    · rename_i b hh hadd
      split at hrun
      · exact absurd hrun (by simp)
      · rename_i r hadj
        have hr := BLCHistory.LearnInv_learning _ _ _ _ _ _ _ _ r hi h4.1 hadd hadj
        by_cases hyes : r.adjust = true
        · rw [if_pos hyes] at hrun
          simp only [Option.some.injEq] at hrun
          rw [← hrun, SetCompValues_history]
          exact hr
        · rw [if_neg hyes] at hrun
          simp only [Option.some.injEq] at hrun
          rw [← hrun]
          exact hr
  · cases hrun; exact hi
  · cases hrun; exact BLCHistory.LearnInv_closeWindow _ hi
  · cases hrun
    unfold ResetBaseline
    rw [if_pos h1]
    exact BLCHistory.LearnInv_closeWindow _ hi
  · cases hrun; exact hi

/-- Every call keeps the history predicate. -/
theorem LearnInv_applyCompOp (s s1 : BacklashComp) (op : CompOp) (hi : s.m_pHistory.LearnInv)
    (hrun : s.applyCompOp op = some s1) : s1.m_pHistory.LearnInv := by
  cases op with
  | setPulse ms f c =>
    simp only [applyCompOp, Option.some.injEq] at hrun
    rw [← hrun]
    unfold SetBacklashPulse
    dsimp only
    split_ifs
    · exact BLCHistory.LearnInv_clear _
    · exact hi
    · exact hi
  | enableComp b =>
    simp only [applyCompOp, Option.some.injEq] at hrun
    rw [← hrun]
    unfold EnableBacklashComp ResetBaseline
    dsimp only
    split_ifs
    · exact BLCHistory.LearnInv_closeWindow _ hi
    all_goals exact hi
  | resetBaseline =>
    simp only [applyCompOp, Option.some.injEq] at hrun
    rw [← hrun]
    unfold ResetBaseline
    split_ifs
    · exact BLCHistory.LearnInv_closeWindow _ hi
    · exact hi
  | applyComp o d y a n =>
    simp only [applyCompOp, Option.some.injEq] at hrun
    rw [← hrun]
    unfold ApplyBacklashComp
    split_ifs
    · exact hi
    · exact BLCHistory.LearnInv_recordNew _ _ _ hi
    · exact BLCHistory.LearnInv_closeWindow _ hi
    · exact hi
  | trackResult o y m r n =>
    exact LearnInv_track s s1 o y m r n hi hrun

/-- Every sequence of calls that runs to its end keeps the history predicate. -/
theorem LearnInv_runCompOps (ops : List CompOp) :
    ∀ (s s1 : BacklashComp), s.m_pHistory.LearnInv → s.runCompOps ops = some s1 →
      s1.m_pHistory.LearnInv := by
  induction ops with
  | nil =>
    intro s s1 hi hrun
    simp only [runCompOps, Option.some.injEq] at hrun
    rw [← hrun]
    exact hi
  | cons op ops ih =>
    intro s s1 hi hrun
    unfold runCompOps at hrun
    cases hop : s.applyCompOp op with
    | none => rw [hop] at hrun; cases hrun
    | some s2 =>
      rw [hop] at hrun
      exact ih s2 s1 (LearnInv_applyCompOp s s2 op hi hop) hrun

/-- On a state whose history satisfies the predicate, `TrackBLCResults` returns for every
non-zero guide rate: every vector read of the learning step is inside the bounds. -/
theorem TrackBLCResults_isSome (s : BacklashComp) (opts : Nat) (yDistance minMove yRate : ℚ)
    (now : Int) (hi : s.m_pHistory.LearnInv) (hy : yRate ≠ 0) :
    ∃ s1, s.TrackBLCResults opts yDistance minMove yRate now = some s1 := by
  unfold TrackBLCResults
  split_ifs with h1 h2 h3 h4
  · obtain ⟨hw, hlast, hwin⟩ := hi
    obtain ⟨hne, e, he, hle⟩ := hwin h4.1
    unfold _TrackBLCResults
    dsimp only
    obtain ⟨⟨b, hh⟩, hadd⟩ := BLCHistory.AddDeflection_isSome s.m_pHistory now
      (if (if yDistance > 0 then DOWN else UP) = s.m_lastDirection then |yDistance|
        else -|yDistance|) (max minMove 0) hw hne
    obtain ⟨hw1, hne1⟩ := BLCHistory.AddDeflection_wellFormed _ hh now _ _ b hw hadd
    obtain ⟨i0, e1, he1, hc2⟩ := BLCHistory.AddDeflection_current _ hh now _ _ b hw hne hadd
    obtain ⟨r, hadj⟩ := BLCHistory.AdjustmentNeeded_isSome hh
      (if (if yDistance > 0 then DOWN else UP) = s.m_lastDirection then |yDistance|
        else -|yDistance|) (max minMove 0) yRate e1 hw1 he1 i0 hc2 hy
    rw [hadd]
    dsimp only
    rw [hadj]
    dsimp only
    split_ifs <;> exact ⟨_, rfl⟩
  all_goals exact ⟨_, rfl⟩

end BacklashComp

/-- C37: in every state reached from construction through a sequence of
`SetBacklashPulse`, `EnableBacklashComp`, `ResetBaseline`, `ApplyBacklashComp` and
`TrackBLCResults` calls that runs to its end: if the history window is open then the
history is not empty, `blcIndex` is the last index and the current event has 1 or 2
corrections; and `TrackBLCResults` on such a state returns for every non-zero guide rate,
that is, every vector read of the learning step is inside the bounds. -/
theorem C37_learning_indices_in_bounds (lastAmt lastFloor lastCeiling : Int) (enabled : Bool)
    (maxDec now0 : Int) (ops : List CompOp) (s : BacklashComp)
    (hrun : (BacklashComp.new lastAmt lastFloor lastCeiling enabled maxDec now0).runCompOps ops
      = some s) :
    (s.m_pHistory.windowOpen = true →
      s.m_pHistory.blcEvents ≠ [] ∧
      s.m_pHistory.blcIndex = (s.m_pHistory.blcEvents.length : Int) - 1 ∧
      ∃ e, s.m_pHistory.blcEvents[s.m_pHistory.blcIndex.toNat]? = some e ∧
        (e.corrections.length = 1 ∨ e.corrections.length = 2)) ∧
    (∀ (opts : Nat) (yDistance minMove yRate : ℚ) (now : Int), yRate ≠ 0 →
      ∃ s1, s.TrackBLCResults opts yDistance minMove yRate now = some s1) := by
  have h0 : (BacklashComp.new lastAmt lastFloor lastCeiling enabled maxDec now0).m_pHistory.LearnInv :=
    BLCHistory.LearnInv_new now0
  have hi := BacklashComp.LearnInv_runCompOps ops _ s h0 hrun
  refine ⟨fun hopen => ?_, fun opts yDistance minMove yRate now hy =>
    BacklashComp.TrackBLCResults_isSome s opts yDistance minMove yRate now hi hy⟩
  obtain ⟨hw, hlast, hwin⟩ := hi
  obtain ⟨hne, e, he, hle⟩ := hwin hopen
  refine ⟨hne, hlast hne, e, he, ?_⟩
  have h1 := (hw.1 e (List.getElem?_mem he)).1
  unfold BLCEvent.InfoCount at hle
  omega

/-- C37 (witness): the theorem at the sequence `sampleCompOps`, which leads from a fresh
compensator to `afterFirstMiss` (window open, current event with 2 corrections). -/
theorem C37_learning_indices_in_bounds_witness :
    (BacklashComp.new 0 0 0 false 2500 0).runCompOps sampleCompOps = some afterFirstMiss ∧
    (afterFirstMiss.m_pHistory.windowOpen = true →
      afterFirstMiss.m_pHistory.blcEvents ≠ [] ∧
      afterFirstMiss.m_pHistory.blcIndex
        = (afterFirstMiss.m_pHistory.blcEvents.length : Int) - 1 ∧
      ∃ e, afterFirstMiss.m_pHistory.blcEvents[afterFirstMiss.m_pHistory.blcIndex.toNat]?
          = some e ∧
        (e.corrections.length = 1 ∨ e.corrections.length = 2)) ∧
    (∀ (opts : Nat) (yDistance minMove yRate : ℚ) (now : Int), yRate ≠ 0 →
      ∃ s1, afterFirstMiss.TrackBLCResults opts yDistance minMove yRate now = some s1) :=
  ⟨by decide!,
    C37_learning_indices_in_bounds 0 0 0 false 2500 0 sampleCompOps afterFirstMiss (by decide!)⟩

end BLC

namespace BLC

namespace BacklashTool

open BLTState MeasurementResults

/-! ## The measurement state machine -/

/-- A step's calls are quiet when they hold no measurement pulse and no call of
`ComputeBacklashPx`. -/
theorem quiet_append (evs e1 : List BLTEvent) (hn : northPulses e1 = 0)
    (hs : southPulses e1 = 0) (hc : BLTEvent.computeBacklash ∉ e1) :
    northPulses (evs ++ e1) = northPulses evs ∧ southPulses (evs ++ e1) = southPulses evs ∧
      (BLTEvent.computeBacklash ∈ evs ++ e1 ↔ BLTEvent.computeBacklash ∈ evs) := by
  unfold northPulses southPulses at *
  rw [List.countP_append, List.countP_append, hn, hs]
  simp [hc]

/-- What `case BLT_STATE_RESTORE:` leaves alone. -/
theorem caseRestore_keeps (t t1 : BacklashTool) (f : MeasurementFrame) (cur : PHD_Point)
    (e1 : List BLTEvent) (h : caseRestore t f cur = some (t1, e1)) :
    t1.m_backlashResultPx = t.m_backlashResultPx ∧
    t1.m_backlashResultMs = t.m_backlashResultMs ∧ t1.m_northRate = t.m_northRate ∧
    t1.m_northBLSteps = t.m_northBLSteps ∧ t1.m_southBLSteps = t.m_southBLSteps ∧
    t1.m_stats = t.m_stats ∧
    northPulses e1 = 0 ∧ southPulses e1 = 0 ∧ BLTEvent.computeBacklash ∉ e1 ∧
    (t1.m_bltState = t.m_bltState ∨ t1.m_bltState = BLT_STATE_WRAPUP
      ∨ t1.m_bltState = BLT_STATE_COMPLETED) := by
  unfold caseRestore caseWrapup at h
  dsimp only at h
  split at h
  · cases h
  · rename_i t2 hr
    have h2 : t2.m_backlashResultPx = t.m_backlashResultPx ∧
        t2.m_backlashResultMs = t.m_backlashResultMs ∧ t2.m_northRate = t.m_northRate ∧
        t2.m_northBLSteps = t.m_northBLSteps ∧ t2.m_southBLSteps = t.m_southBLSteps ∧
        t2.m_stats = t.m_stats ∧
        (t2.m_bltState = t.m_bltState ∨ t2.m_bltState = BLT_STATE_WRAPUP) := by
      split_ifs at hr <;> cases hr <;> simp
    obtain ⟨a1, a2, a3, a4, a5, a6, a7⟩ := h2
    split_ifs at h
    · cases h
      refine ⟨a1, a2, a3, a4, a5, a6, rfl, rfl, by simp, ?_⟩
      rcases a7 with a7 | a7
      · exact Or.inl a7
      · exact Or.inr (Or.inl a7)
    · cases h
      exact ⟨a1, a2, a3, a4, a5, a6, rfl, rfl, by simp, Or.inr (Or.inr rfl)⟩

theorem AddDelta_count (r : RunningStats) (x : ℚ) : (r.AddDelta x).count = r.count + 1 := by
  unfold RunningStats.AddDelta
  dsimp only
  split_ifs <;> rfl

/-- What `case BLT_STATE_TEST_CORRECTION:` leaves alone, and where it ends. -/
theorem caseTestCorrection_keeps (t t1 : BacklashTool) (f : MeasurementFrame)
    (cur : PHD_Point) (e1 : List BLTEvent) (hs : t.m_bltState = BLT_STATE_TEST_CORRECTION)
    (h : caseTestCorrection t f cur = some (t1, e1)) :
    t1.m_northBLSteps = t.m_northBLSteps ∧ t1.m_southBLSteps = t.m_southBLSteps ∧
    t1.m_stats = t.m_stats ∧ northPulses e1 = 0 ∧ southPulses e1 = 0 ∧
    (t.m_stepCount = 0 → BLTEvent.computeBacklash ∈ e1) ∧
    (t.m_stepCount ≠ 0 →
      BLTEvent.computeBacklash ∉ e1 ∧ t1.m_backlashResultPx = t.m_backlashResultPx ∧
      t1.m_backlashResultMs = t.m_backlashResultMs ∧ t1.m_northRate = t.m_northRate) ∧
    t1.Late := by
  unfold caseTestCorrection at h
  by_cases h0 : t.m_stepCount = 0
  · rw [if_pos h0] at h
    split at h
    · cases h
    · split at h
      · cases h
      · dsimp only at h
        unfold abort at h
        split_ifs at h <;> cases h <;>
          exact ⟨rfl, rfl, rfl, rfl, rfl, fun _ => by simp, fun hne => absurd h0 hne,
            by unfold Late; simp [h0, hs]⟩
  · rw [if_neg h0] at h
    obtain ⟨a1, a2, a3, a4, a5, a6, a7, a8, a9, a10⟩ := caseRestore_keeps _ t1 f cur e1 h
    refine ⟨a4, a5, a6, a7, a8, fun hz => absurd hz h0, fun _ => ⟨a9, a1, a2, a3⟩, ?_⟩
    unfold Late
    rcases a10 with b | b | b
    · exact Or.inr (Or.inl b)
    · exact Or.inr (Or.inr (Or.inl b))
    · exact Or.inr (Or.inr (Or.inr (Or.inl b)))

/-- The two outcomes of `case BLT_STATE_STEP_SOUTH:`: one more south pulse, or the last
south step followed by the first entry of `BLT_STATE_TEST_CORRECTION`. -/
theorem caseStepSouth_cases (t t1 : BacklashTool) (f : MeasurementFrame) (cur : PHD_Point)
    (e1 : List BLTEvent) (h : caseStepSouth t f cur = some (t1, e1)) :
    (t.m_stepCount < t.m_northPulseCount ∧
      t1 = { t with m_southBLSteps := t.m_southBLSteps ++ [cur.Y],
                    m_stepCount := t.m_stepCount + 1 } ∧
      e1 = [BLTEvent.axisMove BLT_STATE_STEP_SOUTH SOUTH t.m_pulseWidth]) ∨
    (¬ t.m_stepCount < t.m_northPulseCount ∧
      t1.m_northBLSteps = t.m_northBLSteps ∧
      t1.m_southBLSteps = t.m_southBLSteps ++ [cur.Y] ∧ t1.m_stats = t.m_stats ∧
      northPulses e1 = 0 ∧ southPulses e1 = 0 ∧ BLTEvent.computeBacklash ∈ e1 ∧ t1.Late) := by
  unfold caseStepSouth at h
  by_cases hlt : t.m_stepCount < t.m_northPulseCount
  · rw [if_pos hlt] at h
    cases h
    exact Or.inl ⟨hlt, rfl, rfl⟩
  · rw [if_neg hlt] at h
    obtain ⟨a1, a2, a3, a4, a5, a6, -, a8⟩ := caseTestCorrection_keeps _ t1 f cur e1 rfl h
    exact Or.inr ⟨hlt, a1, a2, a3, a4, a5, a6 rfl, a8⟩

/-- The effect of the guarded `m_stats.AddDelta(...)` of the north steps. -/
theorem addNorthDelta_spec (t t1 : BacklashTool) (cur : PHD_Point)
    (h : addNorthDelta t cur = some t1) :
    ∃ st : RunningStats, t1 = { t with m_stats := st } ∧
      st.count = t.m_stats.count + (if t.m_stepCount ≥ 1 then 1 else 0) := by
  unfold addNorthDelta at h
  split_ifs at h with hc
  · split at h
    · cases h
    · cases h
      exact ⟨_, rfl, by rw [if_pos hc]; exact AddDelta_count _ _⟩
  · cases h
    exact ⟨t.m_stats, rfl, by rw [if_neg hc, add_zero]⟩

/-- The three outcomes of `case BLT_STATE_STEP_NORTH:`: one more north pulse; an abort; or
the last north step followed by `case BLT_STATE_STEP_SOUTH:` with a zero step count and the
number of north pulses made as the pulse count. -/
theorem caseStepNorth_cases (t t1 : BacklashTool) (f : MeasurementFrame) (cur : PHD_Point)
    (e1 : List BLTEvent) (h : caseStepNorth t f cur = some (t1, e1)) :
    (t1.m_bltState = t.m_bltState ∧ t1.m_northBLSteps = t.m_northBLSteps ++ [cur.Y] ∧
      t1.m_southBLSteps = t.m_southBLSteps ∧ t1.m_stepCount = t.m_stepCount + 1 ∧
      t1.m_stats.count = t.m_stats.count + (if t.m_stepCount ≥ 1 then 1 else 0) ∧
      ∃ pw, e1 = [BLTEvent.axisMove BLT_STATE_STEP_NORTH NORTH pw]) ∨
    (t1.m_bltState = BLT_STATE_ABORTED ∧ e1 = [BLTEvent.cleanUp]) ∨
    (∃ tm, caseStepSouth tm f cur = some (t1, e1) ∧
      tm.m_bltState = BLT_STATE_STEP_SOUTH ∧
      tm.m_northBLSteps = t.m_northBLSteps ++ [cur.Y] ∧ tm.m_southBLSteps = t.m_southBLSteps ∧
      tm.m_stats.count = t.m_stats.count + (if t.m_stepCount ≥ 1 then 1 else 0) ∧
      tm.m_northPulseCount = t.m_stepCount ∧ tm.m_stepCount = 0) := by
  unfold caseStepNorth at h
  by_cases hc : t.m_stepCount < t.m_northPulseCount ∧ OutOfRoom f = false
  · rw [if_pos hc] at h
    cases hadd : addNorthDelta t cur with
    | none => rw [hadd] at h; cases h
    | some t2 =>
      rw [hadd] at h
      obtain ⟨st, rfl, hst⟩ := addNorthDelta_spec t t2 cur hadd
      dsimp only at h
      refine Or.inl ?_
      by_cases h1 : t.m_stepCount ≥ 1
      · rw [if_pos h1] at h
        cases h
        exact ⟨rfl, rfl, rfl, rfl, hst, _, rfl⟩
      · rw [if_neg h1] at h
        cases h
        exact ⟨rfl, rfl, rfl, rfl, hst, _, rfl⟩
  · rw [if_neg hc] at h
    cases hadd : addNorthDelta { t with m_msmtEndTime := f.utcTimeMillis } cur with
    | none => rw [hadd] at h; cases h
    | some t2 =>
      rw [hadd] at h
      obtain ⟨st, rfl, hst⟩ := addNorthDelta_spec _ t2 cur hadd
      dsimp only at h hst
      split_ifs at h with hab
      · unfold abort at h
        cases h
        exact Or.inr (Or.inl ⟨rfl, rfl⟩)
      · exact Or.inr (Or.inr ⟨_, h, rfl, rfl, rfl, hst, rfl, rfl⟩)

/-- What the preparation of the north steps sets. -/
theorem prepareNorth_spec (k : MeasurementConstants) (t tp : BacklashTool)
    (f : MeasurementFrame) (h : prepareNorth k t f = some tp) :
    tp.m_bltState = BLT_STATE_STEP_NORTH ∧ tp.m_stepCount = 0 ∧
    tp.m_northBLSteps = t.m_northBLSteps ∧ tp.m_southBLSteps = t.m_southBLSteps ∧
    tp.m_stats = t.m_stats := by
  unfold prepareNorth at h
  dsimp only at h
  split_ifs at h
  cases h
  exact ⟨rfl, rfl, rfl, rfl, rfl⟩

/-- The three outcomes of `case BLT_STATE_CLEAR_NORTH:`: one more clearing pulse (or the
first one); an abort; or the preparation of the north steps followed by
`case BLT_STATE_STEP_NORTH:`. -/
theorem caseClearNorth_cases (k : MeasurementConstants) (t t1 : BacklashTool)
    (f : MeasurementFrame) (cur : PHD_Point) (decDelta : ℚ) (e1 : List BLTEvent)
    (h : caseClearNorth k t f cur decDelta = some (t1, e1)) :
    (t1.m_bltState = t.m_bltState ∧ t1.m_northBLSteps = t.m_northBLSteps ∧
      t1.m_southBLSteps = t.m_southBLSteps ∧ t1.m_stats = t.m_stats ∧
      ∃ pw, e1 = [BLTEvent.axisMove BLT_STATE_CLEAR_NORTH NORTH pw]) ∨
    (t1.m_bltState = BLT_STATE_ABORTED ∧ e1 = [BLTEvent.cleanUp]) ∨
    (∃ tp, caseStepNorth tp f cur = some (t1, e1) ∧
      tp.m_bltState = BLT_STATE_STEP_NORTH ∧ tp.m_stepCount = 0 ∧
      tp.m_northBLSteps = t.m_northBLSteps ∧ tp.m_southBLSteps = t.m_southBLSteps ∧
      tp.m_stats = t.m_stats) := by
  have leave : ∀ (t2 : BacklashTool),
      (t2.m_acceptedMoves ≥ k.BACKLASH_MIN_COUNT ∨ t2.m_backlashExemption = true
        ∨ OutOfRoom f = true) →
      leaveClearNorth k t2 f cur = some (t1, e1) →
      ∃ tp, caseStepNorth tp f cur = some (t1, e1) ∧
        tp.m_bltState = BLT_STATE_STEP_NORTH ∧ tp.m_stepCount = 0 ∧
        tp.m_northBLSteps = t2.m_northBLSteps ∧ tp.m_southBLSteps = t2.m_southBLSteps ∧
        tp.m_stats = t2.m_stats := by
    intro t2 hc hl
    unfold leaveClearNorth at hl
    rw [if_pos hc] at hl
    split at hl
    · cases hl
    · rename_i tp hp
      exact ⟨tp, hl, prepareNorth_spec k t2 tp f hp⟩
  unfold caseClearNorth at h
  by_cases c0 : t.m_stepCount = 0
  · rw [if_pos c0] at h
    cases h
    exact Or.inl ⟨rfl, rfl, rfl, rfl, _, rfl⟩
  · rw [if_neg c0] at h
    dsimp only at h
    by_cases c1 : acceptedAfter k t decDelta < k.BACKLASH_MIN_COUNT
    · rw [if_pos c1] at h
      by_cases c2 : t.m_stepCount < k.MAX_CLEARING_STEPS
      · rw [if_pos c2] at h
        by_cases c3 : |t.m_cumClearingDistance| > (k.BACKLASH_EXEMPTION_DISTANCE : ℚ)
        · rw [if_pos c3] at h
          exact Or.inr (Or.inr (leave
            { t with m_acceptedMoves := acceptedAfter k t decDelta, m_backlashExemption := true }
            (Or.inr (Or.inl rfl)) h))
        · rw [if_neg c3] at h
          by_cases c4 : OutOfRoom f = false
          · rw [if_pos c4] at h
            cases h
            exact Or.inl ⟨rfl, rfl, rfl, rfl, _, rfl⟩
          · rw [if_neg c4] at h
            refine Or.inr (Or.inr (leave
              { t with m_acceptedMoves := acceptedAfter k t decDelta }
              (Or.inr (Or.inr ?_)) h))
            simpa using c4
      · rw [if_neg c2] at h
        unfold abort at h
        cases h
        exact Or.inr (Or.inl ⟨rfl, rfl⟩)
    · rw [if_neg c1] at h
      exact Or.inr (Or.inr (leave { t with m_acceptedMoves := acceptedAfter k t decDelta }
        (Or.inl (not_lt.mp c1)) h))

/-- A step from a late state: the state stays late, the stored results and the rate are
unchanged and `ComputeBacklashPx` is not called. -/
theorem DecMeasurementStep_late (k : MeasurementConstants) (t t1 : BacklashTool)
    (f : MeasurementFrame) (e1 : List BLTEvent) (hl : t.Late)
    (h : DecMeasurementStep k t f = some (t1, e1)) :
    t1.Late ∧ t1.m_backlashResultPx = t.m_backlashResultPx ∧
    t1.m_backlashResultMs = t.m_backlashResultMs ∧ t1.m_northRate = t.m_northRate ∧
    BLTEvent.computeBacklash ∉ e1 ∧
    t1.m_northBLSteps = t.m_northBLSteps ∧ t1.m_southBLSteps = t.m_southBLSteps ∧
    t1.m_stats = t.m_stats ∧ northPulses e1 = 0 ∧ southPulses e1 = 0 := by
  unfold DecMeasurementStep at h
  cases hm : f.currMountLocation with
  | none =>
    rw [hm] at h
    unfold abort at h
    cases h
    exact ⟨Or.inr (Or.inr (Or.inr (Or.inr rfl))), rfl, rfl, rfl, by simp, rfl, rfl, rfl, rfl,
      rfl⟩
  | some cur =>
    rw [hm] at h
    have hne : t.m_bltState ≠ BLT_STATE_INITIALIZE := by
      rcases hl with ⟨hs, _⟩ | hs | hs | hs | hs <;> rw [hs] <;> decide
    simp only [if_pos hne] at h
    rcases hl with ⟨hs, hsc⟩ | hs | hs | hs | hs
    · simp only [hs] at h
      obtain ⟨a1, a2, a3, a4, a5, -, a7, a8⟩ := caseTestCorrection_keeps _ t1 f cur e1 rfl h
      obtain ⟨b1, b2, b3, b4⟩ := a7 hsc
      exact ⟨a8, b2, b3, b4, b1, a1, a2, a3, a4, a5⟩
    · simp only [hs] at h
      obtain ⟨a1, a2, a3, a4, a5, a6, a7, a8, a9, a10⟩ := caseRestore_keeps _ t1 f cur e1 h
      refine ⟨?_, a1, a2, a3, a9, a4, a5, a6, a7, a8⟩
      rcases a10 with b | b | b
      · exact Or.inr (Or.inl b)
      · exact Or.inr (Or.inr (Or.inl b))
      · exact Or.inr (Or.inr (Or.inr (Or.inl b)))
    · simp only [hs] at h
      unfold caseWrapup at h
      cases h
      exact ⟨Or.inr (Or.inr (Or.inr (Or.inl rfl))), rfl, rfl, rfl, by simp, rfl, rfl, rfl,
        rfl, rfl⟩
    · simp only [hs] at h
      cases h
      exact ⟨Or.inr (Or.inr (Or.inr (Or.inl rfl))), rfl, rfl, rfl, by simp, rfl, rfl, rfl,
        rfl, rfl⟩
    · simp only [hs] at h
      cases h
      exact ⟨Or.inr (Or.inr (Or.inr (Or.inr rfl))), rfl, rfl, rfl, by simp, rfl, rfl, rfl,
        rfl, rfl⟩

/-- Any number of steps from a late state: the state stays late, the stored results and the
rate are unchanged, and `ComputeBacklashPx` is not called again. -/
theorem runSteps_late (k : MeasurementConstants) (fs : List MeasurementFrame) :
    ∀ (t t1 : BacklashTool) (evs e1 : List BLTEvent), t.Late →
      runSteps k t evs fs = some (t1, e1) →
      t1.Late ∧ t1.m_backlashResultPx = t.m_backlashResultPx ∧
      t1.m_backlashResultMs = t.m_backlashResultMs ∧ t1.m_northRate = t.m_northRate ∧
      (BLTEvent.computeBacklash ∈ e1 → BLTEvent.computeBacklash ∈ evs) := by
  induction fs with
  | nil =>
    intro t t1 evs e1 hl h
    simp only [runSteps, Option.some.injEq, Prod.mk.injEq] at h
    obtain ⟨rfl, rfl⟩ := h
    exact ⟨hl, rfl, rfl, rfl, id⟩
  | cons f fs ih =>
    intro t t1 evs e1 hl h
    unfold runSteps at h
    cases hstep : DecMeasurementStep k t f with
    | none => rw [hstep] at h; cases h
    | some r =>
      obtain ⟨t2, e2⟩ := r
      rw [hstep] at h
      dsimp only at h
      obtain ⟨a1, a2, a3, a4, a5, -⟩ := DecMeasurementStep_late k t t2 f e2 hl hstep
      obtain ⟨b1, b2, b3, b4, b5⟩ := ih t2 t1 (evs ++ e2) e1 a1 h
      refine ⟨b1, b2.trans a2, b3.trans a3, b4.trans a4, fun hc => ?_⟩
      rcases List.mem_append.mp (b5 hc) with hh | hh
      · exact hh
      · exact absurd hh a5

/-! ### The run invariant -/

theorem northPulses_append (a b : List BLTEvent) :
    northPulses (a ++ b) = northPulses a + northPulses b := by
  unfold northPulses
  exact List.countP_append _ _ _

theorem southPulses_append (a b : List BLTEvent) :
    southPulses (a ++ b) = southPulses a + southPulses b := by
  unfold southPulses
  exact List.countP_append _ _ _

theorem RunInv_pre (t : BacklashTool) (evs : List BLTEvent)
    (hs : t.m_bltState = BLT_STATE_INITIALIZE ∨ t.m_bltState = BLT_STATE_CLEAR_NORTH) :
    t.RunInv evs ↔
      (BLTEvent.computeBacklash ∉ evs ∧ northPulses evs = 0 ∧ southPulses evs = 0 ∧
        t.m_northBLSteps = [] ∧ t.m_southBLSteps = [] ∧ t.m_stats.count = 0) := by
  rcases hs with h | h <;> simp only [RunInv, h]

theorem RunInv_north (t : BacklashTool) (evs : List BLTEvent)
    (hs : t.m_bltState = BLT_STATE_STEP_NORTH) :
    t.RunInv evs ↔
      (BLTEvent.computeBacklash ∉ evs ∧ southPulses evs = 0 ∧ t.m_southBLSteps = [] ∧
        t.m_stepCount = (northPulses evs : Int) ∧ t.m_northBLSteps.length = northPulses evs ∧
        1 ≤ northPulses evs ∧ t.m_stats.count = (northPulses evs : Int) - 1) := by
  simp only [RunInv, hs]

theorem RunInv_south (t : BacklashTool) (evs : List BLTEvent)
    (hs : t.m_bltState = BLT_STATE_STEP_SOUTH) :
    t.RunInv evs ↔
      (BLTEvent.computeBacklash ∉ evs ∧ t.m_northBLSteps.length = northPulses evs + 1 ∧
        t.m_stats.count = (northPulses evs : Int) ∧
        t.m_northPulseCount = (northPulses evs : Int) ∧
        t.m_stepCount = (southPulses evs : Int) ∧ t.m_southBLSteps.length = southPulses evs ∧
        1 ≤ southPulses evs ∧ southPulses evs ≤ northPulses evs ∧
        t.m_northBLSteps.getLast? = t.m_southBLSteps.head?) := by
  simp only [RunInv, hs]

theorem RunInv_aborted (t : BacklashTool) (evs : List BLTEvent)
    (hs : t.m_bltState = BLT_STATE_ABORTED) :
    t.RunInv evs ↔ (BLTEvent.computeBacklash ∈ evs → t.Measured evs) := by
  simp only [RunInv, hs]

theorem RunInv_after (t : BacklashTool) (evs : List BLTEvent)
    (hs : t.m_bltState = BLT_STATE_TEST_CORRECTION ∨ t.m_bltState = BLT_STATE_RESTORE
      ∨ t.m_bltState = BLT_STATE_WRAPUP ∨ t.m_bltState = BLT_STATE_COMPLETED) :
    t.RunInv evs ↔ (BLTEvent.computeBacklash ∈ evs ∧ t.Measured evs) := by
  rcases hs with h | h | h | h <;> simp only [RunInv, h]

/-- Under the run invariant, once `ComputeBacklashPx` has been called the lists are
`Measured`. -/
theorem RunInv_measured (t : BacklashTool) (evs : List BLTEvent) (hi : t.RunInv evs)
    (hc : BLTEvent.computeBacklash ∈ evs) : t.Measured evs := by
  cases hs : t.m_bltState
  · exact absurd hc ((RunInv_pre t evs (Or.inl hs)).1 hi).1
  · exact absurd hc ((RunInv_pre t evs (Or.inr hs)).1 hi).1
  · exact absurd hc ((RunInv_north t evs hs).1 hi).1
  · exact absurd hc ((RunInv_south t evs hs).1 hi).1
  · exact (RunInv_aborted t evs hs).1 hi hc
  · exact ((RunInv_after t evs (Or.inl hs)).1 hi).2
  · exact ((RunInv_after t evs (Or.inr (Or.inl hs))).1 hi).2
  · exact ((RunInv_after t evs (Or.inr (Or.inr (Or.inl hs)))).1 hi).2
  · exact ((RunInv_after t evs (Or.inr (Or.inr (Or.inr hs)))).1 hi).2

theorem Measured_congr (t t1 : BacklashTool) (evs e1 : List BLTEvent)
    (hn : t1.m_northBLSteps = t.m_northBLSteps) (hso : t1.m_southBLSteps = t.m_southBLSteps)
    (hst : t1.m_stats = t.m_stats) (h1 : northPulses e1 = 0) (h2 : southPulses e1 = 0)
    (hm : t.Measured evs) : t1.Measured (evs ++ e1) := by
  unfold Measured at *
  rw [northPulses_append, southPulses_append, h1, h2, hn, hso, hst]
  exact hm

/-- A late state with `ComputeBacklashPx` called and `Measured` lists satisfies the run
invariant. -/
theorem RunInv_of_late (t : BacklashTool) (evs : List BLTEvent) (hl : t.Late)
    (hc : BLTEvent.computeBacklash ∈ evs) (hm : t.Measured evs) : t.RunInv evs := by
  rcases hl with ⟨hs, _⟩ | hs | hs | hs | hs
  · exact (RunInv_after t evs (Or.inl hs)).2 ⟨hc, hm⟩
  · exact (RunInv_after t evs (Or.inr (Or.inl hs))).2 ⟨hc, hm⟩
  · exact (RunInv_after t evs (Or.inr (Or.inr (Or.inl hs)))).2 ⟨hc, hm⟩
  · exact (RunInv_after t evs (Or.inr (Or.inr (Or.inr hs)))).2 ⟨hc, hm⟩
  · exact (RunInv_aborted t evs hs).2 (fun _ => hm)

/-- The run invariant after `case BLT_STATE_STEP_SOUTH:` entered with as many south steps
as south pulses. -/
theorem caseStepSouth_inv (t t1 : BacklashTool) (f : MeasurementFrame) (cur : PHD_Point)
    (evs e1 : List BLTEvent) (hs : t.m_bltState = BLT_STATE_STEP_SOUTH)
    (hc : BLTEvent.computeBacklash ∉ evs)
    (hn : t.m_northBLSteps.length = northPulses evs + 1)
    (hst : t.m_stats.count = (northPulses evs : Int))
    (hnp : t.m_northPulseCount = (northPulses evs : Int))
    (hsc : t.m_stepCount = (southPulses evs : Int))
    (hsl : t.m_southBLSteps.length = southPulses evs)
    (hle : southPulses evs ≤ northPulses evs)
    (hlast : t.m_northBLSteps.getLast? = (t.m_southBLSteps ++ [cur.Y]).head?)
    (h : caseStepSouth t f cur = some (t1, e1)) : t1.RunInv (evs ++ e1) := by
  rcases caseStepSouth_cases t t1 f cur e1 h with ⟨hlt, rfl, rfl⟩ | ⟨hge, a1, a2, a3, a4, a5, a6, a7⟩
  · refine (RunInv_south _ _ (by exact hs)).2 ?_
    have hs1 : southPulses [BLTEvent.axisMove BLT_STATE_STEP_SOUTH SOUTH t.m_pulseWidth] = 1 :=
      rfl
    have hn1 : northPulses [BLTEvent.axisMove BLT_STATE_STEP_SOUTH SOUTH t.m_pulseWidth] = 0 :=
      rfl
    rw [northPulses_append, southPulses_append, hs1, hn1]
    dsimp only
    refine ⟨by simp [hc], hn, hst, hnp, by rw [hsc]; push_cast; ring, by simp [hsl],
      by omega, by omega, hlast⟩
  · apply RunInv_of_late t1 _ a7 (List.mem_append_right _ a6)
    unfold Measured
    rw [northPulses_append, southPulses_append, a4, a5, a1, a2, a3]
    have : southPulses evs = northPulses evs := by omega
    refine ⟨by omega, hn, by simp [hsl]; omega, hlast, hst⟩

/-- The run invariant after `case BLT_STATE_STEP_NORTH:` entered with as many north steps
as north pulses. -/
theorem caseStepNorth_inv (t t1 : BacklashTool) (f : MeasurementFrame) (cur : PHD_Point)
    (evs e1 : List BLTEvent) (hs : t.m_bltState = BLT_STATE_STEP_NORTH)
    (hc : BLTEvent.computeBacklash ∉ evs) (hsp : southPulses evs = 0)
    (hso : t.m_southBLSteps = [])
    (hsc : t.m_stepCount = (northPulses evs : Int))
    (hn : t.m_northBLSteps.length = northPulses evs)
    (hst : t.m_stats.count + (if t.m_stepCount ≥ 1 then 1 else 0) = (northPulses evs : Int))
    (h : caseStepNorth t f cur = some (t1, e1)) : t1.RunInv (evs ++ e1) := by
  rcases caseStepNorth_cases t t1 f cur e1 h with ⟨a1, a2, a3, a4, a5, pw, rfl⟩ | ⟨a1, rfl⟩
    | ⟨tm, hm, b0, b1, b2, b3, b4, b5⟩
  · refine (RunInv_north _ _ (a1.trans hs)).2 ?_
    have hn1 : northPulses [BLTEvent.axisMove BLT_STATE_STEP_NORTH NORTH pw] = 1 := rfl
    have hs1 : southPulses [BLTEvent.axisMove BLT_STATE_STEP_NORTH NORTH pw] = 0 := rfl
    rw [northPulses_append, southPulses_append, hn1, hs1, a2, a3, a4, a5]
    refine ⟨by simp [hc], hsp, hso, by rw [hsc]; push_cast; ring, by simp [hn], by omega, ?_⟩
    rw [hst]
    push_cast
    ring
  · refine (RunInv_aborted _ _ a1).2 ?_
    intro hmem
    simp [hc] at hmem
  · apply caseStepSouth_inv tm t1 f cur evs e1 b0 hc
    · rw [b1]; simp [hn]
    · rw [b3]; exact hst
    · rw [b4]; exact hsc
    · rw [b5, hsp]; rfl
    · rw [b2, hso, hsp]; rfl
    · omega
    · rw [b1, b2, hso]
      simp
    · exact hm

/-- Every step keeps the run invariant. -/
theorem DecMeasurementStep_inv (k : MeasurementConstants) (t t1 : BacklashTool)
    (f : MeasurementFrame) (evs e1 : List BLTEvent) (hi : t.RunInv evs)
    (h : DecMeasurementStep k t f = some (t1, e1)) : t1.RunInv (evs ++ e1) := by
  unfold DecMeasurementStep at h
  cases hm : f.currMountLocation with
  | none =>
    rw [hm] at h
    unfold abort at h
    cases h
    refine (RunInv_aborted _ _ rfl).2 ?_
    intro hc
    have hc1 : BLTEvent.computeBacklash ∈ evs := by simpa using hc
    exact Measured_congr t _ evs _ rfl rfl rfl rfl rfl (RunInv_measured t evs hi hc1)
  | some cur =>
    rw [hm] at h
    cases hs : t.m_bltState
    · -- INITIALIZE
      obtain ⟨p1, p2, p3, p4, p5, p6⟩ := (RunInv_pre t evs (Or.inl hs)).1 hi
      simp only [hs, ne_eq, not_true_eq_false, if_false] at h
      unfold caseInitialize at h
      dsimp only at h
      split_ifs at h <;> cases h <;> rw [List.append_nil] <;> first
        | exact (RunInv_pre _ _ (Or.inr rfl)).2 ⟨p1, p2, p3, p4, p5, p6⟩
        | exact (RunInv_aborted _ _ rfl).2 (fun hc => absurd hc p1)
    · -- CLEAR_NORTH
      obtain ⟨p1, p2, p3, p4, p5, p6⟩ := (RunInv_pre t evs (Or.inr hs)).1 hi
      have hne : t.m_bltState ≠ BLT_STATE_INITIALIZE := by rw [hs]; decide
      simp only [if_pos hne] at h
      simp only [hs] at h
      rcases caseClearNorth_cases k _ t1 f cur _ e1 h with ⟨a1, a2, a3, a4, pw, rfl⟩ | ⟨a1, rfl⟩
        | ⟨tp, hp, b1, b2, b3, b4, b5⟩
      · refine (RunInv_pre _ _ (Or.inr a1)).2 ?_
        rw [northPulses_append, southPulses_append, a2, a3, a4]
        exact ⟨by simp [p1], by rw [p2]; rfl, by rw [p3]; rfl, p4, p5, p6⟩
      · refine (RunInv_aborted _ _ a1).2 ?_
        intro hc
        simp [p1] at hc
      · apply caseStepNorth_inv tp t1 f cur evs e1 b1 p1 p3
        · rw [b4]; exact p5
        · rw [b2, p2]; rfl
        · rw [b3, p2]; exact congrArg List.length p4
        · rw [b5, b2, p2]
          simp [p6]
        · exact hp
    · -- STEP_NORTH
      obtain ⟨p1, p2, p3, p4, p5, p6, p7⟩ := (RunInv_north t evs hs).1 hi
      have hne : t.m_bltState ≠ BLT_STATE_INITIALIZE := by rw [hs]; decide
      simp only [if_pos hne] at h
      simp only [hs] at h
      refine caseStepNorth_inv _ t1 f cur evs e1 ?_ p1 p2 ?_ ?_ ?_ ?_ h
      · rfl
      · exact p3
      · exact p4
      · exact p5
      · dsimp only
        rw [p7, p4, if_pos (by omega)]
        ring
    · -- STEP_SOUTH
      obtain ⟨p1, p2, p3, p4, p5, p6, p7, p8, p9⟩ := (RunInv_south t evs hs).1 hi
      have hne : t.m_bltState ≠ BLT_STATE_INITIALIZE := by rw [hs]; decide
      simp only [if_pos hne] at h
      simp only [hs] at h
      refine caseStepSouth_inv _ t1 f cur evs e1 ?_ p1 ?_ ?_ ?_ ?_ ?_ p8 ?_ h
      · rfl
      · exact p2
      · exact p3
      · exact p4
      · exact p5
      · exact p6
      · dsimp only
        rw [p9, List.head?_append_of_ne_nil]
        intro hnil
        rw [hnil] at p6
        simp at p6
        omega
    · -- ABORTED
      have hne : t.m_bltState ≠ BLT_STATE_INITIALIZE := by rw [hs]; decide
      simp only [if_pos hne] at h
      simp only [hs] at h
      cases h
      refine (RunInv_aborted _ _ rfl).2 ?_
      intro hc
      have hc1 : BLTEvent.computeBacklash ∈ evs := by simpa using hc
      exact Measured_congr t _ evs _ rfl rfl rfl rfl rfl (RunInv_measured t evs hi hc1)
    · -- TEST_CORRECTION
      obtain ⟨p1, p2⟩ := (RunInv_after t evs (Or.inl hs)).1 hi
      have hne : t.m_bltState ≠ BLT_STATE_INITIALIZE := by rw [hs]; decide
      simp only [if_pos hne] at h
      simp only [hs] at h
      obtain ⟨a1, a2, a3, a4, a5, -, -, a8⟩ := caseTestCorrection_keeps _ t1 f cur e1 rfl h
      exact RunInv_of_late t1 _ a8 (List.mem_append_left _ p1)
        (Measured_congr t t1 evs e1 a1 a2 a3 a4 a5 p2)
    all_goals
      have hl : t.Late := by unfold Late; simp [hs]
      have hh : DecMeasurementStep k t f = some (t1, e1) := by
        unfold DecMeasurementStep
        rw [hm]
        exact h
      obtain ⟨a1, -, -, -, -, a6, a7, a8, a9, a10⟩ := DecMeasurementStep_late k t t1 f e1 hl hh
      have hc := ((RunInv_after t evs (by simp [hs])).1 hi)
      exact RunInv_of_late t1 _ a1 (List.mem_append_left _ hc.1)
        (Measured_congr t t1 evs e1 a6 a7 a8 a9 a10 hc.2)

/-- Every sequence of steps keeps the run invariant. -/
theorem runSteps_inv (k : MeasurementConstants) (fs : List MeasurementFrame) :
    ∀ (t t1 : BacklashTool) (evs e1 : List BLTEvent), t.RunInv evs →
      runSteps k t evs fs = some (t1, e1) → t1.RunInv e1 := by
  induction fs with
  | nil =>
    intro t t1 evs e1 hi h
    simp only [runSteps, Option.some.injEq, Prod.mk.injEq] at h
    obtain ⟨rfl, rfl⟩ := h
    exact hi
  | cons f fs ih =>
    intro t t1 evs e1 hi h
    unfold runSteps at h
    cases hstep : DecMeasurementStep k t f with
    | none => rw [hstep] at h; cases h
    | some r =>
      obtain ⟨t2, e2⟩ := r
      rw [hstep] at h
      exact ih t2 t1 (evs ++ e2) e1 (DecMeasurementStep_inv k t t2 f evs e2 hi hstep) h

/-- The run invariant holds at the end of every measurement run. -/
theorem runMeasurement_inv (k : MeasurementConstants) (t t1 : BacklashTool) (drift : ℚ)
    (f0 : MeasurementFrame) (fs : List MeasurementFrame) (e1 : List BLTEvent)
    (h : runMeasurement k t drift f0 fs = some (t1, e1)) : t1.RunInv e1 := by
  unfold runMeasurement at h
  cases hstart : StartMeasurement k t drift f0 with
  | none => rw [hstart] at h; cases h
  | some r =>
    obtain ⟨t2, e2⟩ := r
    rw [hstart] at h
    dsimp only at h
    unfold StartMeasurement at hstart
    have h0 : RunInv { t with
        m_bltState := BLT_STATE_INITIALIZE
        m_driftPerSec := drift / 60
        m_northBLSteps := []
        m_southBLSteps := []
        m_stats := t.m_stats.Reset } [] := by
      exact (RunInv_pre _ _ (Or.inl rfl)).2 ⟨by simp, rfl, rfl, rfl, rfl, rfl⟩
    have h1 := DecMeasurementStep_inv k _ t2 f0 [] e2 h0 hstart
    rw [List.nil_append] at h1
    exact runSteps_inv k fs t2 t1 e2 e1 h1 h

/-! ### The first entry of the test correction -/

/-- The first entry of `case BLT_STATE_TEST_CORRECTION:` stores the results of
`ComputeBacklashPx`. -/
theorem caseTestCorrection_stored (t t1 : BacklashTool) (f : MeasurementFrame)
    (cur : PHD_Point) (e1 : List BLTEvent) (h0 : t.m_stepCount = 0)
    (h : caseTestCorrection t f cur = some (t1, e1)) : t1.Stored f.uninitNRate := by
  unfold caseTestCorrection at h
  rw [if_pos h0] at h
  cases hcomp : ComputeBacklashPx t.m_northBLSteps t.m_southBLSteps t.m_driftPerSec
      t.m_msmtStartTime t.m_msmtEndTime t.m_pulseWidth f.uninitNRate with
  | none => rw [hcomp] at h; cases h
  | some c =>
    rw [hcomp] at h
    dsimp only at h
    cases hms : c.bltMs with
    | none => rw [hms] at h; cases h
    | some ms =>
      rw [hms] at h
      dsimp only at h
      unfold abort at h
      split_ifs at h <;> cases h <;> exact ⟨c, ms, hcomp, hms, rfl, rfl, rfl, rfl⟩

/-- The first entry of `case BLT_STATE_TEST_CORRECTION:` on at most 3 north steps, with a
non-zero value `f.uninitNRate` in the uninitialised local of `ComputeBacklashPx`: the step
returns; it stores `MEASUREMENT_TOO_FEW_NORTH`, 0 px, 0 ms and that value as the rate, throws
no exception, schedules no test pulse and goes to `BLT_STATE_RESTORE`. -/
theorem caseTestCorrection_few_north (t : BacklashTool) (f : MeasurementFrame)
    (cur : PHD_Point) (h0 : t.m_stepCount = 0) (hn : t.m_northBLSteps.length ≤ 3)
    (hu : f.uninitNRate ≠ 0) :
    caseTestCorrection t f cur
      = some ({ t with
            m_Rslt := MeasurementResults.MEASUREMENT_TOO_FEW_NORTH
            m_backlashResultPx := 0
            m_backlashResultMs := 0
            m_northRate := f.uninitNRate
            m_bltState := BLT_STATE_RESTORE
            m_stepCount := 0 }, [BLTEvent.computeBacklash]) := by
  unfold caseTestCorrection
  rw [if_pos h0, ComputeBacklashPx_few_north _ _ _ _ _ _ _ hn hu]
  simp

theorem caseStepSouth_stored (t t1 : BacklashTool) (f : MeasurementFrame) (cur : PHD_Point)
    (e1 : List BLTEvent) (h : caseStepSouth t f cur = some (t1, e1))
    (hc : BLTEvent.computeBacklash ∈ e1) : t1.Stored f.uninitNRate ∧ t1.Late := by
  unfold caseStepSouth at h
  by_cases hlt : t.m_stepCount < t.m_northPulseCount
  · rw [if_pos hlt] at h
    cases h
    simp at hc
  · rw [if_neg hlt] at h
    exact ⟨caseTestCorrection_stored _ t1 f cur e1 rfl h,
      (caseTestCorrection_keeps _ t1 f cur e1 rfl h).2.2.2.2.2.2.2⟩

theorem caseStepNorth_stored (t t1 : BacklashTool) (f : MeasurementFrame) (cur : PHD_Point)
    (e1 : List BLTEvent) (h : caseStepNorth t f cur = some (t1, e1))
    (hc : BLTEvent.computeBacklash ∈ e1) : t1.Stored f.uninitNRate ∧ t1.Late := by
  rcases caseStepNorth_cases t t1 f cur e1 h with ⟨_, _, _, _, _, pw, rfl⟩ | ⟨_, rfl⟩
    | ⟨tm, hm, _⟩
  · simp at hc
  · simp at hc
  · exact caseStepSouth_stored tm t1 f cur e1 hm hc

/-- A step that calls `ComputeBacklashPx` stores its results and ends in a late state. -/
theorem DecMeasurementStep_stored (k : MeasurementConstants) (t t1 : BacklashTool)
    (f : MeasurementFrame) (e1 : List BLTEvent)
    (h : DecMeasurementStep k t f = some (t1, e1))
    (hc : BLTEvent.computeBacklash ∈ e1) : t1.Stored f.uninitNRate ∧ t1.Late := by
  have hh := h
  unfold DecMeasurementStep at h
  cases hm : f.currMountLocation with
  | none =>
    rw [hm] at h
    unfold abort at h
    cases h
    simp at hc
  | some cur =>
    rw [hm] at h
    cases hs : t.m_bltState
    · simp only [hs, ne_eq, not_true_eq_false, if_false] at h
      unfold caseInitialize at h
      dsimp only at h
      split_ifs at h <;> cases h <;> simp at hc
    · have hne : t.m_bltState ≠ BLT_STATE_INITIALIZE := by rw [hs]; decide
      simp only [if_pos hne] at h
      simp only [hs] at h
      rcases caseClearNorth_cases k _ t1 f cur _ e1 h with ⟨_, _, _, _, pw, rfl⟩ | ⟨_, rfl⟩
        | ⟨tp, hp, _⟩
      · simp at hc
      · simp at hc
      · exact caseStepNorth_stored tp t1 f cur e1 hp hc
    · have hne : t.m_bltState ≠ BLT_STATE_INITIALIZE := by rw [hs]; decide
      simp only [if_pos hne] at h
      simp only [hs] at h
      exact caseStepNorth_stored _ t1 f cur e1 h hc
    · have hne : t.m_bltState ≠ BLT_STATE_INITIALIZE := by rw [hs]; decide
      simp only [if_pos hne] at h
      simp only [hs] at h
      exact caseStepSouth_stored _ t1 f cur e1 h hc
    · have hl : t.Late := by unfold Late; simp [hs]
      exact absurd hc (DecMeasurementStep_late k t t1 f e1 hl hh).2.2.2.2.1
    · have hne : t.m_bltState ≠ BLT_STATE_INITIALIZE := by rw [hs]; decide
      simp only [if_pos hne] at h
      simp only [hs] at h
      by_cases h0 : t.m_stepCount = 0
      · refine ⟨caseTestCorrection_stored _ t1 f cur e1 ?_ h,
          (caseTestCorrection_keeps _ t1 f cur e1 rfl h).2.2.2.2.2.2.2⟩
        exact h0
      · exact absurd hc ((caseTestCorrection_keeps _ t1 f cur e1 rfl h).2.2.2.2.2.2.1 h0).1
    all_goals
      have hl : t.Late := by unfold Late; simp [hs]
      exact absurd hc (DecMeasurementStep_late k t t1 f e1 hl hh).2.2.2.2.1

/-! ### The count of accepted clearing moves -/

theorem caseRestore_accepted (t t1 : BacklashTool) (f : MeasurementFrame) (cur : PHD_Point)
    (e1 : List BLTEvent) (h : caseRestore t f cur = some (t1, e1)) :
    t1.m_acceptedMoves = t.m_acceptedMoves := by
  unfold caseRestore caseWrapup at h
  dsimp only at h
  split at h
  · cases h
  · rename_i t2 hr
    have h2 : t2.m_acceptedMoves = t.m_acceptedMoves := by
      split_ifs at hr <;> cases hr <;> rfl
    split_ifs at h <;> cases h <;> exact h2

theorem caseTestCorrection_accepted (t t1 : BacklashTool) (f : MeasurementFrame)
    (cur : PHD_Point) (e1 : List BLTEvent) (h : caseTestCorrection t f cur = some (t1, e1)) :
    t1.m_acceptedMoves = t.m_acceptedMoves := by
  unfold caseTestCorrection at h
  by_cases h0 : t.m_stepCount = 0
  · rw [if_pos h0] at h
    split at h
    · cases h
    · split at h
      · cases h
      · dsimp only at h
        unfold abort at h
        split_ifs at h <;> cases h <;> rfl
  · rw [if_neg h0] at h
    have := caseRestore_accepted _ t1 f cur e1 h
    exact this

theorem caseStepSouth_accepted (t t1 : BacklashTool) (f : MeasurementFrame) (cur : PHD_Point)
    (e1 : List BLTEvent) (h : caseStepSouth t f cur = some (t1, e1)) :
    t1.m_acceptedMoves = t.m_acceptedMoves := by
  unfold caseStepSouth at h
  by_cases hlt : t.m_stepCount < t.m_northPulseCount
  · rw [if_pos hlt] at h
    cases h
    rfl
  · rw [if_neg hlt] at h
    have := caseTestCorrection_accepted _ t1 f cur e1 h
    exact this

/-- The north steps, entered in `BLT_STATE_STEP_NORTH`, keep the count of accepted moves
and never end in `BLT_STATE_CLEAR_NORTH`. -/
theorem caseStepNorth_accepted (t t1 : BacklashTool) (f : MeasurementFrame) (cur : PHD_Point)
    (e1 : List BLTEvent) (hs : t.m_bltState = BLT_STATE_STEP_NORTH)
    (h : caseStepNorth t f cur = some (t1, e1)) :
    t1.m_acceptedMoves = t.m_acceptedMoves ∧ t1.m_bltState ≠ BLT_STATE_CLEAR_NORTH := by
  have hstate : t1.m_bltState ≠ BLT_STATE_CLEAR_NORTH := by
    rcases caseStepNorth_cases t t1 f cur e1 h with ⟨a1, _⟩ | ⟨a1, _⟩ | ⟨tm, hm, b0, _⟩
    · rw [a1, hs]; decide
    · rw [a1]; decide
    · rcases caseStepSouth_cases tm t1 f cur e1 hm with ⟨_, rfl, _⟩ | ⟨_, _, _, _, _, _, _, hl⟩
      · show tm.m_bltState ≠ BLT_STATE_CLEAR_NORTH
        rw [b0]
        decide
      · rcases hl with ⟨c, _⟩ | c | c | c | c <;> rw [c] <;> decide
  refine ⟨?_, hstate⟩
  unfold caseStepNorth at h
  by_cases hc : t.m_stepCount < t.m_northPulseCount ∧ OutOfRoom f = false
  · rw [if_pos hc] at h
    cases hadd : addNorthDelta t cur with
    | none => rw [hadd] at h; cases h
    | some t2 =>
      rw [hadd] at h
      obtain ⟨st, rfl, -⟩ := addNorthDelta_spec t t2 cur hadd
      dsimp only at h
      split_ifs at h <;> cases h <;> rfl
  · rw [if_neg hc] at h
    cases hadd : addNorthDelta { t with m_msmtEndTime := f.utcTimeMillis } cur with
    | none => rw [hadd] at h; cases h
    | some t2 =>
      rw [hadd] at h
      obtain ⟨st, rfl, -⟩ := addNorthDelta_spec _ t2 cur hadd
      dsimp only at h
      split_ifs at h with hab
      · unfold abort at h
        cases h
        rfl
      · have := caseStepSouth_accepted _ t1 f cur e1 h
        exact this

/-- A step of `case BLT_STATE_CLEAR_NORTH:` after the first clearing pulse: the count of
accepted moves afterwards is `acceptedAfter`; the tool stays in the clearing state only
with a count below `BACKLASH_MIN_COUNT`, and then the delta of this frame is kept in
`m_lastClearRslt`; and without the exemption and out-of-room exits it leaves the clearing
state for the north steps only with a count of at least `BACKLASH_MIN_COUNT`. -/
theorem caseClearNorth_accepted (k : MeasurementConstants) (t t1 : BacklashTool)
    (f : MeasurementFrame) (cur : PHD_Point) (decDelta : ℚ) (e1 : List BLTEvent)
    (hs : t.m_bltState = BLT_STATE_CLEAR_NORTH) (h0 : t.m_stepCount ≠ 0)
    (h : caseClearNorth k t f cur decDelta = some (t1, e1)) :
    t1.m_acceptedMoves = acceptedAfter k t decDelta ∧
    (t1.m_bltState = BLT_STATE_CLEAR_NORTH →
      t1.m_acceptedMoves < k.BACKLASH_MIN_COUNT ∧ t1.m_lastClearRslt = decDelta) ∧
    (|t.m_cumClearingDistance| ≤ (k.BACKLASH_EXEMPTION_DISTANCE : ℚ) → OutOfRoom f = false →
      t1.m_bltState ≠ BLT_STATE_CLEAR_NORTH → t1.m_bltState ≠ BLT_STATE_ABORTED →
      t1.m_acceptedMoves ≥ k.BACKLASH_MIN_COUNT) := by
  have leave : ∀ (t2 : BacklashTool),
      (t2.m_acceptedMoves ≥ k.BACKLASH_MIN_COUNT ∨ t2.m_backlashExemption = true
        ∨ OutOfRoom f = true) →
      leaveClearNorth k t2 f cur = some (t1, e1) →
      t1.m_acceptedMoves = t2.m_acceptedMoves ∧ t1.m_bltState ≠ BLT_STATE_CLEAR_NORTH := by
    intro t2 hc hl
    unfold leaveClearNorth at hl
    rw [if_pos hc] at hl
    cases hp : prepareNorth k t2 f with
    | none => rw [hp] at hl; cases hl
    | some tp =>
      rw [hp] at hl
      dsimp only at hl
      obtain ⟨a1, a2⟩ := caseStepNorth_accepted tp t1 f cur e1
        (prepareNorth_spec k t2 tp f hp).1 hl
      refine ⟨?_, a2⟩
      rw [a1]
      unfold prepareNorth at hp
      dsimp only at hp
      split_ifs at hp
      cases hp
      rfl
  unfold caseClearNorth at h
  rw [if_neg h0] at h
  dsimp only at h
  by_cases c1 : acceptedAfter k t decDelta < k.BACKLASH_MIN_COUNT
  · rw [if_pos c1] at h
    by_cases c2 : t.m_stepCount < k.MAX_CLEARING_STEPS
    · rw [if_pos c2] at h
      by_cases c3 : |t.m_cumClearingDistance| > (k.BACKLASH_EXEMPTION_DISTANCE : ℚ)
      · rw [if_pos c3] at h
        obtain ⟨a1, a2⟩ := leave
          { t with m_acceptedMoves := acceptedAfter k t decDelta, m_backlashExemption := true }
          (Or.inr (Or.inl rfl)) h
        exact ⟨a1, fun hs => absurd hs a2, fun hex => absurd c3 (not_lt.mpr hex)⟩
      · rw [if_neg c3] at h
        by_cases c4 : OutOfRoom f = false
        · rw [if_pos c4] at h
          cases h
          exact ⟨rfl, fun _ => ⟨c1, rfl⟩, fun _ _ hne _ => absurd hs hne⟩
        · rw [if_neg c4] at h
          obtain ⟨a1, a2⟩ := leave { t with m_acceptedMoves := acceptedAfter k t decDelta }
            (Or.inr (Or.inr (by simpa using c4))) h
          exact ⟨a1, fun hs => absurd hs a2, fun _ hoor => absurd hoor c4⟩
    · rw [if_neg c2] at h
      unfold abort at h
      cases h
      exact ⟨rfl, fun hh => BLTState.noConfusion hh, fun _ _ _ hne => absurd rfl hne⟩
  · rw [if_neg c1] at h
    obtain ⟨a1, a2⟩ := leave { t with m_acceptedMoves := acceptedAfter k t decDelta }
      (Or.inl (not_lt.mp c1)) h
    exact ⟨a1, fun hs => absurd hs a2, fun _ _ _ _ => by rw [a1]; exact not_lt.mp c1⟩

/-- The restore step entered with a zero step count and the star within the search region
of the starting point: with a positive `m_restoreCount` left in the tool it schedules a
SOUTH pulse and stops in `BLT_STATE_WRAPUP`; otherwise it schedules nothing and completes. -/
theorem caseRestore_near (t : BacklashTool) (f : MeasurementFrame) (cur : PHD_Point)
    (h0 : t.m_stepCount = 0) (hnear : |cur.Y - t.m_startingPoint.Y| ≤ (f.maxMovePixels : ℚ)) :
    (0 < t.m_restoreCount →
      caseRestore t f cur
        = some ({ t with m_bltState := BLT_STATE_WRAPUP, m_stepCount := t.m_stepCount + 1 },
            [BLTEvent.axisMove BLT_STATE_RESTORE SOUTH t.m_pulseWidth])) ∧
    (t.m_restoreCount ≤ 0 →
      caseRestore t f cur
        = some ({ t with m_bltState := BLT_STATE_COMPLETED }, [BLTEvent.cleanUp])) := by
  unfold caseRestore caseWrapup
  rw [if_pos h0, if_neg (not_lt.mpr hnear)]
  dsimp only
  constructor
  · intro hpos
    rw [if_pos (by omega)]
  · intro hle
    rw [if_neg (by omega)]

/-- A clearing move smaller than the expected distance leaves the count of accepted moves
as it is. -/
theorem acceptedAfter_small (k : MeasurementConstants) (t : BacklashTool) (decDelta : ℚ)
    (hsmall : |decDelta| < (k.BACKLASH_EXPECTED_DISTANCE : ℚ)) :
    acceptedAfter k t decDelta = t.m_acceptedMoves := by
  unfold acceptedAfter
  rw [if_neg (not_le.mpr hsmall)]

end BacklashTool

open BacklashTool BLTState

/-- C33 (code defect, evaluation at the failing input): the source wants "3 consecutive
moves of >= expected distance" before the north steps.  With the sample constants
(`BACKLASH_EXPECTED_DISTANCE = 4`, `BACKLASH_MIN_COUNT = 3`) and the clearing moves `+5`,
`+1`, `+5`, `+5`: after `+5` one move is accepted; the move `+1` is too small, and the count
stays 1 where the rule of the specification gives 0; the next two moves bring the count to
2 and 3, and the tool enters `BLT_STATE_STEP_NORTH` (its first north pulse is scheduled)
although the three accepted moves were not three consecutive frames. -/
theorem C33_accepted_moves_not_consecutive :
    (sampleRunAt 2).1.m_bltState = BLT_STATE_CLEAR_NORTH ∧
    (sampleRunAt 2).1.m_acceptedMoves = 1 ∧ (sampleRunAt 2).1.m_lastClearRslt = 5 ∧
    acceptedAfter sampleConstants (sampleRunAt 2).1 1 = 1 ∧
    acceptedSpec sampleConstants 1 5 1 = 0 ∧
    (sampleRunAt 3).1.m_bltState = BLT_STATE_CLEAR_NORTH ∧
    (sampleRunAt 3).1.m_acceptedMoves = 1 ∧
    (sampleRunAt 4).1.m_acceptedMoves = 2 ∧
    (sampleRunAt 5).1.m_acceptedMoves = 3 ∧
    (sampleRunAt 5).1.m_bltState = BLT_STATE_STEP_NORTH ∧
    northPulses (sampleRunAt 5).2 = 1 := by
  decide!

/-- The count of accepted clearing moves after a step in `BLT_STATE_CLEAR_NORTH`, for every
frame after the first clearing pulse on which the step returns, with `d` the Dec move since
the marker point: `old + 1` if `|d| >= BACKLASH_EXPECTED_DISTANCE` and (`old = 0` or `d` has
the sign of `m_lastClearRslt`, the move of the previous frame), 0 if
`|d| >= BACKLASH_EXPECTED_DISTANCE` otherwise, and `old` if `d` is smaller.  The tool
stays in the clearing state only with a count below `BACKLASH_MIN_COUNT`, and then
`m_lastClearRslt` becomes `d`; and without the exemption-distance and out-of-room exits it
goes on to the north steps only with a count of at least `BACKLASH_MIN_COUNT`. -/
theorem DecMeasurementStep_accepted (k : MeasurementConstants) (t t1 : BacklashTool)
    (f : MeasurementFrame) (cur : PHD_Point) (e1 : List BLTEvent)
    (hs : t.m_bltState = BLT_STATE_CLEAR_NORTH) (h0 : t.m_stepCount ≠ 0)
    (hm : f.currMountLocation = some cur)
    (h : DecMeasurementStep k t f = some (t1, e1)) :
    t1.m_acceptedMoves
      = (if |cur.Y - t.m_markerPoint.Y| ≥ (k.BACKLASH_EXPECTED_DISTANCE : ℚ) then
          (if t.m_acceptedMoves = 0 ∨ t.m_lastClearRslt * (cur.Y - t.m_markerPoint.Y) > 0 then
            t.m_acceptedMoves + 1
          else 0)
        else t.m_acceptedMoves) ∧
    (t1.m_bltState = BLT_STATE_CLEAR_NORTH →
      t1.m_acceptedMoves < k.BACKLASH_MIN_COUNT ∧
      t1.m_lastClearRslt = cur.Y - t.m_markerPoint.Y) ∧
    (|t.m_cumClearingDistance + (cur.Y - t.m_markerPoint.Y)|
        ≤ (k.BACKLASH_EXEMPTION_DISTANCE : ℚ) →
      OutOfRoom f = false → t1.m_bltState ≠ BLT_STATE_CLEAR_NORTH →
      t1.m_bltState ≠ BLT_STATE_ABORTED → t1.m_acceptedMoves ≥ k.BACKLASH_MIN_COUNT) := by
  unfold DecMeasurementStep at h
  rw [hm] at h
  have hne : t.m_bltState ≠ BLT_STATE_INITIALIZE := by rw [hs]; decide
  simp only [if_pos hne] at h
  simp only [hs] at h
  have key := caseClearNorth_accepted k _ t1 f cur _ e1 rfl (by exact h0) h
  unfold acceptedAfter at key
  exact key

/-- The run on `toolIdle` fed `sampleFrames` ends completed, with 4 north pulses, 4 south
pulses, 5 north steps, 5 south steps and 4 samples. -/
theorem sampleRun_measured :
    sampleRunEnd.1.m_bltState = BLT_STATE_COMPLETED ∧
    northPulses sampleRunEnd.2 = 4 ∧ southPulses sampleRunEnd.2 = 4 ∧
    sampleRunEnd.1.m_northBLSteps = [16, 41, 66, 91, 116] ∧
    sampleRunEnd.1.m_southBLSteps = [116, 116, 116, 91, 66] ∧
    sampleRunEnd.1.m_stats.count = 4 := by
  decide!

/-- The run on `toolIdle` fed `truncatedFrames`: the third frame of the north steps finds the
star out of room after 2 of the 4 north pulses, and the north phase ends with 3 north steps;
two south pulses follow; `ComputeBacklashPx` then reports `MEASUREMENT_TOO_FEW_NORTH` with
0 px, 0 ms and the content 1/3 of its uninitialised local as the rate, and the run goes on
to `BLT_STATE_RESTORE` and completes on the next frame. -/
theorem truncatedRun_trace :
    (truncatedRunAt 6).1.m_bltState = BLT_STATE_STEP_NORTH ∧
    (truncatedRunAt 6).1.m_northPulseCount = 4 ∧ northPulses (truncatedRunAt 6).2 = 2 ∧
    OutOfRoom (frameAtEdge 66 6000) = true ∧
    (truncatedRunAt 7).1.m_bltState = BLT_STATE_STEP_SOUTH ∧
    (truncatedRunAt 7).1.m_northPulseCount = 2 ∧
    (truncatedRunAt 7).1.m_northBLSteps = [16, 41, 66] ∧
    (truncatedRunAt 8).1.m_bltState = BLT_STATE_STEP_SOUTH ∧
    (truncatedRunAt 9).1.m_bltState = BLT_STATE_RESTORE ∧
    (truncatedRunAt 9).1.m_Rslt = MeasurementResults.MEASUREMENT_TOO_FEW_NORTH ∧
    (truncatedRunAt 9).1.m_backlashResultPx = 0 ∧
    (truncatedRunAt 9).1.m_backlashResultMs = 0 ∧
    (truncatedRunAt 9).1.m_northRate = 1 / 3 ∧
    BLTEvent.computeBacklash ∈ (truncatedRunAt 9).2 ∧
    (truncatedRunAt 10).1.m_bltState = BLT_STATE_COMPLETED := by
  decide!

/-- C34: for every measurement run started with `StartMeasurement` that runs to its end
and has reached the test correction (`ComputeBacklashPx` has been called, which is the case
in the states `BLT_STATE_TEST_CORRECTION`, `BLT_STATE_RESTORE`, `BLT_STATE_WRAPUP` and
`BLT_STATE_COMPLETED`), also when the north steps were cut short by `OutOfRoom`: the number
of SOUTH pulses scheduled under `BLT_STATE_STEP_SOUTH` is the number `N` of NORTH pulses
scheduled under `BLT_STATE_STEP_NORTH`, both step lists hold `N + 1` values, the last north
step is the first south step, and the statistics hold `N` samples. -/
theorem C34_pulse_counts (k : MeasurementConstants) (t t1 : BacklashTool) (drift : ℚ)
    (f0 : MeasurementFrame) (fs : List MeasurementFrame) (e1 : List BLTEvent)
    (hrun : runMeasurement k t drift f0 fs = some (t1, e1))
    (hreach : BLTEvent.computeBacklash ∈ e1 ∨ t1.m_bltState = BLT_STATE_TEST_CORRECTION
      ∨ t1.m_bltState = BLT_STATE_RESTORE ∨ t1.m_bltState = BLT_STATE_WRAPUP
      ∨ t1.m_bltState = BLT_STATE_COMPLETED) :
    BLTEvent.computeBacklash ∈ e1 ∧
    southPulses e1 = northPulses e1 ∧
    t1.m_northBLSteps.length = northPulses e1 + 1 ∧
    t1.m_southBLSteps.length = northPulses e1 + 1 ∧
    t1.m_northBLSteps.getLast? = t1.m_southBLSteps.head? ∧
    t1.m_stats.count = (northPulses e1 : Int) := by
  have hi := runMeasurement_inv k t t1 drift f0 fs e1 hrun
  have hc : BLTEvent.computeBacklash ∈ e1 := by
    rcases hreach with h | h
    · exact h
    · exact ((RunInv_after t1 e1 h).1 hi).1
  exact ⟨hc, RunInv_measured t1 e1 hi hc⟩

/-- C34 (witness): the run on `toolIdle` fed `truncatedFrames`, whose north phase is cut
short by `OutOfRoom` after 2 of the 4 north pulses, ends completed with 2 north pulses,
2 south pulses, 3 north steps, 3 south steps and 2 samples. -/
theorem C34_pulse_counts_witness :
    (truncatedRunAt 6).1.m_northPulseCount = 4 ∧
    (truncatedRunAt 10).1.m_bltState = BLT_STATE_COMPLETED ∧
    northPulses (truncatedRunAt 10).2 = 2 ∧ southPulses (truncatedRunAt 10).2 = 2 ∧
    (truncatedRunAt 10).1.m_northBLSteps = [16, 41, 66] ∧
    (truncatedRunAt 10).1.m_southBLSteps = [66, 66, 41] ∧
    (truncatedRunAt 10).1.m_stats.count = 2 ∧
    (BLTEvent.computeBacklash ∈ (truncatedRunAt 10).2 ∧
      southPulses (truncatedRunAt 10).2 = northPulses (truncatedRunAt 10).2 ∧
      (truncatedRunAt 10).1.m_northBLSteps.length = northPulses (truncatedRunAt 10).2 + 1 ∧
      (truncatedRunAt 10).1.m_southBLSteps.length = northPulses (truncatedRunAt 10).2 + 1 ∧
      (truncatedRunAt 10).1.m_northBLSteps.getLast?
        = (truncatedRunAt 10).1.m_southBLSteps.head? ∧
      (truncatedRunAt 10).1.m_stats.count = (northPulses (truncatedRunAt 10).2 : Int)) :=
  ⟨by decide!, by decide!, by decide!, by decide!, by decide!, by decide!, by decide!,
    C34_pulse_counts sampleConstants toolIdle (truncatedRunAt 10).1 0 (frameAt 0 0)
      (truncatedFrames.take 10) (truncatedRunAt 10).2 (by decide!)
      (Or.inr (Or.inr (Or.inr (Or.inr (by decide!)))))⟩

/-- C35 (code defect, evaluation at the failing input): a first run on `toolIdle` needs 4
restore pulses and completes, leaving `m_restoreCount = 4`.  In the second run on the same
tool the step after the test pulse enters the restore case with the star 41 px from the
starting point, inside the search region of 100 px: the step schedules a SOUTH pulse of
2500 ms under `BLT_STATE_RESTORE` and stops in `BLT_STATE_WRAPUP`, not in
`BLT_STATE_COMPLETED`. -/
theorem C35_stale_restore_count :
    firstRunEnd.1.m_bltState = BLT_STATE_COMPLETED ∧ firstRunEnd.1.m_restoreCount = 4 ∧
    secondRunTest.1.m_bltState = BLT_STATE_TEST_CORRECTION ∧
    secondRunTest.1.m_stepCount = 1 ∧ secondRunTest.1.m_restoreCount = 4 ∧
    secondRunTest.1.m_startingPoint.Y = 0 ∧
    |(41 : ℚ) - secondRunTest.1.m_startingPoint.Y| ≤ ((frameAt 41 13000).maxMovePixels : ℚ) ∧
    (DecMeasurementStep sampleConstants secondRunTest.1 (frameAt 41 13000)).map
        (fun r => (r.1.m_bltState, r.2))
      = some (BLT_STATE_WRAPUP, [BLTEvent.axisMove BLT_STATE_RESTORE SOUTH 2500]) := by
  decide!

/-- The sample run: the step on the frame after the last south pulse calls
`ComputeBacklashPx` and stores `MEASUREMENT_VALID`, 40 px, 4000 ms and the rate 1/100; two
more frames, with a residual of 41 px after the test pulse, complete the run and leave the
three values. -/
theorem sampleRun_results :
    BLTEvent.computeBacklash ∈ (stepEnd (sampleRunAt 12).1 (frameAt 66 12000)).2 ∧
    (stepEnd (sampleRunAt 12).1 (frameAt 66 12000)).1.m_Rslt
      = MeasurementResults.MEASUREMENT_VALID ∧
    (stepEnd (sampleRunAt 12).1 (frameAt 66 12000)).1.m_backlashResultPx = 40 ∧
    (stepEnd (sampleRunAt 12).1 (frameAt 66 12000)).1.m_backlashResultMs = 4000 ∧
    (stepEnd (sampleRunAt 12).1 (frameAt 66 12000)).1.m_northRate = 1 / 100 ∧
    (runEnd (stepEnd (sampleRunAt 12).1 (frameAt 66 12000)).1 []
      [frameAt 41 13000, frameAt 41 14000]).1.m_bltState = BLT_STATE_COMPLETED ∧
    (runEnd (stepEnd (sampleRunAt 12).1 (frameAt 66 12000)).1 []
      [frameAt 41 13000, frameAt 41 14000]).1.m_backlashResultPx = 40 ∧
    (runEnd (stepEnd (sampleRunAt 12).1 (frameAt 66 12000)).1 []
      [frameAt 41 13000, frameAt 41 14000]).1.m_backlashResultMs = 4000 ∧
    (runEnd (stepEnd (sampleRunAt 12).1 (frameAt 66 12000)).1 []
      [frameAt 41 13000, frameAt 41 14000]).1.m_northRate = 1 / 100 := by
  decide!

/-- C36: every step that calls `ComputeBacklashPx` (the first entry of the test
correction) returns as soon as that call and the conversions of its results are defined,
whatever the verdict short of the two that abort the run; the verdict and the results
stored are those of `ComputeBacklashPx` on the recorded steps (`MEASUREMENT_TOO_FEW_NORTH`
with 0 px for at most 3 north steps), and the tool is then in a late state; whatever steps
follow (a second entry of the test correction with any residual, restore, wrap-up,
completed, aborted), the stored `m_backlashResultPx`, `m_backlashResultMs` and
`m_northRate` are unchanged and `ComputeBacklashPx` is not called again. -/
theorem C36_results_frozen (k : MeasurementConstants) (t t1 t2 : BacklashTool)
    (f : MeasurementFrame) (fs : List MeasurementFrame) (e1 e2 : List BLTEvent)
    (hstep : DecMeasurementStep k t f = some (t1, e1))
    (hc : BLTEvent.computeBacklash ∈ e1)
    (hrun : runSteps k t1 [] fs = some (t2, e2)) :
    t1.Stored f.uninitNRate ∧
    (t1.m_northBLSteps.length ≤ 3 →
      t1.m_Rslt = MeasurementResults.MEASUREMENT_TOO_FEW_NORTH ∧ t1.m_backlashResultPx = 0 ∧
      t1.m_northRate = f.uninitNRate) ∧
    t2.m_backlashResultPx = t1.m_backlashResultPx ∧
    t2.m_backlashResultMs = t1.m_backlashResultMs ∧
    t2.m_northRate = t1.m_northRate ∧
    BLTEvent.computeBacklash ∉ e2 := by
  obtain ⟨hst, hl⟩ := DecMeasurementStep_stored k t t1 f e1 hstep hc
  obtain ⟨_, a2, a3, a4, a5⟩ := runSteps_late k fs t1 t2 [] e2 hl hrun
  refine ⟨hst, ?_, a2, a3, a4, fun hmem => by simpa using a5 hmem⟩
  intro hlen
  obtain ⟨c, ms, hcomp, _, hr, hpx, _, hnr⟩ := hst
  unfold ComputeBacklashPx at hcomp
  rw [if_neg (by omega)] at hcomp
  simp only [Option.some.injEq] at hcomp
  subst hcomp
  exact ⟨hr, hpx, hnr⟩

/-- C36 (witness): the run on `truncatedFrames`, cut short after 2 north pulses: the step on
the frame after the last south pulse calls `ComputeBacklashPx` on 3 north steps and stores
`MEASUREMENT_TOO_FEW_NORTH`, 0 px, 0 ms and the rate 1/3 found in the uninitialised local;
the next frame completes the run and leaves the three values. -/
theorem C36_results_frozen_witness :
    (truncatedRunAt 8).1.m_bltState = BLT_STATE_STEP_SOUTH ∧
    (truncatedRunAt 8).1.m_northBLSteps = [16, 41, 66] ∧
    truncatedStored.1.m_Rslt = MeasurementResults.MEASUREMENT_TOO_FEW_NORTH ∧
    truncatedStored.1.m_backlashResultPx = 0 ∧
    truncatedStored.1.m_backlashResultMs = 0 ∧
    truncatedStored.1.m_northRate = 1 / 3 ∧
    truncatedStored.1.m_bltState = BLT_STATE_RESTORE ∧
    truncatedDone.1.m_bltState = BLT_STATE_COMPLETED ∧
    (truncatedStored.1.Stored frameCompute.uninitNRate ∧
      (truncatedStored.1.m_northBLSteps.length ≤ 3 →
        truncatedStored.1.m_Rslt = MeasurementResults.MEASUREMENT_TOO_FEW_NORTH ∧
        truncatedStored.1.m_backlashResultPx = 0 ∧
        truncatedStored.1.m_northRate = frameCompute.uninitNRate) ∧
      truncatedDone.1.m_backlashResultPx = truncatedStored.1.m_backlashResultPx ∧
      truncatedDone.1.m_backlashResultMs = truncatedStored.1.m_backlashResultMs ∧
      truncatedDone.1.m_northRate = truncatedStored.1.m_northRate ∧
      BLTEvent.computeBacklash ∉ truncatedDone.2) :=
  ⟨by decide!, by decide!, by decide!, by decide!, by decide!, by decide!, by decide!,
    by decide!,
    C36_results_frozen sampleConstants (truncatedRunAt 8).1 truncatedStored.1 truncatedDone.1
      frameCompute [frameAt 41 9000] truncatedStored.2 truncatedDone.2
      (by decide!) (by decide!) (by decide!)⟩

end BLC
